import Mathlib

/-!
# xarrow: `AlignedBuffer` / `AlignedArray` / `AlignedVector`

A shallow embedding of `include/aligned_vector.hpp`, of `ReleaseManager` and the
array exports of `XArrowNonNull` of `include/xarrow.hpp`, and of the type-tag
functions of `include/data_types.hpp`.

Modelling conventions.

* Memory is a heap of typed blocks.  A block is the list of the `T` cells that an
  `AlignedArray<T>` constructed with that element count addresses; a cell is `none`
  while it holds an indeterminate (never written) value.  The padding that
  `align_round` adds behind the last cell is not part of a block.
* A pointer is a natural number, `0` is `nullptr`.  Accesses outside a live block
  are undefined behaviour in C++; here such a write leaves the heap as it is and
  such a read yields `none`, and the properties are stated for vectors whose
  block is live (`Valid`).
* `std::aligned_alloc` may return `nullptr`: the heap carries the outcomes of the
  coming calls (`oom`), so allocation failure is an input of every theorem.
* `size_t` quantities are natural numbers.  The sections on `AlignedBuffer`,
  `AlignedArray` and `AlignedVector` take sizes, capacities and indices without
  wrap-around at `SIZE_MAX`, allocate an array as its cells and take an element
  argument by value; `align_round` is evaluated modulo `2 ^ 64`.
* The section *The vector on the machine* gives the functions whose behaviour depends
  on that (allocation, growth, `push_back`, `emplace_back`, `resize`, copying and
  `operator==`) with the `size_t` arithmetic modulo `2 ^ 64`, the byte size of the
  allocation, reference arguments, the `operator==` of the element type and
  undefined behaviour as a result.  The two levels agree where no size wraps around,
  no reference dangles and no access leaves a block.
* Methods take the object (and the heap) and return the new object (and heap).
  Methods that can throw return an `Outcome`, which keeps the state the
  exception leaves behind.  Operations on two objects that test `this != &other`
  run on a `World`, where objects are addressed by an identifier.
-/

namespace xarrow

/-- Addresses. `0` is `nullptr`. -/
abbrev Ptr := Nat

/-- One storage cell of the element type; `none` is an indeterminate value. -/
abbrev Cell (α : Type) := Option α

/-- The exceptions thrown by the container. -/
inductive Exn where
  | bad_alloc
  | out_of_range
deriving DecidableEq, Repr

/-- The allocator state: the live blocks, and for each coming call of
`std::aligned_alloc` whether it returns `nullptr` (`true`); when the list is
used up every call succeeds. -/
structure Heap (α : Type) where
  blocks : List (Ptr × List (Cell α))
  oom : List Bool
deriving DecidableEq, Repr

/-- The cells of the first block at `p` in a list of blocks. -/
def lookup_blocks {α : Type} : List (Ptr × List (Cell α)) → Ptr → Option (List (Cell α))
  | [], _ => none
  | e :: rest, p => if e.1 = p then some e.2 else lookup_blocks rest p

/-- The cells of the live block at `p`, if any. -/
def Heap.lookup {α : Type} (h : Heap α) (p : Ptr) : Option (List (Cell α)) :=
  lookup_blocks h.blocks p

/-- An address that is not `nullptr` and not the address of a live block. -/
def Heap.fresh {α : Type} (h : Heap α) : Ptr :=
  (h.blocks.map Prod.fst).foldr max 0 + 1

/-- The heap after a successful allocation of `n` cells at the fresh address. -/
def Heap.allocated {α : Type} (h : Heap α) (n : Nat) : Heap α :=
  { blocks := (h.fresh, List.replicate n none) :: h.blocks, oom := h.oom.tail }

/-- The heap after a refused allocation. -/
def Heap.refused {α : Type} (h : Heap α) : Heap α :=
  { h with oom := h.oom.tail }

/-- Replace the cells of the block at `p`. -/
def Heap.store {α : Type} (h : Heap α) (p : Ptr) (cells : List (Cell α)) : Heap α :=
  { h with blocks := h.blocks.map (fun e => if e.1 = p then (p, cells) else e) }

/-- Reading `p[i]`; `none` when the cell is indeterminate or `p[i]` is not storage
of a live block. -/
def Heap.load {α : Type} (h : Heap α) (p : Ptr) (i : Nat) : Cell α :=
  match h.lookup p with
  | some cells => cells[i]?.join
  | none => none

/-- Writing `p[i] = x`. -/
def Heap.write {α : Type} (h : Heap α) (p : Ptr) (i : Nat) (x : α) : Heap α :=
  match h.lookup p with
  | some cells => h.store p (cells.set i (some x))
  | none => h

/-- The call `std::aligned_alloc(Alignment, bytes)` for `n` elements: `nullptr`
(`none`) when the allocator refuses, otherwise a new block of `n` indeterminate
cells.  How many cells the requested bytes hold is the caller's matter
(`Machine.AlignedArray.ctor_size` computes it from the byte size). -/
def aligned_alloc {α : Type} (n : Nat) (h : Heap α) : Option Ptr × Heap α :=
  if h.oom.head? = some true then (none, h.refused)
  else (some h.fresh, h.allocated n)

/-- The call `std::free(p)`; a no-op on `nullptr`. -/
def free {α : Type} (p : Ptr) (h : Heap α) : Heap α :=
  if p = 0 then h else { h with blocks := h.blocks.filter (fun e => !decide (e.1 = p)) }

/-- The call `std::memcpy(dst, src, n * sizeof(T))`. -/
def memcpy {α : Type} (dst src : Ptr) (n : Nat) (h : Heap α) : Heap α :=
  match h.lookup dst, h.lookup src with
  | some d, some s =>
    if n ≤ d.length ∧ n ≤ s.length then h.store dst (s.take n ++ d.drop n) else h
  | _, _ => h

/-- The call `std::uninitialized_fill(p + lo, p + hi, value)`. -/
def uninitialized_fill {α : Type} (p : Ptr) (lo hi : Nat) (value : α) (h : Heap α) : Heap α :=
  match h.lookup p with
  | some cells =>
    if lo ≤ hi ∧ hi ≤ cells.length then
      h.store p (cells.take lo ++ List.replicate (hi - lo) (some value) ++ cells.drop hi)
    else h
  | none => h

/-- The call `std::uninitialized_fill_n(p, count, value)`. -/
def uninitialized_fill_n {α : Type} (p : Ptr) (count : Nat) (value : α) (h : Heap α) : Heap α :=
  uninitialized_fill p 0 count value h

/-- The next call of `std::aligned_alloc` succeeds. -/
def Heap.grants {α : Type} (h : Heap α) : Prop := h.oom.head? ≠ some true

/-- Every coming call of `std::aligned_alloc` succeeds. -/
def Heap.plentiful {α : Type} (h : Heap α) : Prop := true ∉ h.oom

instance {α : Type} (h : Heap α) : Decidable h.grants := by
  unfold Heap.grants; infer_instance

instance {α : Type} (h : Heap α) : Decidable h.plentiful := by
  unfold Heap.plentiful; infer_instance

/-! ## align_round -/

/-- The number of values of `size_t` (64 bits). -/
def SIZE_MOD : Nat := 2 ^ 64

/-- `align_round(size, align)`, which is `(size + align - 1) / align * align` evaluated
in `size_t`: the sum, the decrement and the product wrap around at `SIZE_MOD`. -/
def align_round (size align : Nat) : Nat :=
  ((((size + align) % SIZE_MOD + (SIZE_MOD - 1)) % SIZE_MOD) / align * align) % SIZE_MOD

/-- The byte size that `AlignedBuffer<Alignment>(size)` passes to `std::aligned_alloc`. -/
def AlignedBuffer.alloc_size (Alignment size : Nat) : Nat := align_round size Alignment

/-! ## AlignedBuffer -/

/-- The struct `AlignedBuffer<Alignment>`: one owned raw allocation. -/
structure AlignedBuffer where
  data_ : Ptr
deriving DecidableEq, Repr

/-- `AlignedBuffer()`. -/
def AlignedBuffer.ctor : AlignedBuffer := { data_ := 0 }

/-- `AlignedBuffer(size)` for `n` elements: throws `bad_alloc` (`none`) when
`aligned_alloc` returns `nullptr`. -/
def AlignedBuffer.ctor_size {α : Type} (n : Nat) (h : Heap α) : Option AlignedBuffer × Heap α :=
  match aligned_alloc n h with
  | (some p, h1) => (some { data_ := p }, h1)
  | (none, h1) => (none, h1)

/-- `~AlignedBuffer()`. -/
def AlignedBuffer.dtor {α : Type} (b : AlignedBuffer) (h : Heap α) : Heap α :=
  free b.data_ h

/-- `AlignedBuffer(AlignedBuffer&&)`: the new buffer and the moved-from one. -/
def AlignedBuffer.move_ctor (other : AlignedBuffer) : AlignedBuffer × AlignedBuffer :=
  ({ data_ := other.data_ }, { data_ := 0 })

/-- `operator=(AlignedBuffer&&)` between two distinct buffers: swaps the pointers. -/
def AlignedBuffer.move_assign (self other : AlignedBuffer) : AlignedBuffer × AlignedBuffer :=
  ({ data_ := other.data_ }, { data_ := self.data_ })

/-- `AlignedBuffer::_leak`. -/
def AlignedBuffer._leak (_b : AlignedBuffer) : AlignedBuffer := { data_ := 0 }

/-- `std::swap` on two distinct buffers, through the move constructor and the
move assignment; the temporary ends up holding `nullptr`. -/
def AlignedBuffer.std_swap (a b : AlignedBuffer) : AlignedBuffer × AlignedBuffer :=
  let (tmp, a1) := AlignedBuffer.move_ctor a
  let (a2, b1) := AlignedBuffer.move_assign a1 b
  let (b2, _) := AlignedBuffer.move_assign b1 tmp
  (a2, b2)

/-! ## AlignedArray -/

/-- The struct `AlignedArray<T, Alignment>`. -/
structure AlignedArray where
  size_ : Nat
  buffer_ : AlignedBuffer
deriving DecidableEq, Repr

/-- `AlignedArray::data()`. -/
def AlignedArray.data (a : AlignedArray) : Ptr := a.buffer_.data_

/-- `AlignedArray::size()`. -/
def AlignedArray.size (a : AlignedArray) : Nat := a.size_

/-- `AlignedArray()`. -/
def AlignedArray.ctor : AlignedArray := { size_ := 0, buffer_ := AlignedBuffer.ctor }

/-- `AlignedArray(element_size)`. -/
def AlignedArray.ctor_size {α : Type} (element_size : Nat) (h : Heap α) :
    Option AlignedArray × Heap α :=
  match AlignedBuffer.ctor_size element_size h with
  | (some b, h1) => (some { size_ := element_size, buffer_ := b }, h1)
  | (none, h1) => (none, h1)

/-- `AlignedArray(AlignedArray const&)`: a new array of `other.size_` elements and a
`memcpy` of `size_ * sizeof(T)` bytes. -/
def AlignedArray.copy_ctor {α : Type} (other : AlignedArray) (h : Heap α) :
    Option AlignedArray × Heap α :=
  match AlignedArray.ctor_size other.size_ h with
  | (some a, h1) => (some a, memcpy a.data other.data a.size_ h1)
  | (none, h1) => (none, h1)

/-- `~AlignedArray()`. -/
def AlignedArray.dtor {α : Type} (a : AlignedArray) (h : Heap α) : Heap α :=
  a.buffer_.dtor h

/-- `AlignedArray(AlignedArray&&)`: the new array and the moved-from one. -/
def AlignedArray.move_ctor (other : AlignedArray) : AlignedArray × AlignedArray :=
  let (b, ob) := AlignedBuffer.move_ctor other.buffer_
  ({ size_ := other.size_, buffer_ := b }, { size_ := 0, buffer_ := ob })

/-- `operator=(AlignedArray&&)` between two distinct arrays. -/
def AlignedArray.move_assign (self other : AlignedArray) : AlignedArray × AlignedArray :=
  let (b, ob) := AlignedBuffer.std_swap self.buffer_ other.buffer_
  ({ size_ := other.size_, buffer_ := b }, { size_ := self.size_, buffer_ := ob })

/-- `AlignedArray::_leak`. -/
def AlignedArray._leak (a : AlignedArray) : AlignedArray :=
  { size_ := 0, buffer_ := a.buffer_._leak }

/-- `std::swap` on two distinct arrays; the temporary ends up empty, its
destructor frees `nullptr`. -/
def AlignedArray.std_swap (a b : AlignedArray) : AlignedArray × AlignedArray :=
  let (tmp, a1) := AlignedArray.move_ctor a
  let (a2, b1) := AlignedArray.move_assign a1 b
  let (b2, _) := AlignedArray.move_assign b1 tmp
  (a2, b2)

/-! ## AlignedVector -/

/-- The class `AlignedVector<T, Alignment>`. -/
structure AlignedVector where
  size_ : Nat
  array_ : AlignedArray
deriving DecidableEq, Repr

/-- What a call that may throw leaves behind: the exception, if one was thrown,
the object and the heap. -/
structure Outcome (α : Type) where
  thrown : Option Exn
  vec : AlignedVector
  heap : Heap α
deriving DecidableEq, Repr

namespace AlignedVector

/-- `size()`. -/
def size (v : AlignedVector) : Nat := v.size_

/-- `capacity()`. -/
def capacity (v : AlignedVector) : Nat := v.array_.size

/-- `data()`. -/
def data (v : AlignedVector) : Ptr := v.array_.data

/-- `empty()`. -/
def empty (v : AlignedVector) : Bool := v.size_ == 0

/-- `reallocate(new_capacity)`. -/
def reallocate {α : Type} (new_capacity : Nat) (v : AlignedVector) (h : Heap α) : Outcome α :=
  if new_capacity = 0 then
    let (arr, tmp) := AlignedArray.std_swap v.array_ AlignedArray.ctor
    { thrown := none, vec := { size_ := 0, array_ := arr }, heap := tmp.dtor h }
  else
    match AlignedArray.ctor_size new_capacity h with
    | (none, h1) => { thrown := some Exn.bad_alloc, vec := v, heap := h1 }
    | (some new_array, h1) =>
      let h2 := if v.size_ > 0 then memcpy new_array.data v.data v.size_ h1 else h1
      let (old, arr) := AlignedArray.std_swap new_array v.array_
      { thrown := none, vec := { v with array_ := arr }, heap := old.dtor h2 }

/-- `ensure_capacity(required_capacity)`, the sum taken in the natural numbers
(`Machine.AlignedVector.ensure_capacity` takes it in `size_t`). -/
def ensure_capacity {α : Type} (required_capacity : Nat) (v : AlignedVector) (h : Heap α) :
    Outcome α :=
  if required_capacity > v.capacity then
    let new_capacity := max required_capacity (v.capacity + v.capacity / 2)
    let new_capacity := max new_capacity 4
    reallocate new_capacity v h
  else { thrown := none, vec := v, heap := h }

/-- `reserve(new_cap)`. -/
def reserve {α : Type} (new_cap : Nat) (v : AlignedVector) (h : Heap α) : Outcome α :=
  if new_cap > v.capacity then reallocate new_cap v h
  else { thrown := none, vec := v, heap := h }

/-- `shrink_to_fit()`. -/
def shrink_to_fit {α : Type} (v : AlignedVector) (h : Heap α) : Outcome α :=
  if v.size_ < v.capacity then reallocate v.size_ v h
  else { thrown := none, vec := v, heap := h }

/-- `clear()`. -/
def clear (v : AlignedVector) : AlignedVector := { v with size_ := 0 }

/-- `emplace_back(args...)` for an argument given by its value; the returned reference
is `data()[size() - 1]`.  (`Machine.AlignedVector.emplace_back` takes the argument as
the reference it is.) -/
def emplace_back {α : Type} (value : α) (v : AlignedVector) (h : Heap α) : Outcome α :=
  let r := ensure_capacity (v.size_ + 1) v h
  match r.thrown with
  | some _ => r
  | none =>
    { thrown := none, vec := { r.vec with size_ := r.vec.size_ + 1 },
      heap := r.heap.write r.vec.data r.vec.size_ value }

/-- `push_back(value)`. -/
def push_back {α : Type} (value : α) (v : AlignedVector) (h : Heap α) : Outcome α :=
  emplace_back value v h

/-- `pop_back()`. -/
def pop_back (v : AlignedVector) : AlignedVector :=
  if v.size_ > 0 then { v with size_ := v.size_ - 1 } else v

/-- `resize(count, value)` for a `value` given by its value.
(`Machine.AlignedVector.resize` takes it as the reference it is.) -/
def resize {α : Type} (count : Nat) (value : α) (v : AlignedVector) (h : Heap α) : Outcome α :=
  if count > v.size_ then
    let r := ensure_capacity count v h
    match r.thrown with
    | some _ => r
    | none =>
      { thrown := none, vec := { r.vec with size_ := count },
        heap := uninitialized_fill r.vec.data r.vec.size_ count value r.heap }
  else { thrown := none, vec := { v with size_ := count }, heap := h }

/-- `resize(count)`, which is `resize(count, T())`. -/
def resize_default {α : Type} [Zero α] (count : Nat) (v : AlignedVector) (h : Heap α) :
    Outcome α :=
  resize count (0 : α) v h

/-- `assign(count, value)`. -/
def assign {α : Type} (count : Nat) (value : α) (v : AlignedVector) (h : Heap α) : Outcome α :=
  let v0 := v.clear
  if count > 0 then
    let r := reserve count v0 h
    match r.thrown with
    | some _ => r
    | none =>
      { thrown := none, vec := { r.vec with size_ := count },
        heap := uninitialized_fill_n r.vec.data count value r.heap }
  else { thrown := none, vec := v0, heap := h }

/-- `at(pos)`: the reference `data()[pos]`, as the pointer and the index. -/
def at_ref (pos : Nat) (v : AlignedVector) : Except Exn (Ptr × Nat) :=
  if pos ≥ v.size_ then Except.error Exn.out_of_range else Except.ok (v.data, pos)

/-- Reading `at(pos)`. -/
def at_ {α : Type} (pos : Nat) (v : AlignedVector) (h : Heap α) : Except Exn (Cell α) :=
  match v.at_ref pos with
  | Except.ok (p, i) => Except.ok (h.load p i)
  | Except.error e => Except.error e

/-- Writing `at(pos) = x`. -/
def at_put {α : Type} (pos : Nat) (x : α) (v : AlignedVector) (h : Heap α) : Outcome α :=
  match v.at_ref pos with
  | Except.ok (p, i) => { thrown := none, vec := v, heap := h.write p i x }
  | Except.error e => { thrown := some e, vec := v, heap := h }

/-- `_leak()`. -/
def _leak (v : AlignedVector) : AlignedVector :=
  { size_ := 0, array_ := v.array_._leak }

/-- `~AlignedVector()`. -/
def dtor {α : Type} (v : AlignedVector) (h : Heap α) : Heap α := v.array_.dtor h

/-- `AlignedVector()`: `size_(0), array_(4)`; `none` when the allocation fails. -/
def ctor {α : Type} (h : Heap α) : Option AlignedVector × Heap α :=
  match AlignedArray.ctor_size 4 h with
  | (some a, h1) => (some { size_ := 0, array_ := a }, h1)
  | (none, h1) => (none, h1)

/-- `AlignedVector(const AlignedVector&)`: `size_(other.size_), array_(other.array_)`. -/
def copy_ctor {α : Type} (other : AlignedVector) (h : Heap α) : Option AlignedVector × Heap α :=
  match AlignedArray.copy_ctor other.array_ h with
  | (some a, h1) => (some { size_ := other.size_, array_ := a }, h1)
  | (none, h1) => (none, h1)

/-- `AlignedVector(AlignedVector&&)`: the new vector and the moved-from one. -/
def move_ctor (other : AlignedVector) : AlignedVector × AlignedVector :=
  let (a, oa) := AlignedArray.move_ctor other.array_
  ({ size_ := other.size_, array_ := a }, { size_ := 0, array_ := oa })

/-- The loop `for (auto const& x : xs) v.push_back(x);`. -/
def push_back_all {α : Type} (xs : List α) (v : AlignedVector) (h : Heap α) : Outcome α :=
  match xs with
  | [] => { thrown := none, vec := v, heap := h }
  | x :: rest =>
    let r := push_back x v h
    match r.thrown with
    | some _ => r
    | none => push_back_all rest r.vec r.heap

/-- The object is in a state the class can be in: `size_` does not exceed the
capacity, and `array_` is either the empty array (`nullptr`, no elements) or owns
a live block of exactly `capacity()` cells. -/
def Valid {α : Type} (h : Heap α) (v : AlignedVector) : Prop :=
  v.size_ ≤ v.capacity ∧
    if v.data = 0 then v.capacity = 0
    else (h.lookup v.data).map List.length = some v.capacity

instance {α : Type} (h : Heap α) (v : AlignedVector) : Decidable (Valid h v) := by
  unfold Valid; infer_instance

/-- The cells the vector holds: the first `size()` cells of its block. -/
def cells {α : Type} (h : Heap α) (v : AlignedVector) : List (Cell α) :=
  match h.lookup v.data with
  | some c => c.take v.size_
  | none => []

end AlignedVector

/-- The `operator==` of two vectors: equal sizes and `std::equal` over
`[lhs.begin(), lhs.end())`, for an element type whose `operator==` is the equality of
values, as for the integer types (`Machine.operator_eq` takes the `operator==` of `T`
as a parameter). -/
def operator_eq {α : Type} [DecidableEq α] (lhs rhs : AlignedVector) (h : Heap α) : Bool :=
  lhs.size == rhs.size &&
    (List.range lhs.size).all (fun i => h.load lhs.data i == h.load rhs.data i)

/-! ## Operations on two objects -/

/-- The heap and the vector objects, addressed by an identifier (their address). -/
structure World (α : Type) where
  heap : Heap α
  obj : Nat → AlignedVector

namespace World

/-- The assignment `operator=(const AlignedVector&)` of object `this` from object `other`. -/
def copy_assign {α : Type} (this other : Nat) (w : World α) : Option Exn × World α :=
  if this ≠ other then
    match AlignedVector.copy_ctor (w.obj other) w.heap with
    | (none, h1) => (some Exn.bad_alloc, { w with heap := h1 })
    | (some tmp, h1) =>
      let self := w.obj this
      let (arr, tarr) := AlignedArray.std_swap self.array_ tmp.array_
      let self1 : AlignedVector := { size_ := tmp.size_, array_ := arr }
      let tmp1 : AlignedVector := { size_ := self.size_, array_ := tarr }
      (none, { heap := tmp1.dtor h1, obj := Function.update w.obj this self1 })
  else (none, w)

/-- The assignment `operator=(AlignedVector&&)` of object `this` from object `other`. -/
def move_assign {α : Type} (this other : Nat) (w : World α) : World α :=
  if this ≠ other then
    let self := (w.obj this).clear
    let (arr, oarr) := AlignedArray.move_assign self.array_ (w.obj other).array_
    let self1 : AlignedVector := { size_ := (w.obj other).size_, array_ := arr }
    let other1 : AlignedVector := { size_ := 0, array_ := oarr }
    { w with obj := Function.update (Function.update w.obj this self1) other other1 }
  else w

/-- Calling a method on the object `k`. -/
def call {α : Type} (k : Nat) (method : AlignedVector → Heap α → Outcome α) (w : World α) :
    Option Exn × World α :=
  ((method (w.obj k) w.heap).thrown,
    { heap := (method (w.obj k) w.heap).heap,
      obj := Function.update w.obj k (method (w.obj k) w.heap).vec })

end World

/-! ## Sample states -/

/-- A heap with one block of four cells, two of them written. -/
def sample_heap : Heap Nat :=
  { blocks := [(1, [some 10, some 20, none, none])], oom := [] }

/-- A vector of size 2 and capacity 4 on the block of `sample_heap`. -/
def sample_vec : AlignedVector :=
  { size_ := 2, array_ := { size_ := 4, buffer_ := { data_ := 1 } } }

/-- A heap with the block of `sample_heap` and a second, full block of two cells. -/
def sample_heap2 : Heap Nat :=
  { blocks := [(1, [some 10, some 20, none, none]), (2, [some 7, some 8])], oom := [] }

/-- A vector of size 2 and capacity 2 on the second block of `sample_heap2`. -/
def sample_vec2 : AlignedVector :=
  { size_ := 2, array_ := { size_ := 2, buffer_ := { data_ := 2 } } }

/-- Two objects: `sample_vec` at 0 and `sample_vec2` everywhere else. -/
def sample_world : World Nat :=
  { heap := sample_heap2, obj := fun i => if i = 0 then sample_vec else sample_vec2 }

/-- The heap of `sample_heap` with an allocator that refuses the next request. -/
def sample_heap_oom : Heap Nat :=
  { blocks := [(1, [some 10, some 20, none, none])], oom := [true] }

/-! ## ReleaseManager

A shallow embedding of `ReleaseManager<T>` of `include/xarrow.hpp`.  A release
callback is external code: what is recorded of a call is the struct it was called on. -/

/-- An interchange struct (`ArrowSchema`, `ArrowArray`) as `ReleaseManager<T>` sees it:
the `release` member, a function pointer (`none` is `nullptr`), and the other members. -/
structure Interchange (β : Type) where
  release : Option Nat
  members : β
deriving DecidableEq, Repr

/-- The struct `ReleaseManager<T>`. -/
structure ReleaseManager (β : Type) where
  data_ : Interchange β
deriving DecidableEq, Repr

namespace ReleaseManager

/-- `ReleaseManager()`: `T data_{}`, with a null `release`. -/
def ctor {β : Type} (zero : β) : ReleaseManager β :=
  { data_ := { release := none, members := zero } }

/-- The manager holds a struct whose `release` is not null. -/
def armed {β : Type} (m : ReleaseManager β) : Bool := m.data_.release.isSome

/-- `ReleaseManager(ReleaseManager&&)`: the new manager and the moved-from one. -/
def move_ctor {β : Type} (other : ReleaseManager β) : ReleaseManager β × ReleaseManager β :=
  ({ data_ := other.data_ }, { data_ := { other.data_ with release := none } })

/-- `~ReleaseManager()`: calls `data_.release(&data_)` when `release` is not null.
Takes and returns the calls made so far, oldest first. -/
def dtor {β : Type} (m : ReleaseManager β) (calls : List (Interchange β)) :
    List (Interchange β) :=
  if m.data_.release ≠ none then calls ++ [m.data_] else calls

end ReleaseManager

/-- The manager objects, addressed by an identifier (their address), and the calls of
release callbacks made so far, oldest first. -/
structure Managers (β : Type) where
  obj : Nat → ReleaseManager β
  calls : List (Interchange β)

namespace Managers

/-- Move-constructing the new object `this` from the object `other`. -/
def move_ctor {β : Type} (this other : Nat) (w : Managers β) : Managers β :=
  { w with obj := Function.update (Function.update w.obj other (w.obj other).move_ctor.2)
                    this (w.obj other).move_ctor.1 }

/-- The assignment `operator=(ReleaseManager&&)` of object `this` from object `other`. -/
def move_assign {β : Type} (this other : Nat) (w : Managers β) : Managers β :=
  if this ≠ other then
    let calls1 :=
      if (w.obj this).data_.release ≠ none then w.calls ++ [(w.obj this).data_] else w.calls
    let self1 : ReleaseManager β := { data_ := (w.obj other).data_ }
    let other1 : ReleaseManager β := { data_ := { (w.obj other).data_ with release := none } }
    { obj := Function.update (Function.update w.obj this self1) other other1,
      calls := calls1 }
  else w

/-- Destroying the object `k`. -/
def dtor {β : Type} (k : Nat) (w : Managers β) : Managers β :=
  { w with calls := (w.obj k).dtor w.calls }

end Managers

/-- Two managers: an armed one at 0 (callback 5) and an armed one elsewhere (callback 6). -/
def sample_managers : Managers Nat :=
  { obj := fun i => if i = 0 then { data_ := { release := some 5, members := 100 } }
                    else { data_ := { release := some 6, members := 200 } },
    calls := [] }

/-! ## XArrowNonNull

A shallow embedding of the array exports of `XArrowNonNull<T>` of
`include/xarrow.hpp`, at `alignment = 64`.  A table of buffer pointers is the list of
its slots; `operator new` succeeding or throwing is an input of `to_array_move`. -/

/-- The release callbacks the array exports install: the empty lambda of
`to_array_ref`, and the lambda of `to_array_move`, which frees `buffers[1]` and
deletes the table. -/
inductive ArrayRelease where
  | noop
  | free_buffers
deriving DecidableEq, Repr

/-- The struct `ArrowArray`; `buffers` is the table the member points to. -/
structure ArrowArray where
  length : Int
  null_count : Int
  offset : Int
  n_buffers : Int
  n_children : Int
  buffers : List Ptr
  children : Ptr
  dictionary : Ptr
  release : Option ArrayRelease
  private_data : Ptr
deriving DecidableEq, Repr

/-- An `ArrowArray` with every member zero. -/
def ArrowArray.zero : ArrowArray :=
  { length := 0, null_count := 0, offset := 0, n_buffers := 0, n_children := 0,
    buffers := [], children := 0, dictionary := 0, release := none, private_data := 0 }

/-- Calling `array.release(&array)`, as far as the heap of elements goes. -/
def ArrowArray.call_release {α : Type} (array : ArrowArray) (h : Heap α) : Heap α :=
  match array.release with
  | some ArrayRelease.free_buffers => free (array.buffers.getD 1 0) h
  | _ => h

/-- The struct `XArrowNonNull<T>`. -/
structure XArrowNonNull where
  name_ : String
  data_ : AlignedVector
  buffers_ : List Ptr
deriving DecidableEq, Repr

namespace XArrowNonNull

/-- `XArrowNonNull(name)`: `name_(name), data_(), buffers_({nullptr, data_.data()})`;
`none` when the allocation of `data_` fails. -/
def ctor {α : Type} (name : String) (h : Heap α) : Option XArrowNonNull × Heap α :=
  match AlignedVector.ctor h with
  | (some v, h1) => (some { name_ := name, data_ := v, buffers_ := [0, v.data] }, h1)
  | (none, h1) => (none, h1)

/-- `XArrowNonNull(name, std::move(data))`: the handle and the moved-from vector. -/
def ctor_data (name : String) (data : AlignedVector) : XArrowNonNull × AlignedVector :=
  ({ name_ := name, data_ := data.move_ctor.1, buffers_ := [0, data.move_ctor.1.data] },
    data.move_ctor.2)

/-- `data()`, the reference to the vector. -/
def data (x : XArrowNonNull) : AlignedVector := x.data_

/-- Calling a method of the vector through `data()`. -/
def data_call {α : Type} (method : AlignedVector → Heap α → Outcome α) (x : XArrowNonNull)
    (h : Heap α) : Option Exn × XArrowNonNull × Heap α :=
  ((method x.data_ h).thrown, { x with data_ := (method x.data_ h).vec }, (method x.data_ h).heap)

/-- `to_array_ref(array)`. -/
def to_array_ref (x : XArrowNonNull) (array : ArrowArray) : ArrowArray :=
  { array with
      length := (x.data_.size : Int), null_count := 0, offset := 0, n_buffers := 2,
      n_children := 0, buffers := x.buffers_, children := 0, dictionary := 0,
      release := some ArrayRelease.noop, private_data := 0 }

/-- `to_array_move(array)`: the exception (`bad_alloc` when `new` throws, which leaves
the members set so far), the array and the handle. -/
def to_array_move (x : XArrowNonNull) (array : ArrowArray) (new_ok : Bool) :
    Option Exn × ArrowArray × XArrowNonNull :=
  let a1 : ArrowArray :=
    { array with
        length := (x.data_.size : Int), null_count := 0, offset := 0, n_buffers := 2,
        n_children := 0 }
  if new_ok then
    let b : List Ptr := ([0, 0].set 0 0).set 1 x.data_.data
    let x1 : XArrowNonNull := { x with data_ := x.data_._leak }
    (none,
      { a1 with
          buffers := b, children := 0, dictionary := 0,
          release := some ArrayRelease.free_buffers, private_data := 0 },
      x1)
  else (some Exn.bad_alloc, a1, x)

end XArrowNonNull

/-- The column built by `XArrowNonNull<int> col("x")` on an empty heap followed by five
`col.data().push_back` calls: the outcome, the handle and the heap. -/
def sample_column : Option Exn × XArrowNonNull × Heap Nat :=
  match XArrowNonNull.ctor "x" ({ blocks := [], oom := [] } : Heap Nat) with
  | (some x, h) => XArrowNonNull.data_call (AlignedVector.push_back_all [1, 2, 3, 4, 5]) x h
  | (none, h) => (some Exn.bad_alloc, { name_ := "x", data_ := sample_vec, buffers_ := [] }, h)

/-- The sequence `[v.begin(), v.end())` as read from memory. -/
def AlignedVector.elements {α : Type} (h : Heap α) (v : AlignedVector) : List (Cell α) :=
  (List.range v.size_).map (h.load v.data)

/-- The comparison `*first1 < *first2` of two cells.  Comparing an indeterminate cell
has no defined result; here it is `false`. -/
def cell_lt {α : Type} [LinearOrder α] : Cell α → Cell α → Bool
  | some x, some y => decide (x < y)
  | _, _ => false

/-- `std::lexicographical_compare(first1, last1, first2, last2)` on the two sequences. -/
def lexicographical_compare {α : Type} [LinearOrder α] : List (Cell α) → List (Cell α) → Bool
  | [], [] => false
  | [], _ :: _ => true
  | _ :: _, [] => false
  | x :: xs, y :: ys =>
    if cell_lt x y then true
    else if cell_lt y x then false
    else lexicographical_compare xs ys

/-- The `operator!=` of two vectors. -/
def operator_ne {α : Type} [LinearOrder α] (lhs rhs : AlignedVector) (h : Heap α) : Bool :=
  !(operator_eq lhs rhs h)

/-- The operator `<` of two vectors. -/
def operator_lt {α : Type} [LinearOrder α] (lhs rhs : AlignedVector) (h : Heap α) : Bool :=
  lexicographical_compare (lhs.elements h) (rhs.elements h)

/-- The operator `<=` of two vectors: `!(rhs < lhs)`. -/
def operator_le {α : Type} [LinearOrder α] (lhs rhs : AlignedVector) (h : Heap α) : Bool :=
  !(operator_lt rhs lhs h)

/-- The operator `>` of two vectors: `rhs < lhs`. -/
def operator_gt {α : Type} [LinearOrder α] (lhs rhs : AlignedVector) (h : Heap α) : Bool :=
  operator_lt rhs lhs h

/-- The operator `>=` of two vectors: `!(lhs < rhs)`. -/
def operator_ge {α : Type} [LinearOrder α] (lhs rhs : AlignedVector) (h : Heap α) : Bool :=
  !(operator_lt lhs rhs h)

/-! ## Type tags

A shallow embedding of `type_enum2format` and `format2type_enum` of
`include/data_types.hpp`.  The file `types.def`, the lines
`OPT(type, enum_name, format_str)` and `END(type, enum_name, format_str)` that the
macros expand over, is a parameter: the list of its lines.  A value of
`enum class Type : uint8_t` is the position of its enumerator in that list. -/

/-- One line `OPT(type, enum_name, format_str)` or `END(type, enum_name, format_str)`. -/
structure TypeEntry where
  type : String
  enum_name : String
  format_str : String
deriving DecidableEq, Repr

/-- The string literal that `OPT` and `END` expand to in both functions.  It is written
`" #format_str "` in the macro body: inside a string literal the preprocessor replaces
no macro parameter, so the literal is this text for every line. -/
def format_literal (_entry : TypeEntry) : String := " #format_str "

/-- `type_enum2format(type)`: a `switch` with one `case` for every line, and
`default: throw std::runtime_error("Unsupported Type")`. -/
def type_enum2format (table : List TypeEntry) (type : Nat) : Except String String :=
  match table[type]? with
  | some entry => Except.ok (format_literal entry)
  | none => Except.error "Unsupported Type"

/-- The `if (strcmp(format, ...) == 0) return Type::enum_name;` statements of
`format2type_enum` for the lines from position `pos` on, then the `throw`. -/
def format2type_enum_from (pos : Nat) (format : String) : List TypeEntry → Except String Nat
  | [] => Except.error "Unsupported format"
  | entry :: rest =>
    if format = format_literal entry then Except.ok pos
    else format2type_enum_from (pos + 1) format rest

/-- `format2type_enum(format)`. -/
def format2type_enum (table : List TypeEntry) (format : String) : Except String Nat :=
  format2type_enum_from 0 format table

/-- Modelled from the spec: `types.def` is not among the sources; three lines of the
kind the spec describes, a fixed-width primitive type with its enumerator and its
short format code each. -/
def sample_types : List TypeEntry :=
  [{ type := "int8_t", enum_name := "INT8", format_str := "c" },
   { type := "int32_t", enum_name := "INT32", format_str := "i" },
   { type := "int64_t", enum_name := "INT64", format_str := "l" }]

/-! ## The vector on the machine

The definitions above take `size_t` quantities as natural numbers, allocate an array
as its cells and take the argument of `push_back`, `emplace_back` and `resize` by
value.  This section gives the same functions of the source with what that leaves
out.

* The `size_t` arithmetic of the vector wraps around at `SIZE_MOD`, and an array of
  `element_size` elements is allocated by its byte size
  `align_round(element_size * sizeof(T), Alignment)`; `sizeof(T)` and `Alignment` are
  the `Layout`.
* A `const T&` argument is a reference (`ArgRef`) that is read where the source reads
  it.
* The elements are compared with the `operator==` of `T`, which is a parameter.
* Undefined behaviour (an access to a cell that is not storage of a live block, a read
  of an indeterminate value) ends the run: the result is `none`.
-/

/-- The template arguments that fix the layout of `AlignedVector<T, Alignment>`:
`sizeof(T)` and `Alignment`, in bytes. -/
structure Layout where
  sizeofT : Nat
  Alignment : Nat
deriving DecidableEq, Repr

/-- Both template arguments are positive. -/
def Layout.ok (L : Layout) : Prop := 0 < L.sizeofT ∧ 0 < L.Alignment

/-- The byte size of `n` elements is rounded up to the alignment without wrap-around
in `size_t`: `n * sizeof(T) + Alignment - 1 <= SIZE_MAX`. -/
def Layout.fits (L : Layout) (n : Nat) : Prop := n * L.sizeofT + L.Alignment - 1 < SIZE_MOD

instance (L : Layout) : Decidable L.ok := by
  unfold Layout.ok; infer_instance

instance (L : Layout) (n : Nat) : Decidable (L.fits n) := by
  unfold Layout.fits; infer_instance

/-- A `const T&` argument: a reference to an object that is not a cell of a heap block
(a temporary, a local variable), given by the value it holds, or a reference to the
cell `p[i]` of a block. -/
inductive ArgRef (α : Type) where
  | object (x : α)
  | cell (p : Ptr) (i : Nat)
deriving DecidableEq, Repr

/-- The cells `p[0]`, ..., `p[n - 1]` are storage of the live block at `p`. -/
def Heap.holds {α : Type} (h : Heap α) (p : Ptr) (n : Nat) : Bool :=
  match h.lookup p with
  | some cells => decide (n ≤ cells.length)
  | none => false

namespace Machine

/-- The product `n * sizeof(T)` in `size_t`. -/
def byte_size (L : Layout) (n : Nat) : Nat := (n * L.sizeofT) % SIZE_MOD

/-- The number of whole `T` cells in `bytes` bytes. -/
def whole_cells (L : Layout) (bytes : Nat) : Nat := bytes / L.sizeofT

/-- Reading through a `const T&`; `none`, undefined behaviour, when the reference is to
a cell that is not storage of a live block (a dangling reference) or that holds an
indeterminate value. -/
def deref {α : Type} (h : Heap α) : ArgRef α → Option α
  | ArgRef.object x => some x
  | ArgRef.cell p i => h.load p i

/-- The call `std::memcpy(dst, src, n * sizeof(T))`, which copies the
`whole_cells (byte_size n)` cells its byte count covers; `none`, undefined behaviour,
when it copies cells that are not storage of both blocks. -/
def memcpy {α : Type} (L : Layout) (dst src : Ptr) (n : Nat) (h : Heap α) : Option (Heap α) :=
  let k := whole_cells L (byte_size L n)
  if k = 0 ∨ (h.holds dst k = true ∧ h.holds src k = true) then
    some (xarrow.memcpy dst src k h)
  else none

/-- The call `std::aligned_alloc(Alignment, bytes)` that allocates the storage of an
array of `element_size` elements: `nullptr` (`none`) when the allocator refuses,
otherwise a new block.  Of the `element_size` cells that the array addresses, the block
holds those that lie within the `bytes` bytes allocated; they are indeterminate. -/
def aligned_alloc {α : Type} (L : Layout) (bytes element_size : Nat) (h : Heap α) :
    Option Ptr × Heap α :=
  if h.oom.head? = some true then (none, h.refused)
  else (some h.fresh, h.allocated (min element_size (whole_cells L bytes)))

/-- `AlignedBuffer(size)`, which calls
`std::aligned_alloc(Alignment, align_round(size, Alignment))` and throws `bad_alloc`
(`none`) when the result is `nullptr`; `element_size` is the number of elements of the
array that the buffer is allocated for. -/
def AlignedBuffer.ctor_size {α : Type} (L : Layout) (size element_size : Nat) (h : Heap α) :
    Option AlignedBuffer × Heap α :=
  match aligned_alloc L (AlignedBuffer.alloc_size L.Alignment size) element_size h with
  | (some p, h1) => (some { data_ := p }, h1)
  | (none, h1) => (none, h1)

/-- `AlignedArray(element_size)`: `size_(element_size), buffer_(element_size * sizeof(T))`,
the product taken in `size_t`. -/
def AlignedArray.ctor_size {α : Type} (L : Layout) (element_size : Nat) (h : Heap α) :
    Option AlignedArray × Heap α :=
  match AlignedBuffer.ctor_size L (byte_size L element_size) element_size h with
  | (some b, h1) => (some { size_ := element_size, buffer_ := b }, h1)
  | (none, h1) => (none, h1)

/-- `AlignedArray(AlignedArray const&)`: `AlignedArray(other.size_)` and
`std::memcpy(data(), other.data(), size_ * sizeof(T))`.  The outer `none` is undefined
behaviour, the inner one `bad_alloc`. -/
def AlignedArray.copy_ctor {α : Type} (L : Layout) (other : AlignedArray) (h : Heap α) :
    Option (Option AlignedArray × Heap α) :=
  match AlignedArray.ctor_size L other.size_ h with
  | (some a, h1) =>
    match memcpy L a.data other.data a.size_ h1 with
    | some h2 => some (some a, h2)
    | none => none
  | (none, h1) => some (none, h1)

/-- `reallocate(new_capacity)`. -/
def AlignedVector.reallocate {α : Type} (L : Layout) (new_capacity : Nat) (v : AlignedVector)
    (h : Heap α) : Option (Outcome α) :=
  if new_capacity = 0 then
    let (arr, tmp) := AlignedArray.std_swap v.array_ AlignedArray.ctor
    some { thrown := none, vec := { size_ := 0, array_ := arr }, heap := tmp.dtor h }
  else
    match AlignedArray.ctor_size L new_capacity h with
    | (none, h1) => some { thrown := some Exn.bad_alloc, vec := v, heap := h1 }
    | (some new_array, h1) =>
      match (if v.size_ > 0 then memcpy L new_array.data v.data v.size_ h1 else some h1) with
      | none => none
      | some h2 =>
        let (old, arr) := AlignedArray.std_swap new_array v.array_
        some { thrown := none, vec := { v with array_ := arr }, heap := old.dtor h2 }

/-- `ensure_capacity(required_capacity)`; the sum `capacity() + capacity() / 2` is taken
in `size_t`. -/
def AlignedVector.ensure_capacity {α : Type} (L : Layout) (required_capacity : Nat)
    (v : AlignedVector) (h : Heap α) : Option (Outcome α) :=
  if required_capacity > v.capacity then
    let new_capacity := max required_capacity ((v.capacity + v.capacity / 2) % SIZE_MOD)
    let new_capacity := max new_capacity 4
    AlignedVector.reallocate L new_capacity v h
  else some { thrown := none, vec := v, heap := h }

/-- `reserve(new_cap)`. -/
def AlignedVector.reserve {α : Type} (L : Layout) (new_cap : Nat) (v : AlignedVector)
    (h : Heap α) : Option (Outcome α) :=
  if new_cap > v.capacity then AlignedVector.reallocate L new_cap v h
  else some { thrown := none, vec := v, heap := h }

/-- `emplace_back(value)` for a `const T&` argument: `ensure_capacity(size_ + 1)`, then
the placement `new (data() + size_) T(value)`, which reads the reference, then
`size_++`. -/
def AlignedVector.emplace_back {α : Type} (L : Layout) (value : ArgRef α) (v : AlignedVector)
    (h : Heap α) : Option (Outcome α) :=
  match AlignedVector.ensure_capacity L ((v.size_ + 1) % SIZE_MOD) v h with
  | none => none
  | some r =>
    match r.thrown with
    | some _ => some r
    | none =>
      match deref r.heap value with
      | none => none
      | some x =>
        if r.heap.holds r.vec.data (r.vec.size_ + 1) then
          some { thrown := none, vec := { r.vec with size_ := (r.vec.size_ + 1) % SIZE_MOD },
                 heap := r.heap.write r.vec.data r.vec.size_ x }
        else none

/-- `push_back(const T& value)`, which is `emplace_back(value)`. -/
def AlignedVector.push_back {α : Type} (L : Layout) (value : ArgRef α) (v : AlignedVector)
    (h : Heap α) : Option (Outcome α) :=
  AlignedVector.emplace_back L value v h

/-- `resize(count, value)`: when `count > size_`, `ensure_capacity(count)` and then
`std::uninitialized_fill(data() + size_, data() + count, value)`, which reads the
reference. -/
def AlignedVector.resize {α : Type} (L : Layout) (count : Nat) (value : ArgRef α)
    (v : AlignedVector) (h : Heap α) : Option (Outcome α) :=
  if count > v.size_ then
    match AlignedVector.ensure_capacity L count v h with
    | none => none
    | some r =>
      match r.thrown with
      | some _ => some r
      | none =>
        match deref r.heap value with
        | none => none
        | some x =>
          if r.heap.holds r.vec.data count then
            some { thrown := none, vec := { r.vec with size_ := count },
                   heap := uninitialized_fill r.vec.data r.vec.size_ count x r.heap }
          else none
  else some { thrown := none, vec := { v with size_ := count }, heap := h }

/-- `AlignedVector()`: `size_(0), array_(4)`; `none` when the allocation fails. -/
def AlignedVector.ctor {α : Type} (L : Layout) (h : Heap α) : Option AlignedVector × Heap α :=
  match AlignedArray.ctor_size L 4 h with
  | (some a, h1) => (some { size_ := 0, array_ := a }, h1)
  | (none, h1) => (none, h1)

/-- `AlignedVector(const AlignedVector&)`: `size_(other.size_), array_(other.array_)`. -/
def AlignedVector.copy_ctor {α : Type} (L : Layout) (other : AlignedVector) (h : Heap α) :
    Option (Option AlignedVector × Heap α) :=
  match AlignedArray.copy_ctor L other.array_ h with
  | none => none
  | some (some a, h1) => some (some { size_ := other.size_, array_ := a }, h1)
  | some (none, h1) => some (none, h1)

/-- The loop `for (auto const& x : xs) v.push_back(x);` over references. -/
def AlignedVector.push_back_all {α : Type} (L : Layout) (xs : List (ArgRef α))
    (v : AlignedVector) (h : Heap α) : Option (Outcome α) :=
  match xs with
  | [] => some { thrown := none, vec := v, heap := h }
  | x :: rest =>
    match AlignedVector.push_back L x v h with
    | none => none
    | some r =>
      match r.thrown with
      | some _ => some r
      | none => AlignedVector.push_back_all L rest r.vec r.heap

/-- The assignment `operator=(const AlignedVector&)` of object `this` from object
`other`. -/
def World.copy_assign {α : Type} (L : Layout) (this other : Nat) (w : World α) :
    Option (Option Exn × World α) :=
  if this ≠ other then
    match AlignedVector.copy_ctor L (w.obj other) w.heap with
    | none => none
    | some (none, h1) => some (some Exn.bad_alloc, { w with heap := h1 })
    | some (some tmp, h1) =>
      let self := w.obj this
      let (arr, tarr) := AlignedArray.std_swap self.array_ tmp.array_
      let self1 : AlignedVector := { size_ := tmp.size_, array_ := arr }
      let tmp1 : AlignedVector := { size_ := self.size_, array_ := tarr }
      some (none, { heap := tmp1.dtor h1, obj := Function.update w.obj this self1 })
  else some (none, w)

/-- `std::equal(first1, last1, first2)` with the `operator==` of `T`, over the cells
`p[i]` and `q[i]` for the indices `i` listed: `false` at the first pair that compares
unequal; `none`, undefined behaviour, when a cell it reads holds no value. -/
def std_equal {α : Type} (eq : α → α → Bool) (h : Heap α) (p q : Ptr) : List Nat → Option Bool
  | [] => some true
  | i :: rest =>
    match h.load p i, h.load q i with
    | some x, some y => if eq x y then std_equal eq h p q rest else some false
    | _, _ => none

/-- The `operator==` of two vectors: `lhs.size() == rhs.size() &&
std::equal(lhs.begin(), lhs.end(), rhs.begin())`, for the `operator==` of `T`. -/
def operator_eq {α : Type} (eq : α → α → Bool) (lhs rhs : AlignedVector) (h : Heap α) :
    Option Bool :=
  if lhs.size = rhs.size then std_equal eq h lhs.data rhs.data (List.range lhs.size)
  else some false

end Machine

/-- The values of a floating-point element type as far as `operator==` tells them
apart: a number or a NaN. -/
inductive FloatVal where
  | number (q : Int)
  | nan
deriving DecidableEq, Repr

/-- The built-in `operator==` of a floating-point type: a NaN compares unequal to every
value, itself included. -/
def FloatVal.eq : FloatVal → FloatVal → Bool
  | FloatVal.number p, FloatVal.number q => p == q
  | _, _ => false

/-! ## Sample states on the machine -/

/-- The layout of `AlignedVector<T, 64>` for an element type of four bytes (`int32_t`,
`float`). -/
def sample_layout : Layout := { sizeofT := 4, Alignment := 64 }

/-- A heap with one full block of four cells. -/
def sample_heap_full : Heap Nat :=
  { blocks := [(1, [some 10, some 20, some 30, some 40])], oom := [] }

/-- A vector of size 4 and capacity 4 on the block of `sample_heap_full`: the
default-constructed vector after `push_back` of 10, 20, 30 and 40. -/
def sample_vec_full : AlignedVector :=
  { size_ := 4, array_ := { size_ := 4, buffer_ := { data_ := 1 } } }

/-- A heap with one full block of seventeen cells. -/
def sample_heap17 : Heap Nat :=
  { blocks := [(1, List.replicate 17 (some 5))], oom := [] }

/-- A vector of size 17 and capacity 17 on the block of `sample_heap17`. -/
def sample_vec17 : AlignedVector :=
  { size_ := 17, array_ := { size_ := 17, buffer_ := { data_ := 1 } } }

/-- A heap of floating-point cells: one block of four, the first holds a NaN. -/
def sample_heap_nan : Heap FloatVal :=
  { blocks := [(1, [some FloatVal.nan, some (FloatVal.number 2), none, none])], oom := [] }

/-- A vector that owns no block: size 0, capacity 0, `nullptr`. -/
def sample_vec_null : AlignedVector :=
  { size_ := 0, array_ := { size_ := 0, buffer_ := { data_ := 0 } } }

/-- Two objects over `sample_heap_nan`: `sample_vec` at 0 and a vector without a block
everywhere else. -/
def sample_world_nan : World FloatVal :=
  { heap := sample_heap_nan, obj := fun i => if i = 0 then sample_vec else sample_vec_null }

end xarrow

/-! # Properties -/

namespace xarrow

/-! ## The heap -/

theorem fst_le_foldr_max {β : Type} (l : List (Nat × β)) (e : Nat × β) (he : e ∈ l) :
    e.1 ≤ (l.map Prod.fst).foldr max 0 := by
  induction l with
  | nil => cases he
  | cons x xs ih =>
    simp only [List.map_cons, List.foldr_cons]
    rcases List.mem_cons.1 he with rfl | hmem
    · exact le_max_left _ _
    · exact le_trans (ih hmem) (le_max_right _ _)

theorem Heap.fresh_ne_zero {α : Type} (h : Heap α) : h.fresh ≠ 0 :=
  Nat.succ_ne_zero _

theorem lookup_blocks_eq_none {α : Type} (l : List (Ptr × List (Cell α))) (p : Ptr)
    (hp : ∀ e ∈ l, e.1 ≠ p) : lookup_blocks l p = none := by
  induction l with
  | nil => rfl
  | cons x xs ih =>
    have hx : x.1 ≠ p := hp x (List.mem_cons_self _ _)
    simp only [lookup_blocks, hx, if_false]
    exact ih (fun e he => hp e (List.mem_cons_of_mem _ he))

theorem Heap.lookup_fresh {α : Type} (h : Heap α) : h.lookup h.fresh = none := by
  apply lookup_blocks_eq_none
  intro e he heq
  have h1 : e.1 ≤ (h.blocks.map Prod.fst).foldr max 0 := fst_le_foldr_max h.blocks e he
  have h2 : e.1 = (h.blocks.map Prod.fst).foldr max 0 + 1 := heq
  rw [h2] at h1
  exact Nat.not_succ_le_self _ h1

theorem Heap.ne_fresh_of_lookup {α : Type} (h : Heap α) (p : Ptr) (c : List (Cell α))
    (hp : h.lookup p = some c) : p ≠ h.fresh := by
  intro he
  rw [he, Heap.lookup_fresh] at hp
  cases hp

theorem lookup_blocks_map {α : Type} (l : List (Ptr × List (Cell α))) (p q : Ptr)
    (c : List (Cell α)) :
    lookup_blocks (l.map (fun e => if e.1 = p then (p, c) else e)) q =
      if q = p then (lookup_blocks l p).map (fun _ => c) else lookup_blocks l q := by
  induction l with
  | nil => simp [lookup_blocks]
  | cons x xs ih =>
    simp only [List.map_cons, lookup_blocks]
    by_cases hx : x.1 = p
    · by_cases hq : q = p
      · subst hq; simp [hx]
      · have hne : ¬ p = q := fun h => hq h.symm
        have hne2 : ¬ x.1 = q := by rw [hx]; exact hne
        simp [hx, hne, hq, hne2, ih]
    · by_cases hq : q = p
      · subst hq
        simp [hx, ih]
      · by_cases hxq : x.1 = q
        · simp [hx, hq, hxq]
        · simp [hx, hq, hxq, ih]

theorem Heap.lookup_store {α : Type} (h : Heap α) (p q : Ptr) (c : List (Cell α)) :
    (h.store p c).lookup q =
      if q = p then (h.lookup p).map (fun _ => c) else h.lookup q :=
  lookup_blocks_map h.blocks p q c

theorem lookup_blocks_filter {α : Type} (l : List (Ptr × List (Cell α))) (p q : Ptr) :
    lookup_blocks (l.filter (fun e => !decide (e.1 = p))) q =
      if q = p then none else lookup_blocks l q := by
  induction l with
  | nil => simp [lookup_blocks]
  | cons x xs ih =>
    by_cases hx : x.1 = p
    · by_cases hq : q = p
      · subst hq; simp [List.filter_cons, hx, ih]
      · have hne2 : ¬ x.1 = q := by rw [hx]; exact fun h => hq h.symm
        have hne : ¬ p = q := fun h => hq h.symm
        simp [List.filter_cons, hx, ih, hq, lookup_blocks, hne2, hne]
    · by_cases hq : q = p
      · subst hq
        simp [List.filter_cons, hx, ih, lookup_blocks]
      · by_cases hxq : x.1 = q
        · simp [List.filter_cons, hx, hq, hxq, lookup_blocks]
        · simp [List.filter_cons, hx, hq, hxq, lookup_blocks, ih]

theorem lookup_free {α : Type} (h : Heap α) (p q : Ptr) :
    (free p h).lookup q = if p ≠ 0 ∧ q = p then none else h.lookup q := by
  unfold free
  by_cases hp : p = 0
  · simp [hp]
  · simp only [hp, if_false, ne_eq, not_false_eq_true, true_and]
    exact lookup_blocks_filter h.blocks p q

theorem Heap.lookup_allocated {α : Type} (h : Heap α) (n : Nat) (q : Ptr) :
    (h.allocated n).lookup q =
      if q = h.fresh then some (List.replicate n none) else h.lookup q := by
  unfold Heap.allocated Heap.lookup
  by_cases hq : q = h.fresh
  · simp [lookup_blocks, hq]
  · have hne : ¬ h.fresh = q := fun e => hq e.symm
    simp [lookup_blocks, hq, hne]

theorem Heap.lookup_allocated_of_live {α : Type} (h : Heap α) (n : Nat) (q : Ptr)
    (c : List (Cell α)) (hq : h.lookup q = some c) : (h.allocated n).lookup q = some c := by
  rw [Heap.lookup_allocated, if_neg (Heap.ne_fresh_of_lookup h q c hq), hq]

theorem aligned_alloc_of_grants {α : Type} (n : Nat) (h : Heap α) (hg : h.grants) :
    aligned_alloc n h = (some h.fresh, h.allocated n) := by
  unfold aligned_alloc
  rw [if_neg hg]

theorem aligned_alloc_of_not_grants {α : Type} (n : Nat) (h : Heap α) (hg : ¬ h.grants) :
    aligned_alloc n h = (none, h.refused) := by
  unfold aligned_alloc
  rw [if_pos (not_not.1 hg)]

theorem Heap.plentiful_grants {α : Type} (h : Heap α) (hp : h.plentiful) : h.grants := by
  unfold Heap.grants
  unfold Heap.plentiful at hp
  intro hh
  apply hp
  cases hl : h.oom with
  | nil => rw [hl] at hh; cases hh
  | cons b bs =>
    rw [hl] at hh
    simp only [List.head?_cons, Option.some.injEq] at hh
    rw [hh]
    exact List.mem_cons_self _ _

theorem Heap.plentiful_allocated {α : Type} (h : Heap α) (n : Nat) (hp : h.plentiful) :
    (h.allocated n).plentiful := by
  unfold Heap.plentiful at *
  intro hm
  exact hp (List.mem_of_mem_tail hm)

/-! ## Arrays -/

theorem AlignedBuffer.buffer_std_swap_eq (a b : AlignedBuffer) :
    AlignedBuffer.std_swap a b = (b, a) := rfl

theorem AlignedArray.array_std_swap_eq (a b : AlignedArray) :
    AlignedArray.std_swap a b = (b, a) := rfl

theorem AlignedArray.array_move_assign_eq (a b : AlignedArray) :
    AlignedArray.move_assign a b = (b, a) := rfl

theorem AlignedArray.ctor_size_of_grants {α : Type} (n : Nat) (h : Heap α) (hg : h.grants) :
    AlignedArray.ctor_size n h =
      (some { size_ := n, buffer_ := { data_ := h.fresh } }, h.allocated n) := by
  unfold AlignedArray.ctor_size AlignedBuffer.ctor_size
  rw [aligned_alloc_of_grants n h hg]

theorem AlignedArray.ctor_size_of_not_grants {α : Type} (n : Nat) (h : Heap α)
    (hg : ¬ h.grants) : AlignedArray.ctor_size n h = (none, h.refused) := by
  unfold AlignedArray.ctor_size AlignedBuffer.ctor_size
  rw [aligned_alloc_of_not_grants n h hg]

/-! ## reallocate -/

namespace AlignedVector

theorem reallocate_zero {α : Type} (v : AlignedVector) (h : Heap α) :
    reallocate 0 v h =
      { thrown := none, vec := { size_ := 0, array_ := AlignedArray.ctor },
        heap := free v.data h } := rfl

theorem reallocate_of_grants {α : Type} (n : Nat) (v : AlignedVector) (h : Heap α)
    (hn : n ≠ 0) (hg : h.grants) :
    reallocate n v h =
      { thrown := none,
        vec := { size_ := v.size_, array_ := { size_ := n, buffer_ := { data_ := h.fresh } } },
        heap := free v.data
          (if v.size_ > 0 then memcpy h.fresh v.data v.size_ (h.allocated n)
            else h.allocated n) } := by
  unfold reallocate
  rw [if_neg hn, AlignedArray.ctor_size_of_grants n h hg]
  rfl

theorem reallocate_of_not_grants {α : Type} (n : Nat) (v : AlignedVector) (h : Heap α)
    (hn : n ≠ 0) (hg : ¬ h.grants) :
    reallocate n v h = { thrown := some Exn.bad_alloc, vec := v, heap := h.refused } := by
  unfold reallocate
  rw [if_neg hn, AlignedArray.ctor_size_of_not_grants n h hg]

end AlignedVector

/-! ## Lists of cells -/

theorem take_set_succ {β : Type} (l : List β) (i : Nat) (a : β) (hi : i < l.length) :
    (l.set i a).take (i + 1) = l.take i ++ [a] := by
  induction l generalizing i with
  | nil => simp at hi
  | cons x xs ih =>
    cases i with
    | zero => simp
    | succ j =>
      simp only [List.length_cons, Nat.add_lt_add_iff_right] at hi
      simp [ih j hi]

/-! ## Memory operations -/

theorem Heap.oom_store {α : Type} (h : Heap α) (p : Ptr) (cs : List (Cell α)) :
    (h.store p cs).oom = h.oom := rfl

theorem oom_free {α : Type} (h : Heap α) (p : Ptr) : (free p h).oom = h.oom := by
  unfold free
  split <;> rfl

theorem oom_memcpy {α : Type} (dst src : Ptr) (n : Nat) (h : Heap α) :
    (memcpy dst src n h).oom = h.oom := by
  unfold memcpy
  split
  · split <;> rfl
  · rfl

theorem oom_uninitialized_fill {α : Type} (p : Ptr) (lo hi : Nat) (x : α) (h : Heap α) :
    (uninitialized_fill p lo hi x h).oom = h.oom := by
  unfold uninitialized_fill
  split
  · split <;> rfl
  · rfl

theorem Heap.oom_write {α : Type} (h : Heap α) (p : Ptr) (i : Nat) (x : α) :
    (h.write p i x).oom = h.oom := by
  unfold Heap.write
  split <;> rfl

theorem lookup_memcpy {α : Type} (dst src : Ptr) (n : Nat) (h : Heap α)
    (d s : List (Cell α)) (hd : h.lookup dst = some d) (hs : h.lookup src = some s)
    (hnd : n ≤ d.length) (hns : n ≤ s.length) (q : Ptr) :
    (memcpy dst src n h).lookup q =
      if q = dst then some (s.take n ++ d.drop n) else h.lookup q := by
  unfold memcpy
  rw [hd, hs]
  simp only [hnd, hns, and_self, if_true]
  rw [Heap.lookup_store, hd]
  rfl

theorem lookup_uninitialized_fill {α : Type} (p : Ptr) (lo hi : Nat) (x : α) (h : Heap α)
    (cs : List (Cell α)) (hc : h.lookup p = some cs) (hlo : lo ≤ hi) (hhi : hi ≤ cs.length)
    (q : Ptr) :
    (uninitialized_fill p lo hi x h).lookup q =
      if q = p then
        some (cs.take lo ++ List.replicate (hi - lo) (some x) ++ cs.drop hi)
      else h.lookup q := by
  unfold uninitialized_fill
  rw [hc]
  simp only [hlo, hhi, and_self, if_true]
  rw [Heap.lookup_store, hc]
  rfl

theorem Heap.lookup_write {α : Type} (h : Heap α) (p : Ptr) (i : Nat) (x : α)
    (cs : List (Cell α)) (hc : h.lookup p = some cs) (q : Ptr) :
    (h.write p i x).lookup q =
      if q = p then some (cs.set i (some x)) else h.lookup q := by
  unfold Heap.write
  rw [hc]
  simp only
  rw [Heap.lookup_store, hc]
  rfl

/-! ## Valid vectors -/

namespace AlignedVector

theorem Valid.size_le {α : Type} {h : Heap α} {v : AlignedVector} (hv : Valid h v) :
    v.size_ ≤ v.capacity := hv.1

theorem Valid.lookup_block {α : Type} {h : Heap α} {v : AlignedVector} (hv : Valid h v)
    (hc : 0 < v.capacity) :
    ∃ cs, h.lookup v.data = some cs ∧ cs.length = v.capacity := by
  have h2 := hv.2
  by_cases hd : v.data = 0
  · rw [if_pos hd] at h2; omega
  · rw [if_neg hd] at h2
    cases hl : h.lookup v.data with
    | none => rw [hl] at h2; cases h2
    | some cs =>
      rw [hl] at h2
      exact ⟨cs, rfl, by simpa using h2⟩

theorem Valid.data_ne_zero {α : Type} {h : Heap α} {v : AlignedVector} (hv : Valid h v)
    (hc : 0 < v.capacity) : v.data ≠ 0 := by
  intro hd
  have h2 := hv.2
  rw [if_pos hd] at h2
  omega

theorem Valid.length_cells {α : Type} {h : Heap α} {v : AlignedVector} (hv : Valid h v) :
    (cells h v).length = v.size_ := by
  unfold cells
  have h1 := hv.1
  by_cases hc : 0 < v.capacity
  · obtain ⟨cs, hl, hlen⟩ := hv.lookup_block hc
    rw [hl]
    simp only [List.length_take]
    omega
  · have : v.size_ = 0 := by omega
    rw [this]
    split <;> simp

theorem load_eq_cells {α : Type} (h : Heap α) (v : AlignedVector) (i : Nat)
    (hi : i < v.size_) : h.load v.data i = ((cells h v)[i]?).join := by
  unfold Heap.load cells
  split
  · simp [List.getElem?_take, hi]
  · simp

theorem at_of_lt {α : Type} (h : Heap α) (v : AlignedVector) (i : Nat) (hi : i < v.size_) :
    at_ i v h = Except.ok (((cells h v)[i]?).join) := by
  unfold at_ at_ref
  rw [if_neg (by omega)]
  simp only
  rw [load_eq_cells h v i hi]

theorem at_of_ge {α : Type} (h : Heap α) (v : AlignedVector) (i : Nat) (hi : v.size_ ≤ i) :
    at_ i v h = Except.error Exn.out_of_range := by
  unfold at_ at_ref
  rw [if_pos hi]

theorem Valid.data_ne_fresh {α : Type} {h : Heap α} {v : AlignedVector} (hv : Valid h v) :
    v.data ≠ h.fresh := by
  by_cases hd : v.data = 0
  · rw [hd]; exact fun e => h.fresh_ne_zero e.symm
  · have h2 := hv.2
    rw [if_neg hd] at h2
    cases hl : h.lookup v.data with
    | none => rw [hl] at h2; cases h2
    | some cs => exact Heap.ne_fresh_of_lookup h v.data cs hl

theorem lookup_reallocate {α : Type} (n : Nat) (v : AlignedVector) (h : Heap α)
    (hv : Valid h v) (hn : n ≠ 0) (hsz : v.size_ ≤ n) (hg : h.grants) (q : Ptr) :
    (reallocate n v h).heap.lookup q =
      if q = h.fresh then some (cells h v ++ List.replicate (n - v.size_) none)
      else if v.data ≠ 0 ∧ q = v.data then none else h.lookup q := by
  rw [reallocate_of_grants n v h hn hg]
  simp only
  rw [lookup_free]
  have hdf := hv.data_ne_fresh
  by_cases hs : v.size_ > 0
  · rw [if_pos hs]
    have hcap : 0 < v.capacity := lt_of_lt_of_le hs hv.1
    obtain ⟨cs, hl, hlen⟩ := hv.lookup_block hcap
    have hl1 : (h.allocated n).lookup v.data = some cs :=
      Heap.lookup_allocated_of_live h n v.data cs hl
    have hf1 : (h.allocated n).lookup h.fresh = some (List.replicate n none) := by
      rw [Heap.lookup_allocated, if_pos rfl]
    rw [lookup_memcpy h.fresh v.data v.size_ (h.allocated n) _ cs hf1 hl1
      (by simpa using hsz) (by rw [hlen]; exact hv.1)]
    by_cases hq : q = h.fresh
    · subst hq
      have hne : ¬ (v.data ≠ 0 ∧ h.fresh = v.data) := fun hh => hdf hh.2.symm
      rw [if_neg hne, if_pos rfl, if_pos rfl]
      simp [cells, hl]
    · rw [if_neg hq, if_neg hq, Heap.lookup_allocated, if_neg hq]
  · rw [if_neg hs]
    have hs0 : v.size_ = 0 := by omega
    by_cases hq : q = h.fresh
    · subst hq
      have hne : ¬ (v.data ≠ 0 ∧ h.fresh = v.data) := fun hh => hdf hh.2.symm
      rw [if_neg hne, if_pos rfl, Heap.lookup_allocated, if_pos rfl]
      have hc0 : cells h v = [] := by
        unfold cells
        rw [hs0]
        split <;> simp
      rw [hc0, hs0]
      simp
    · rw [if_neg hq, Heap.lookup_allocated, if_neg hq]

theorem oom_reallocate {α : Type} (n : Nat) (v : AlignedVector) (h : Heap α) (hn : n ≠ 0) :
    (reallocate n v h).heap.oom = h.oom.tail := by
  by_cases hg : h.grants
  · rw [reallocate_of_grants n v h hn hg]
    simp only
    rw [oom_free]
    split
    · rw [oom_memcpy]; rfl
    · rfl
  · rw [reallocate_of_not_grants n v h hn hg]
    rfl

theorem valid_reallocate {α : Type} (n : Nat) (v : AlignedVector) (h : Heap α)
    (hv : Valid h v) (hn : n ≠ 0) (hsz : v.size_ ≤ n) (hg : h.grants) :
    Valid (reallocate n v h).heap (reallocate n v h).vec := by
  have hl := lookup_reallocate n v h hv hn hsz hg h.fresh
  rw [if_pos rfl] at hl
  have hr := reallocate_of_grants n v h hn hg
  have hvec : (reallocate n v h).vec =
      { size_ := v.size_, array_ := { size_ := n, buffer_ := { data_ := h.fresh } } } := by
    rw [hr]
  rw [hvec]
  refine ⟨hsz, ?_⟩
  have hd : ({ size_ := v.size_, array_ := { size_ := n, buffer_ := { data_ := h.fresh } } } :
      AlignedVector).data = h.fresh := rfl
  rw [hd, if_neg h.fresh_ne_zero, hl]
  simp only [Option.map_some', List.length_append, List.length_replicate, hv.length_cells]
  congr 1
  show v.size_ + (n - v.size_) = n
  omega

theorem cells_reallocate {α : Type} (n : Nat) (v : AlignedVector) (h : Heap α)
    (hv : Valid h v) (hn : n ≠ 0) (hsz : v.size_ ≤ n) (hg : h.grants) :
    cells (reallocate n v h).heap (reallocate n v h).vec = cells h v := by
  have hl := lookup_reallocate n v h hv hn hsz hg h.fresh
  rw [if_pos rfl] at hl
  have hr := reallocate_of_grants n v h hn hg
  have hvec : (reallocate n v h).vec =
      { size_ := v.size_, array_ := { size_ := n, buffer_ := { data_ := h.fresh } } } := by
    rw [hr]
  unfold cells
  rw [hvec]
  have hd : ({ size_ := v.size_, array_ := { size_ := n, buffer_ := { data_ := h.fresh } } } :
      AlignedVector).data = h.fresh := rfl
  rw [hd, hl]
  simp only
  have hlen := hv.length_cells
  show List.take v.size_ (cells h v ++ List.replicate (n - v.size_) none) = cells h v
  rw [List.take_append_of_le_length (by rw [hlen]), List.take_of_length_le (by rw [hlen])]

theorem plentiful_reallocate {α : Type} (n : Nat) (v : AlignedVector) (h : Heap α)
    (hp : h.plentiful) : (reallocate n v h).heap.plentiful := by
  by_cases hn : n = 0
  · subst hn
    rw [reallocate_zero]
    unfold Heap.plentiful at *
    simp only
    rw [oom_free]
    exact hp
  · unfold Heap.plentiful at *
    rw [oom_reallocate n v h hn]
    exact fun hm => hp (List.mem_of_mem_tail hm)

/-- What a successful `reallocate(n)` with `n > 0` does. -/
theorem reallocate_spec {α : Type} (n : Nat) (v : AlignedVector) (h : Heap α)
    (hv : Valid h v) (hn : n ≠ 0) (hsz : v.size_ ≤ n) (hg : h.grants) :
    (reallocate n v h).thrown = none ∧ (reallocate n v h).vec.size_ = v.size_ ∧
      (reallocate n v h).vec.capacity = n ∧ (reallocate n v h).vec.data = h.fresh ∧
      Valid (reallocate n v h).heap (reallocate n v h).vec ∧
      cells (reallocate n v h).heap (reallocate n v h).vec = cells h v := by
  refine ⟨?_, ?_, ?_, ?_, valid_reallocate n v h hv hn hsz hg,
    cells_reallocate n v h hv hn hsz hg⟩ <;>
  simp only [reallocate_of_grants n v h hn hg] <;> rfl

/-- The capacity `ensure_capacity(required)` reallocates to. -/
theorem ensure_capacity_spec {α : Type} (req : Nat) (v : AlignedVector) (h : Heap α)
    (hv : Valid h v) (hg : h.grants) :
    (ensure_capacity req v h).thrown = none ∧
      (ensure_capacity req v h).vec.size_ = v.size_ ∧
      (ensure_capacity req v h).vec.capacity =
        (if req > v.capacity then max (max req (v.capacity + v.capacity / 2)) 4
          else v.capacity) ∧
      Valid (ensure_capacity req v h).heap (ensure_capacity req v h).vec ∧
      cells (ensure_capacity req v h).heap (ensure_capacity req v h).vec = cells h v := by
  by_cases hr : req > v.capacity
  · have he : ensure_capacity req v h =
        reallocate (max (max req (v.capacity + v.capacity / 2)) 4) v h := by
      unfold ensure_capacity
      rw [if_pos hr]
    rw [he, if_pos hr]
    have hsz : v.size_ ≤ max (max req (v.capacity + v.capacity / 2)) 4 :=
      le_trans hv.1 (le_trans (le_of_lt hr) (le_trans (le_max_left _ _) (le_max_left _ _)))
    have hn : max (max req (v.capacity + v.capacity / 2)) 4 ≠ 0 := by
      have : 4 ≤ max (max req (v.capacity + v.capacity / 2)) 4 := le_max_right _ _
      omega
    obtain ⟨h1, h2, h3, _, h5, h6⟩ := reallocate_spec _ v h hv hn hsz hg
    exact ⟨h1, h2, h3, h5, h6⟩
  · have he : ensure_capacity req v h = { thrown := none, vec := v, heap := h } := by
      unfold ensure_capacity
      rw [if_neg hr]
    rw [he, if_neg hr]
    exact ⟨rfl, rfl, rfl, hv, rfl⟩

theorem plentiful_ensure_capacity {α : Type} (req : Nat) (v : AlignedVector) (h : Heap α)
    (hp : h.plentiful) : (ensure_capacity req v h).heap.plentiful := by
  unfold ensure_capacity
  split
  · exact plentiful_reallocate _ v h hp
  · exact hp

/-- What a successful `emplace_back(x)` does. -/
theorem emplace_back_spec {α : Type} (x : α) (v : AlignedVector) (h : Heap α)
    (hv : Valid h v) (hg : h.grants) :
    (emplace_back x v h).thrown = none ∧
      (emplace_back x v h).vec.size_ = v.size_ + 1 ∧
      (emplace_back x v h).vec.capacity =
        (if v.size_ + 1 > v.capacity then
          max (max (v.size_ + 1) (v.capacity + v.capacity / 2)) 4
          else v.capacity) ∧
      Valid (emplace_back x v h).heap (emplace_back x v h).vec ∧
      cells (emplace_back x v h).heap (emplace_back x v h).vec = cells h v ++ [some x] := by
  obtain ⟨h1, h2, h3, h4, h5⟩ := ensure_capacity_spec (v.size_ + 1) v h hv hg
  have hcap : v.size_ + 1 ≤ (ensure_capacity (v.size_ + 1) v h).vec.capacity := by
    rw [h3]
    split
    · exact le_trans (le_max_left _ _) (le_max_left _ _)
    · omega
  have he : emplace_back x v h =
      { thrown := none,
        vec := { (ensure_capacity (v.size_ + 1) v h).vec with
          size_ := (ensure_capacity (v.size_ + 1) v h).vec.size_ + 1 },
        heap := (ensure_capacity (v.size_ + 1) v h).heap.write
          (ensure_capacity (v.size_ + 1) v h).vec.data
          (ensure_capacity (v.size_ + 1) v h).vec.size_ x } := by
    unfold emplace_back
    simp only [h1]
  rw [he]
  generalize ensure_capacity (v.size_ + 1) v h = r at h1 h2 h3 h4 h5 hcap
  obtain ⟨cs, hl, hlen⟩ := h4.lookup_block (by omega)
  have hd := h4.data_ne_zero (by omega)
  have hw := Heap.lookup_write r.heap r.vec.data r.vec.size_ x cs hl r.vec.data
  rw [if_pos rfl] at hw
  refine ⟨rfl, by simp only [h2], h3, ⟨?_, ?_⟩, ?_⟩
  · show r.vec.size_ + 1 ≤ r.vec.capacity
    rw [h2]; exact hcap
  · show (if r.vec.data = 0 then r.vec.capacity = 0 else
      ((r.heap.write r.vec.data r.vec.size_ x).lookup r.vec.data).map List.length =
        some r.vec.capacity)
    rw [if_neg hd, hw]
    simp [hlen]
  · show (match (r.heap.write r.vec.data r.vec.size_ x).lookup r.vec.data with
      | some c => c.take (r.vec.size_ + 1)
      | none => []) = cells h v ++ [some x]
    rw [hw]
    simp only
    rw [take_set_succ cs r.vec.size_ (some x) (by omega), ← h5]
    unfold cells
    rw [hl]

theorem plentiful_emplace_back {α : Type} (x : α) (v : AlignedVector) (h : Heap α)
    (hp : h.plentiful) : (emplace_back x v h).heap.plentiful := by
  have h1 := plentiful_ensure_capacity (v.size_ + 1) v h hp
  unfold emplace_back
  simp only
  split
  · exact h1
  · unfold Heap.plentiful at *
    simp only
    rw [Heap.oom_write]
    exact h1

theorem ctor_of_grants {α : Type} (h : Heap α) (hg : h.grants) :
    ctor h =
      (some { size_ := 0, array_ := { size_ := 4, buffer_ := { data_ := h.fresh } } },
        h.allocated 4) := by
  unfold ctor
  rw [AlignedArray.ctor_size_of_grants 4 h hg]

theorem valid_ctor {α : Type} (h : Heap α) :
    Valid (h.allocated 4)
      { size_ := 0, array_ := { size_ := 4, buffer_ := { data_ := h.fresh } } } := by
  refine ⟨Nat.zero_le _, ?_⟩
  show (if h.fresh = 0 then _ else ((h.allocated 4).lookup h.fresh).map List.length = some 4)
  rw [if_neg h.fresh_ne_zero, Heap.lookup_allocated, if_pos rfl]
  rfl

theorem cells_ctor {α : Type} (h : Heap α) :
    cells (h.allocated 4)
      { size_ := 0, array_ := { size_ := 4, buffer_ := { data_ := h.fresh } } } = [] := by
  unfold cells
  split <;> rfl

theorem push_back_all_spec {α : Type} (xs : List α) (v : AlignedVector) (h : Heap α)
    (hv : Valid h v) (hp : h.plentiful) :
    (push_back_all xs v h).thrown = none ∧
      (push_back_all xs v h).vec.size_ = v.size_ + xs.length ∧
      Valid (push_back_all xs v h).heap (push_back_all xs v h).vec ∧
      cells (push_back_all xs v h).heap (push_back_all xs v h).vec =
        cells h v ++ xs.map some := by
  induction xs generalizing v h with
  | nil => exact ⟨rfl, rfl, hv, by simp [push_back_all]⟩
  | cons x rest ih =>
    obtain ⟨h1, h2, _, h4, h5⟩ := emplace_back_spec x v h hv (h.plentiful_grants hp)
    have hp1 := plentiful_emplace_back x v h hp
    have he : push_back_all (x :: rest) v h =
        push_back_all rest (emplace_back x v h).vec (emplace_back x v h).heap := by
      rw [push_back_all]
      simp only [push_back, h1]
    rw [he]
    obtain ⟨i1, i2, i3, i4⟩ := ih _ _ h4 hp1
    refine ⟨i1, ?_, i3, ?_⟩
    · rw [i2, h2, List.length_cons]; omega
    · rw [i4, h5]; simp

/-! ## size() <= capacity() -/

theorem reallocate_vec {α : Type} (n : Nat) (v : AlignedVector) (h : Heap α) :
    (reallocate n v h).vec =
      if n = 0 then { size_ := 0, array_ := AlignedArray.ctor }
      else if h.grants then
        { size_ := v.size_, array_ := { size_ := n, buffer_ := { data_ := h.fresh } } }
      else v := by
  by_cases hn : n = 0
  · subst hn; rfl
  · rw [if_neg hn]
    by_cases hg : h.grants
    · rw [if_pos hg, reallocate_of_grants n v h hn hg]
    · rw [if_neg hg, reallocate_of_not_grants n v h hn hg]

theorem reallocate_thrown {α : Type} (n : Nat) (v : AlignedVector) (h : Heap α) :
    (reallocate n v h).thrown =
      if n = 0 then none else if h.grants then none else some Exn.bad_alloc := by
  by_cases hn : n = 0
  · subst hn; rfl
  · rw [if_neg hn]
    by_cases hg : h.grants
    · rw [if_pos hg, reallocate_of_grants n v h hn hg]
    · rw [if_neg hg, reallocate_of_not_grants n v h hn hg]

theorem ensure_capacity_le {α : Type} (req : Nat) (v : AlignedVector) (h : Heap α)
    (ht : (ensure_capacity req v h).thrown = none) :
    req ≤ (ensure_capacity req v h).vec.capacity := by
  unfold ensure_capacity at ht ⊢
  by_cases hr : req > v.capacity
  · rw [if_pos hr] at ht ⊢
    simp only at ht ⊢
    have hn : max (max req (v.capacity + v.capacity / 2)) 4 ≠ 0 := by
      have : 4 ≤ max (max req (v.capacity + v.capacity / 2)) 4 := le_max_right _ _
      omega
    rw [reallocate_thrown, if_neg hn] at ht
    rw [reallocate_vec, if_neg hn]
    by_cases hg : h.grants
    · rw [if_pos hg]
      exact le_trans (le_max_left _ _) (le_max_left _ _)
    · rw [if_neg hg] at ht
      cases ht
  · rw [if_neg hr]
    exact Nat.le_of_not_lt hr

/-- What a successful growing `resize(n, x)` does. -/
theorem resize_grow_spec {α : Type} (n : Nat) (x : α) (v : AlignedVector) (h : Heap α)
    (hv : Valid h v) (hg : h.grants) (hn : v.size_ < n) :
    (resize n x v h).thrown = none ∧
      (resize n x v h).vec.size_ = n ∧
      (resize n x v h).vec.capacity =
        (if n > v.capacity then max (max n (v.capacity + v.capacity / 2)) 4
          else v.capacity) ∧
      Valid (resize n x v h).heap (resize n x v h).vec ∧
      cells (resize n x v h).heap (resize n x v h).vec =
        cells h v ++ List.replicate (n - v.size_) (some x) := by
  obtain ⟨h1, h2, h3, h4, h5⟩ := ensure_capacity_spec n v h hv hg
  have hcap : n ≤ (ensure_capacity n v h).vec.capacity := ensure_capacity_le n v h h1
  have he : resize n x v h =
      { thrown := none,
        vec := { (ensure_capacity n v h).vec with size_ := n },
        heap := uninitialized_fill (ensure_capacity n v h).vec.data
          (ensure_capacity n v h).vec.size_ n x (ensure_capacity n v h).heap } := by
    unfold resize
    rw [if_pos hn]
    simp only [h1]
  rw [he]
  generalize ensure_capacity n v h = r at h1 h2 h3 h4 h5 hcap
  obtain ⟨cs, hl, hlen⟩ := h4.lookup_block (by omega)
  have hd := h4.data_ne_zero (by omega)
  have hw := lookup_uninitialized_fill r.vec.data r.vec.size_ n x r.heap cs hl
    (by omega) (by omega) r.vec.data
  rw [if_pos rfl] at hw
  refine ⟨rfl, rfl, h3, ⟨hcap, ?_⟩, ?_⟩
  · show (if r.vec.data = 0 then r.vec.capacity = 0 else
      ((uninitialized_fill r.vec.data r.vec.size_ n x r.heap).lookup r.vec.data).map
        List.length = some r.vec.capacity)
    rw [if_neg hd, hw]
    simp only [Option.map_some', List.length_append, List.length_take, List.length_replicate,
      List.length_drop, Option.some.injEq]
    omega
  · show (match (uninitialized_fill r.vec.data r.vec.size_ n x r.heap).lookup r.vec.data with
      | some c => c.take n
      | none => []) = cells h v ++ List.replicate (n - v.size_) (some x)
    rw [hw]
    simp only
    have hlen2 : (List.take r.vec.size_ cs ++ List.replicate (n - r.vec.size_) (some x)).length
        = n := by
      simp only [List.length_append, List.length_take, List.length_replicate]
      omega
    rw [List.take_append_of_le_length (by rw [hlen2]), List.take_of_length_le (by rw [hlen2]),
      ← h5, h2]
    unfold cells
    rw [hl, h2]

theorem resize_shrink_eq {α : Type} (n : Nat) (x : α) (v : AlignedVector) (h : Heap α)
    (hn : n ≤ v.size_) :
    resize n x v h = { thrown := none, vec := { v with size_ := n }, heap := h } := by
  unfold resize
  rw [if_neg (by omega)]

theorem copy_ctor_of_grants {α : Type} (other : AlignedVector) (h : Heap α) (hg : h.grants) :
    copy_ctor other h =
      (some { size_ := other.size_,
              array_ := { size_ := other.array_.size_, buffer_ := { data_ := h.fresh } } },
        memcpy h.fresh other.data other.array_.size_ (h.allocated other.array_.size_)) := by
  unfold copy_ctor AlignedArray.copy_ctor
  rw [AlignedArray.ctor_size_of_grants _ h hg]
  rfl

theorem push_back_all_cons {α : Type} (x : α) (rest : List α) (v : AlignedVector)
    (h : Heap α) (hv : Valid h v) (hg : h.grants) :
    push_back_all (x :: rest) v h =
      push_back_all rest (emplace_back x v h).vec (emplace_back x v h).heap := by
  rw [push_back_all]
  simp only [push_back, (emplace_back_spec x v h hv hg).1]

theorem push_back_all_step {α : Type} (x : α) (rest : List α) (v : AlignedVector)
    (h : Heap α) (hv : Valid h v) (hp : h.plentiful) :
    ∃ v1 h1, push_back_all (x :: rest) v h = push_back_all rest v1 h1 ∧ Valid h1 v1 ∧
      h1.plentiful ∧ v1.size_ = v.size_ + 1 ∧
      v1.capacity =
        (if v.size_ + 1 > v.capacity then
          max (max (v.size_ + 1) (v.capacity + v.capacity / 2)) 4
          else v.capacity) := by
  obtain ⟨_, h2, h3, h4, _⟩ := emplace_back_spec x v h hv (h.plentiful_grants hp)
  exact ⟨_, _, push_back_all_cons x rest v h hv (h.plentiful_grants hp), h4,
    plentiful_emplace_back x v h hp, h2, h3⟩

theorem push_back_all_nil {α : Type} (v : AlignedVector) (h : Heap α) :
    push_back_all [] v h = { thrown := none, vec := v, heap := h } := rfl

theorem ensure_capacity_thrown {α : Type} (req : Nat) (v : AlignedVector) (h : Heap α)
    (hg : h.grants) : (ensure_capacity req v h).thrown = none := by
  unfold ensure_capacity
  split
  · rw [reallocate_thrown]
    simp [hg]
  · rfl

theorem ensure_capacity_capacity {α : Type} (req : Nat) (v : AlignedVector) (h : Heap α)
    (hg : h.grants) :
    (ensure_capacity req v h).vec.capacity =
      if req > v.capacity then max (max req (v.capacity + v.capacity / 2)) 4
      else v.capacity := by
  unfold ensure_capacity
  by_cases hr : req > v.capacity
  · rw [if_pos hr, if_pos hr]
    have hn : max (max req (v.capacity + v.capacity / 2)) 4 ≠ 0 := by
      have : 4 ≤ max (max req (v.capacity + v.capacity / 2)) 4 := le_max_right _ _
      omega
    simp only
    rw [reallocate_vec, if_neg hn, if_pos hg]
    rfl
  · rw [if_neg hr, if_neg hr]

theorem emplace_back_of_grants {α : Type} (x : α) (v : AlignedVector) (h : Heap α)
    (hg : h.grants) :
    emplace_back x v h =
      { thrown := none,
        vec := { (ensure_capacity (v.size_ + 1) v h).vec with
          size_ := (ensure_capacity (v.size_ + 1) v h).vec.size_ + 1 },
        heap := (ensure_capacity (v.size_ + 1) v h).heap.write
          (ensure_capacity (v.size_ + 1) v h).vec.data
          (ensure_capacity (v.size_ + 1) v h).vec.size_ x } := by
  unfold emplace_back
  simp only [ensure_capacity_thrown (v.size_ + 1) v h hg]

theorem resize_grow_of_grants {α : Type} (n : Nat) (x : α) (v : AlignedVector) (h : Heap α)
    (hg : h.grants) (hn : v.size_ < n) :
    resize n x v h =
      { thrown := none,
        vec := { (ensure_capacity n v h).vec with size_ := n },
        heap := uninitialized_fill (ensure_capacity n v h).vec.data
          (ensure_capacity n v h).vec.size_ n x (ensure_capacity n v h).heap } := by
  unfold resize
  rw [if_pos hn]
  simp only [ensure_capacity_thrown n v h hg]

/-! ## reserve and shrink_to_fit -/

theorem at_congr {α : Type} (h1 h2 : Heap α) (v1 v2 : AlignedVector)
    (hs : v1.size_ = v2.size_) (hc : cells h1 v1 = cells h2 v2) (i : Nat) :
    at_ i v1 h1 = at_ i v2 h2 := by
  by_cases hi : i < v1.size_
  · rw [at_of_lt h1 v1 i hi, at_of_lt h2 v2 i (by omega), hc]
  · rw [at_of_ge h1 v1 i (by omega), at_of_ge h2 v2 i (by omega)]

/-- What a successful `reserve(n)` does. -/
theorem reserve_spec {α : Type} (n : Nat) (v : AlignedVector) (h : Heap α)
    (hv : Valid h v) (hg : h.grants) :
    (reserve n v h).thrown = none ∧
      (reserve n v h).vec.size_ = v.size_ ∧
      (reserve n v h).vec.capacity = (if n > v.capacity then n else v.capacity) ∧
      Valid (reserve n v h).heap (reserve n v h).vec ∧
      cells (reserve n v h).heap (reserve n v h).vec = cells h v := by
  by_cases hr : n > v.capacity
  · have he : reserve n v h = reallocate n v h := by
      unfold reserve
      rw [if_pos hr]
    rw [he, if_pos hr]
    obtain ⟨h1, h2, h3, _, h5, h6⟩ :=
      reallocate_spec n v h hv (by omega) (le_trans hv.1 (le_of_lt hr)) hg
    exact ⟨h1, h2, h3, h5, h6⟩
  · have he : reserve n v h = { thrown := none, vec := v, heap := h } := by
      unfold reserve
      rw [if_neg hr]
    rw [he, if_neg hr]
    exact ⟨rfl, rfl, rfl, hv, rfl⟩

theorem reserve_noop {α : Type} (n : Nat) (v : AlignedVector) (h : Heap α)
    (hn : n ≤ v.capacity) : reserve n v h = { thrown := none, vec := v, heap := h } := by
  unfold reserve
  rw [if_neg (by omega)]

theorem plentiful_reserve {α : Type} (n : Nat) (v : AlignedVector) (h : Heap α)
    (hp : h.plentiful) : (reserve n v h).heap.plentiful := by
  unfold reserve
  split
  · exact plentiful_reallocate n v h hp
  · exact hp

theorem cells_of_size_zero {α : Type} (h : Heap α) (v : AlignedVector) (hs : v.size_ = 0) :
    cells h v = [] := by
  unfold cells
  rw [hs]
  split <;> simp

/-- What a successful `shrink_to_fit()` does. -/
theorem shrink_to_fit_spec {α : Type} (v : AlignedVector) (h : Heap α)
    (hv : Valid h v) (hg : h.grants) :
    (shrink_to_fit v h).thrown = none ∧
      (shrink_to_fit v h).vec.size_ = v.size_ ∧
      (shrink_to_fit v h).vec.capacity = v.size_ ∧
      Valid (shrink_to_fit v h).heap (shrink_to_fit v h).vec ∧
      cells (shrink_to_fit v h).heap (shrink_to_fit v h).vec = cells h v := by
  by_cases hr : v.size_ < v.capacity
  · have he : shrink_to_fit v h = reallocate v.size_ v h := by
      unfold shrink_to_fit
      rw [if_pos hr]
    rw [he]
    by_cases hz : v.size_ = 0
    · rw [hz, reallocate_zero]
      refine ⟨rfl, rfl, rfl, ⟨Nat.le_refl 0, ?_⟩, ?_⟩
      · show (if (0 : Nat) = 0 then (0 : Nat) = 0 else _)
        rw [if_pos rfl]
      · rw [cells_of_size_zero h v hz]
        exact cells_of_size_zero _ _ rfl
    · obtain ⟨h1, h2, h3, _, h5, h6⟩ := reallocate_spec v.size_ v h hv hz (Nat.le_refl _) hg
      exact ⟨h1, h2, h3, h5, h6⟩
  · have he : shrink_to_fit v h = { thrown := none, vec := v, heap := h } := by
      unfold shrink_to_fit
      rw [if_neg hr]
    rw [he]
    have := hv.1
    exact ⟨rfl, rfl, by show v.capacity = v.size_; omega, hv, rfl⟩

/-! ## The capacity never shrinks -/

theorem lookup_memcpy_ne {α : Type} (dst src : Ptr) (n : Nat) (h : Heap α) (q : Ptr)
    (hq : q ≠ dst) : (memcpy dst src n h).lookup q = h.lookup q := by
  unfold memcpy
  split
  · split
    · rw [Heap.lookup_store, if_neg hq]
    · rfl
  · rfl

theorem lookup_uninitialized_fill_ne {α : Type} (p : Ptr) (lo hi : Nat) (x : α) (h : Heap α)
    (q : Ptr) (hq : q ≠ p) : (uninitialized_fill p lo hi x h).lookup q = h.lookup q := by
  unfold uninitialized_fill
  split
  · split
    · rw [Heap.lookup_store, if_neg hq]
    · rfl
  · rfl

theorem lookup_write_ne {α : Type} (h : Heap α) (p : Ptr) (i : Nat) (x : α)
    (q : Ptr) (hq : q ≠ p) : (h.write p i x).lookup q = h.lookup q := by
  unfold Heap.write
  split
  · rw [Heap.lookup_store, if_neg hq]
  · rfl

theorem lookup_refused {α : Type} (h : Heap α) (q : Ptr) : h.refused.lookup q = h.lookup q :=
  rfl

theorem lookup_reallocate_frame {α : Type} (n : Nat) (v : AlignedVector) (h : Heap α)
    (q : Ptr) (hq : q ≠ v.data) (hf : q ≠ h.fresh) :
    (reallocate n v h).heap.lookup q = h.lookup q := by
  by_cases hn : n = 0
  · subst hn
    rw [reallocate_zero]
    simp only
    rw [lookup_free, if_neg (fun hh => hq hh.2)]
  · by_cases hg : h.grants
    · rw [reallocate_of_grants n v h hn hg]
      simp only
      rw [lookup_free, if_neg (fun hh => hq hh.2)]
      split
      · rw [lookup_memcpy_ne _ _ _ _ q hf, Heap.lookup_allocated, if_neg hf]
      · rw [Heap.lookup_allocated, if_neg hf]
    · rw [reallocate_of_not_grants n v h hn hg]
      rfl

theorem data_reallocate {α : Type} (n : Nat) (v : AlignedVector) (h : Heap α) (hn : n ≠ 0) :
    (reallocate n v h).vec.data = v.data ∨ (reallocate n v h).vec.data = h.fresh := by
  rw [reallocate_vec, if_neg hn]
  split
  · exact Or.inr rfl
  · exact Or.inl rfl

theorem lookup_ensure_capacity_frame {α : Type} (req : Nat) (v : AlignedVector) (h : Heap α)
    (q : Ptr) (hq : q ≠ v.data) (hf : q ≠ h.fresh) :
    (ensure_capacity req v h).heap.lookup q = h.lookup q := by
  unfold ensure_capacity
  split
  · exact lookup_reallocate_frame _ v h q hq hf
  · rfl

theorem data_ensure_capacity {α : Type} (req : Nat) (v : AlignedVector) (h : Heap α) :
    (ensure_capacity req v h).vec.data = v.data ∨
      (ensure_capacity req v h).vec.data = h.fresh := by
  unfold ensure_capacity
  split
  · apply data_reallocate
    have : 4 ≤ max (max req (v.capacity + v.capacity / 2)) 4 := le_max_right _ _
    omega
  · exact Or.inl rfl

theorem lookup_emplace_back_frame {α : Type} (x : α) (v : AlignedVector) (h : Heap α)
    (q : Ptr) (hq : q ≠ v.data) (hf : q ≠ h.fresh) :
    (emplace_back x v h).heap.lookup q = h.lookup q := by
  have h1 := lookup_ensure_capacity_frame (v.size_ + 1) v h q hq hf
  have h2 := data_ensure_capacity (v.size_ + 1) v h
  unfold emplace_back
  simp only
  split
  · exact h1
  · simp only
    rw [lookup_write_ne _ _ _ _ q (by rcases h2 with e | e <;> rw [e] <;> assumption)]
    exact h1

theorem lookup_resize_frame {α : Type} (n : Nat) (x : α) (v : AlignedVector) (h : Heap α)
    (q : Ptr) (hq : q ≠ v.data) (hf : q ≠ h.fresh) :
    (resize n x v h).heap.lookup q = h.lookup q := by
  have h1 := lookup_ensure_capacity_frame n v h q hq hf
  have h2 := data_ensure_capacity n v h
  unfold resize
  split
  · simp only
    split
    · exact h1
    · simp only
      rw [lookup_uninitialized_fill_ne _ _ _ _ _ q
        (by rcases h2 with e | e <;> rw [e] <;> assumption)]
      exact h1
  · rfl

theorem lookup_at_put_frame {α : Type} (i : Nat) (x : α) (v : AlignedVector) (h : Heap α)
    (q : Ptr) (hq : q ≠ v.data) : (at_put i x v h).heap.lookup q = h.lookup q := by
  unfold at_put at_ref
  split
  · rename_i p j he
    split at he
    · cases he
    · cases he
      exact lookup_write_ne h v.data i x q hq
  · rfl

theorem cells_congr {α : Type} (h1 h2 : Heap α) (v : AlignedVector)
    (hl : h1.lookup v.data = h2.lookup v.data) : cells h1 v = cells h2 v := by
  unfold cells
  rw [hl]

/-- A vector keeps its elements when the block it owns is left alone. -/
theorem at_frame {α : Type} (h1 h2 : Heap α) (v : AlignedVector) (hv : Valid h1 v)
    (hl : ∀ q cs, q ≠ 0 → h1.lookup q = some cs → q = v.data → h2.lookup q = some cs)
    (j : Nat) : at_ j v h2 = at_ j v h1 := by
  by_cases hj : j < v.size_
  · have hc : 0 < v.capacity := by
      have := hv.1
      omega
    obtain ⟨cs, hcs, _⟩ := hv.lookup_block hc
    have hd := hv.data_ne_zero hc
    have h2l := hl v.data cs hd hcs rfl
    exact at_congr h2 h1 v v rfl (cells_congr h2 h1 v (by rw [h2l, hcs])) j
  · rw [at_of_ge h1 v j (by omega), at_of_ge h2 v j (by omega)]

/-! ## Copies -/

theorem lookup_memcpy_length {α : Type} (dst src : Ptr) (n : Nat) (h : Heap α) :
    ((memcpy dst src n h).lookup dst).map List.length = (h.lookup dst).map List.length := by
  unfold memcpy
  split
  · rename_i d s hd hs
    split
    · rename_i hc
      rw [Heap.lookup_store, if_pos rfl, hd]
      simp only [Option.map_some', List.length_append, List.length_take, List.length_drop,
        Option.some.injEq]
      omega
    · rfl
  · rfl

/-- The state a successful copy construction from `a` leaves: the copy sits at the
fresh address, is valid, holds the cells of `a`, and no other block changed. -/
theorem copy_state {α : Type} (a : AlignedVector) (h : Heap α) (hv : Valid h a) :
    Valid (memcpy h.fresh a.data a.array_.size_ (h.allocated a.array_.size_))
        { size_ := a.size_,
          array_ := { size_ := a.array_.size_, buffer_ := { data_ := h.fresh } } } ∧
      cells (memcpy h.fresh a.data a.array_.size_ (h.allocated a.array_.size_))
        { size_ := a.size_,
          array_ := { size_ := a.array_.size_, buffer_ := { data_ := h.fresh } } } =
        cells h a ∧
      ∀ q, q ≠ h.fresh →
        (memcpy h.fresh a.data a.array_.size_ (h.allocated a.array_.size_)).lookup q =
          h.lookup q := by
  have hframe : ∀ q, q ≠ h.fresh →
      (memcpy h.fresh a.data a.array_.size_ (h.allocated a.array_.size_)).lookup q =
        h.lookup q := by
    intro q hq
    rw [lookup_memcpy_ne _ _ _ _ q hq, Heap.lookup_allocated, if_neg hq]
  have hlen := lookup_memcpy_length h.fresh a.data a.array_.size_ (h.allocated a.array_.size_)
  rw [Heap.lookup_allocated, if_pos rfl] at hlen
  simp only [Option.map_some', List.length_replicate] at hlen
  refine ⟨⟨hv.1, ?_⟩, ?_, hframe⟩
  · show (if h.fresh = 0 then _ else _)
    rw [if_neg h.fresh_ne_zero]
    exact hlen
  · by_cases hc : 0 < a.capacity
    · obtain ⟨cs, hl, hcl⟩ := hv.lookup_block hc
      have hcl2 : cs.length = a.array_.size_ := hcl
      have hl1 : (h.allocated a.array_.size_).lookup a.data = some cs :=
        Heap.lookup_allocated_of_live h _ a.data cs hl
      have hf1 : (h.allocated a.array_.size_).lookup h.fresh =
          some (List.replicate a.array_.size_ none) := by
        rw [Heap.lookup_allocated, if_pos rfl]
      have hm := lookup_memcpy h.fresh a.data a.array_.size_ (h.allocated a.array_.size_) _ cs
        hf1 hl1 (by simp) (by omega) h.fresh
      rw [if_pos rfl] at hm
      have e : List.take a.array_.size_ cs ++
          List.drop a.array_.size_ (List.replicate a.array_.size_ (none : Cell α)) = cs := by
        rw [List.take_of_length_le (by omega)]
        simp
      rw [e] at hm
      unfold cells
      show (match (memcpy h.fresh a.data a.array_.size_
          (h.allocated a.array_.size_)).lookup h.fresh with
        | some c => c.take a.size_
        | none => []) = _
      rw [hm, hl]
    · have hs : a.size_ = 0 := by
        have := hv.1
        omega
      rw [cells_of_size_zero h a hs]
      exact cells_of_size_zero _ _ hs

end AlignedVector

theorem operator_eq_of_cells {α : Type} [DecidableEq α] (h : Heap α) (a c : AlignedVector)
    (hs : a.size_ = c.size_) (hc : AlignedVector.cells h a = AlignedVector.cells h c) :
    operator_eq a c h = true := by
  unfold operator_eq
  have hsz : a.size = c.size := hs
  simp only [hsz, beq_self_eq_true, Bool.true_and, List.all_eq_true, List.mem_range,
    beq_iff_eq]
  intro i hi
  rw [AlignedVector.load_eq_cells h a i (by rw [hs]; exact hi),
    AlignedVector.load_eq_cells h c i hi, hc]

namespace AlignedVector

/-- A vector keeps its cells when the block it owns is kept. -/
theorem cells_frame {α : Type} (h1 h2 : Heap α) (v : AlignedVector) (hv : Valid h1 v)
    (hkeep : ∀ cs, v.data ≠ 0 → h1.lookup v.data = some cs → h2.lookup v.data = some cs) :
    cells h2 v = cells h1 v := by
  by_cases hc : 0 < v.capacity
  · obtain ⟨cs, hcs, _⟩ := hv.lookup_block hc
    have h2l := hkeep cs (hv.data_ne_zero hc) hcs
    exact cells_congr h2 h1 v (by rw [h2l, hcs])
  · have hs : v.size_ = 0 := by
      have := hv.1
      omega
    rw [cells_of_size_zero h1 v hs, cells_of_size_zero h2 v hs]

/-- The elements of `a` after a method ran on another vector `c`: unchanged, when the
heap `hh` the method started from kept the block of `a`, and the method left every
block but the one of `c` alone. -/
theorem at_after_method {α : Type} (h hh : Heap α) (a c : AlignedVector) (hva : Valid h a)
    (hkeep : ∀ cs, a.data ≠ 0 → h.lookup a.data = some cs → hh.lookup a.data = some cs)
    (hne : c.data ≠ a.data) (r : Outcome α)
    (hr : ∀ q, q ≠ c.data → q ≠ hh.fresh → r.heap.lookup q = hh.lookup q) (j : Nat) :
    at_ j a r.heap = at_ j a h := by
  apply at_frame h r.heap a hva
  intro q cs hq0 hl hqa
  subst hqa
  have hk := hkeep cs hq0 hl
  rw [hr a.data (fun e => hne e.symm) (Heap.ne_fresh_of_lookup hh _ _ hk)]
  exact hk

end AlignedVector

/-! ## Two objects -/

namespace World

theorem copy_assign_of_grants {α : Type} (a b : Nat) (w : World α) (hab : a ≠ b)
    (hg : w.heap.grants) :
    copy_assign a b w =
      (none,
        { heap := free (w.obj a).data
            (memcpy w.heap.fresh (w.obj b).data (w.obj b).array_.size_
              (w.heap.allocated (w.obj b).array_.size_)),
          obj := Function.update w.obj a
            { size_ := (w.obj b).size_,
              array_ := { size_ := (w.obj b).array_.size_,
                          buffer_ := { data_ := w.heap.fresh } } } }) := by
  unfold copy_assign
  rw [if_pos hab, AlignedVector.copy_ctor_of_grants _ _ hg]
  rfl

theorem move_assign_of_ne {α : Type} (a b : Nat) (w : World α) (hab : a ≠ b) :
    move_assign a b w =
      { heap := w.heap,
        obj := Function.update
                (Function.update w.obj a
                  { size_ := (w.obj b).size_, array_ := (w.obj b).array_ })
                b { size_ := 0, array_ := (w.obj a).array_ } } := by
  unfold move_assign
  rw [if_pos hab]
  rfl

theorem move_assign_self {α : Type} (a : Nat) (w : World α) : move_assign a a w = w := by
  unfold move_assign
  rw [if_neg (by simp)]

end World

/-! ## After `_leak` -/

namespace AlignedVector

theorem emplace_back_after_leak {α : Type} (x : α) (v : AlignedVector) (h : Heap α)
    (hg : h.grants) :
    emplace_back x v._leak h =
      { thrown := none,
        vec := { size_ := 1, array_ := { size_ := 4, buffer_ := { data_ := h.fresh } } },
        heap := (h.allocated 4).write h.fresh 0 x } := by
  have he : ensure_capacity (v._leak.size_ + 1) v._leak h =
      { thrown := none,
        vec := { size_ := 0, array_ := { size_ := 4, buffer_ := { data_ := h.fresh } } },
        heap := h.allocated 4 } := by
    unfold ensure_capacity
    have hc : v._leak.size_ + 1 > v._leak.capacity := Nat.succ_pos 0
    rw [if_pos hc]
    have hm : max (max (v._leak.size_ + 1) (v._leak.capacity + v._leak.capacity / 2)) 4 = 4 := by
      show max (max (0 + 1) (0 + 0 / 2)) 4 = 4
      decide
    simp only [hm]
    rw [reallocate_of_grants 4 v._leak h (by decide) hg]
    have hs : ¬ v._leak.size_ > 0 := Nat.lt_irrefl 0
    rw [if_neg hs]
    rfl
  rw [emplace_back_of_grants x v._leak h hg, he]
  rfl

end AlignedVector

/-! ## Refused allocations -/

namespace AlignedVector

theorem ensure_capacity_of_not_grants {α : Type} (req : Nat) (v : AlignedVector) (h : Heap α)
    (hr : req > v.capacity) (hg : ¬ h.grants) :
    ensure_capacity req v h =
      { thrown := some Exn.bad_alloc, vec := v, heap := h.refused } := by
  unfold ensure_capacity
  rw [if_pos hr]
  have hn : max (max req (v.capacity + v.capacity / 2)) 4 ≠ 0 := by
    have : 4 ≤ max (max req (v.capacity + v.capacity / 2)) 4 := le_max_right _ _
    omega
  exact reallocate_of_not_grants _ v h hn hg

theorem reserve_of_not_grants {α : Type} (n : Nat) (v : AlignedVector) (h : Heap α)
    (hr : n > v.capacity) (hg : ¬ h.grants) :
    reserve n v h = { thrown := some Exn.bad_alloc, vec := v, heap := h.refused } := by
  unfold reserve
  rw [if_pos hr]
  exact reallocate_of_not_grants n v h (by omega) hg

theorem emplace_back_of_not_grants {α : Type} (x : α) (v : AlignedVector) (h : Heap α)
    (hr : v.size_ + 1 > v.capacity) (hg : ¬ h.grants) :
    emplace_back x v h = { thrown := some Exn.bad_alloc, vec := v, heap := h.refused } := by
  unfold emplace_back
  rw [ensure_capacity_of_not_grants (v.size_ + 1) v h hr hg]

theorem resize_of_not_grants {α : Type} (n : Nat) (x : α) (v : AlignedVector) (h : Heap α)
    (hn : n > v.size_) (hr : n > v.capacity) (hg : ¬ h.grants) :
    resize n x v h = { thrown := some Exn.bad_alloc, vec := v, heap := h.refused } := by
  unfold resize
  rw [if_pos hn, ensure_capacity_of_not_grants n v h hr hg]

theorem at_refused {α : Type} (v : AlignedVector) (h : Heap α) (i : Nat) :
    at_ i v h.refused = at_ i v h := rfl

end AlignedVector

/-! ## align_round -/

theorem wrap_pred (s a : Nat) (ha : 0 < a) (hs : s + a - 1 < SIZE_MOD) :
    ((s + a) % SIZE_MOD + (SIZE_MOD - 1)) % SIZE_MOD = s + a - 1 := by
  unfold SIZE_MOD at *
  omega

theorem align_round_eq (s a : Nat) (ha : 0 < a) (hs : s + a - 1 < SIZE_MOD) :
    align_round s a = (s + a - 1) / a * a := by
  unfold align_round
  rw [wrap_pred s a ha hs]
  exact Nat.mod_eq_of_lt (lt_of_le_of_lt (Nat.div_mul_le_self _ _) hs)

theorem dvd_align_round (s a : Nat) : a ∣ align_round s a := by
  unfold align_round
  have hlt : ((s + a) % SIZE_MOD + (SIZE_MOD - 1)) % SIZE_MOD < SIZE_MOD :=
    Nat.mod_lt _ (by unfold SIZE_MOD; decide)
  rw [Nat.mod_eq_of_lt (lt_of_le_of_lt (Nat.div_mul_le_self _ _) hlt)]
  exact Dvd.intro_left _ rfl

theorem le_div_mul_of_pred (s a : Nat) (ha : 0 < a) : s ≤ (s + a - 1) / a * a := by
  have h1 := Nat.div_add_mod (s + a - 1) a
  have h2 := Nat.mod_lt (s + a - 1) ha
  have h3 : (s + a - 1) / a * a = a * ((s + a - 1) / a) := Nat.mul_comm _ _
  rw [h3]
  generalize a * ((s + a - 1) / a) = t at h1
  generalize (s + a - 1) % a = r at h1 h2
  omega

theorem div_mul_le_of_dvd (s a m : Nat) (ha : 0 < a) (hd : a ∣ m) (hm : s ≤ m) :
    (s + a - 1) / a * a ≤ m := by
  obtain ⟨k, rfl⟩ := hd
  have hlt : s + a - 1 < a * (k + 1) := by
    rw [Nat.mul_succ]
    omega
  have hk : (s + a - 1) / a < k + 1 := Nat.div_lt_of_lt_mul hlt
  calc (s + a - 1) / a * a ≤ k * a := Nat.mul_le_mul_right a (Nat.lt_succ_iff.1 hk)
    _ = a * k := Nat.mul_comm _ _

/-! ## The block of a copy -/

namespace AlignedVector

end AlignedVector

/-! ## resize within the capacity, assign -/

namespace AlignedVector

theorem ensure_capacity_noop {α : Type} (req : Nat) (v : AlignedVector) (h : Heap α)
    (hr : req ≤ v.capacity) :
    ensure_capacity req v h = { thrown := none, vec := v, heap := h } := by
  unfold ensure_capacity
  rw [if_neg (by omega)]

theorem resize_within_eq {α : Type} (n : Nat) (x : α) (v : AlignedVector) (h : Heap α)
    (hn : v.size_ < n) (hc : n ≤ v.capacity) :
    resize n x v h =
      { thrown := none, vec := { v with size_ := n },
        heap := uninitialized_fill v.data v.size_ n x h } := by
  unfold resize
  rw [if_pos hn, ensure_capacity_noop n v h hc]

/-- What a growing `resize(n, x)` does when `n` is within the capacity: no allocation. -/
theorem resize_within_spec {α : Type} (n : Nat) (x : α) (v : AlignedVector) (h : Heap α)
    (hv : Valid h v) (hn : v.size_ < n) (hc : n ≤ v.capacity) :
    (resize n x v h).thrown = none ∧
      (resize n x v h).vec.size_ = n ∧
      (resize n x v h).vec.array_ = v.array_ ∧
      Valid (resize n x v h).heap (resize n x v h).vec ∧
      cells (resize n x v h).heap (resize n x v h).vec =
        cells h v ++ List.replicate (n - v.size_) (some x) := by
  have he : resize n x v h =
      { thrown := none, vec := { v with size_ := n },
        heap := uninitialized_fill v.data v.size_ n x h } := by
    unfold resize
    rw [if_pos hn, ensure_capacity_noop n v h hc]
  rw [he]
  obtain ⟨cs, hl, hlen⟩ := hv.lookup_block (by omega)
  have hd := hv.data_ne_zero (by omega)
  have hw := lookup_uninitialized_fill v.data v.size_ n x h cs hl (by omega) (by omega) v.data
  rw [if_pos rfl] at hw
  refine ⟨rfl, rfl, rfl, ⟨hc, ?_⟩, ?_⟩
  · show (if v.data = 0 then v.capacity = 0 else
      ((uninitialized_fill v.data v.size_ n x h).lookup v.data).map List.length =
        some v.capacity)
    rw [if_neg hd, hw]
    simp only [Option.map_some', List.length_append, List.length_take, List.length_replicate,
      List.length_drop, Option.some.injEq]
    omega
  · show (match (uninitialized_fill v.data v.size_ n x h).lookup v.data with
      | some c => c.take n
      | none => []) = cells h v ++ List.replicate (n - v.size_) (some x)
    rw [hw]
    simp only
    have hlen2 : (List.take v.size_ cs ++ List.replicate (n - v.size_) (some x)).length
        = n := by
      simp only [List.length_append, List.length_take, List.length_replicate]
      omega
    rw [List.take_append_of_le_length (by rw [hlen2]), List.take_of_length_le (by rw [hlen2])]
    unfold cells
    rw [hl]

theorem valid_shrunk {α : Type} (n : Nat) (v : AlignedVector) (h : Heap α)
    (hv : Valid h v) (hn : n ≤ v.size_) : Valid h { v with size_ := n } :=
  ⟨le_trans hn hv.1, hv.2⟩

theorem cells_shrunk {α : Type} (n : Nat) (v : AlignedVector) (h : Heap α)
    (hn : n ≤ v.size_) : cells h { v with size_ := n } = (cells h v).take n := by
  unfold cells
  show (match h.lookup v.data with
    | some c => c.take n
    | none => []) = _
  split
  · rw [List.take_take, Nat.min_eq_left hn]
  · simp

theorem assign_of_not_grants {α : Type} (count : Nat) (x : α) (v : AlignedVector) (h : Heap α)
    (hr : count > v.capacity) (hg : ¬ h.grants) :
    assign count x v h =
      { thrown := some Exn.bad_alloc, vec := v.clear, heap := h.refused } := by
  unfold assign
  simp only
  rw [if_pos (by omega), reserve_of_not_grants count v.clear h hr hg]

end AlignedVector

/-! ## Comparison operators -/

theorem lexicographical_compare_values {α : Type} [LinearOrder α] (xs ys : List α) :
    lexicographical_compare (xs.map some) (ys.map some) = true ↔ List.Lex (· < ·) xs ys := by
  induction xs generalizing ys with
  | nil =>
    cases ys with
    | nil => simp [lexicographical_compare, List.Lex.not_nil_right]
    | cons y ys => simp [lexicographical_compare, List.Lex.nil]
  | cons x xs ih =>
    cases ys with
    | nil => simp [lexicographical_compare, List.Lex.not_nil_right]
    | cons y ys =>
      simp only [List.map_cons, lexicographical_compare, cell_lt]
      by_cases hxy : x < y
      · simp only [hxy, decide_True, if_true, true_iff]
        exact List.Lex.rel hxy
      · by_cases hyx : y < x
        · simp only [hxy, hyx, decide_False, decide_True, if_true, if_false, Bool.false_eq_true,
            false_iff]
          intro hl
          cases hl with
          | cons _ => exact lt_irrefl _ hyx
          | rel hr => exact hxy hr
        · have he : x = y := le_antisymm (not_lt.1 hyx) (not_lt.1 hxy)
          subst he
          simp only [hxy, decide_False, if_false, Bool.false_eq_true]
          rw [ih ys, List.Lex.cons_iff]

theorem operator_eq_iff_elements {α : Type} [DecidableEq α] (a b : AlignedVector)
    (h : Heap α) : operator_eq a b h = true ↔ a.elements h = b.elements h := by
  unfold operator_eq AlignedVector.elements
  have hsa : a.size = a.size_ := rfl
  have hsb : b.size = b.size_ := rfl
  rw [hsa, hsb]
  simp only [Bool.and_eq_true, beq_iff_eq, List.all_eq_true, List.mem_range]
  constructor
  · rintro ⟨hs, hall⟩
    rw [← hs]
    exact List.map_congr_left (fun i hi => hall i (List.mem_range.1 hi))
  · intro he
    have hl := congrArg List.length he
    simp only [List.length_map, List.length_range] at hl
    refine ⟨hl, ?_⟩
    rw [← hl] at he
    intro i hi
    exact (List.map_inj_left.1 he) i (List.mem_range.2 hi)

theorem elements_eq_iff_at {α : Type} (a b : AlignedVector) (h : Heap α) :
    a.elements h = b.elements h ↔
      (a.size = b.size ∧ ∀ i, i < a.size → AlignedVector.at_ i a h = AlignedVector.at_ i b h) := by
  unfold AlignedVector.elements
  have hsa : a.size = a.size_ := rfl
  have hsb : b.size = b.size_ := rfl
  rw [hsa, hsb]
  have hat : ∀ (v : AlignedVector) (i : Nat), i < v.size_ →
      AlignedVector.at_ i v h = Except.ok (h.load v.data i) := by
    intro v i hi
    unfold AlignedVector.at_ AlignedVector.at_ref
    rw [if_neg (Nat.not_le.2 hi)]
  constructor
  · intro he
    have hl := congrArg List.length he
    simp only [List.length_map, List.length_range] at hl
    refine ⟨hl, ?_⟩
    rw [← hl] at he
    intro i hi
    rw [hat a i hi, hat b i (by omega), (List.map_inj_left.1 he) i (List.mem_range.2 hi)]
  · rintro ⟨hs, hall⟩
    rw [← hs]
    apply List.map_congr_left
    intro i hi
    have hi1 := List.mem_range.1 hi
    have := hall i hi1
    rw [hat a i hi1, hat b i (by omega)] at this
    exact Except.ok.inj this

theorem bool_eq_false_iff {c : Bool} {P : Prop} (hc : c = true ↔ P) : c = false ↔ ¬ P := by
  cases c
  · simp only [true_iff]
    exact fun hp => Bool.noConfusion (hc.2 hp)
  · simp only [Bool.true_eq_false, false_iff, not_not]
    exact hc.1 rfl

theorem bool_not_eq_true_iff {c : Bool} {P : Prop} (hc : c = true ↔ P) :
    (!c) = true ↔ ¬ P := by
  rw [Bool.not_eq_true']
  exact bool_eq_false_iff hc

/-! ## Type tags -/

theorem type_enum2format_of_lt (table : List TypeEntry) (t : Nat) (ht : t < table.length) :
    type_enum2format table t = Except.ok " #format_str " := by
  unfold type_enum2format
  rw [List.getElem?_eq_getElem ht]
  rfl

theorem format2type_enum_literal (table : List TypeEntry) (hne : table ≠ []) :
    format2type_enum table " #format_str " = Except.ok 0 := by
  cases table with
  | nil => exact absurd rfl hne
  | cons e rest =>
    unfold format2type_enum format2type_enum_from format_literal
    rw [if_pos rfl]

/-! ## The operations on elements

What the operations with a by-value argument do to the elements, for natural-number
sizes. -/

theorem growth_policy_elements {α : Type} (h : Heap α) (v : AlignedVector) (n : Nat) (x : α)
    (hg : h.grants) (hv : v.size ≤ v.capacity) :
    ((v.push_back x h).thrown = none ∧
      (v.push_back x h).vec.capacity =
        if v.size + 1 > v.capacity then
          max (max (v.size + 1) (v.capacity + v.capacity / 2)) 4
        else v.capacity) ∧
    ((v.emplace_back x h).thrown = none ∧
      (v.emplace_back x h).vec.capacity =
        if v.size + 1 > v.capacity then
          max (max (v.size + 1) (v.capacity + v.capacity / 2)) 4
        else v.capacity) ∧
    ((v.resize n x h).thrown = none ∧
      (v.resize n x h).vec.capacity =
        if n > v.capacity then max (max n (v.capacity + v.capacity / 2)) 4
        else v.capacity) ∧
    (h.plentiful → ∃ v0 h0, AlignedVector.ctor h = (some v0, h0) ∧ v0.capacity = 4 ∧
      ∀ x1 x2 x3 x4 x5 : α,
        (AlignedVector.push_back_all [x1, x2, x3, x4] v0 h0).vec.capacity = 4 ∧
        (AlignedVector.push_back_all [x1, x2, x3, x4, x5] v0 h0).vec.capacity = 6) := by
  have hpush : (v.emplace_back x h).thrown = none ∧
      (v.emplace_back x h).vec.capacity =
        if v.size + 1 > v.capacity then
          max (max (v.size + 1) (v.capacity + v.capacity / 2)) 4
        else v.capacity := by
    rw [AlignedVector.emplace_back_of_grants x v h hg]
    exact ⟨rfl, AlignedVector.ensure_capacity_capacity (v.size_ + 1) v h hg⟩
  refine ⟨hpush, hpush, ?_, ?_⟩
  · by_cases hn : v.size_ < n
    · rw [AlignedVector.resize_grow_of_grants n x v h hg hn]
      exact ⟨rfl, AlignedVector.ensure_capacity_capacity n v h hg⟩
    · rw [AlignedVector.resize_shrink_eq n x v h (by omega)]
      have hc : ¬ n > v.capacity := by
        have : v.size_ ≤ v.capacity := hv
        omega
      rw [if_neg hc]
      exact ⟨rfl, rfl⟩
  · intro hp
    refine ⟨_, _, AlignedVector.ctor_of_grants h (h.plentiful_grants hp), rfl, ?_⟩
    intro x1 x2 x3 x4 x5
    have hv0 := AlignedVector.valid_ctor h
    have hp0 := h.plentiful_allocated 4 hp
    have hs0 : ({ size_ := 0, array_ := { size_ := 4, buffer_ := { data_ := h.fresh } } } :
      AlignedVector).size_ = 0 := rfl
    have hc0 : ({ size_ := 0, array_ := { size_ := 4, buffer_ := { data_ := h.fresh } } } :
      AlignedVector).capacity = 4 := rfl
    generalize h.allocated 4 = h0 at hv0 hp0
    generalize ({ size_ := 0, array_ := { size_ := 4, buffer_ := { data_ := h.fresh } } } :
      AlignedVector) = v0 at hv0 hs0 hc0
    have four : ∀ rest : List α, ∃ v4 h4,
        AlignedVector.push_back_all (x1 :: x2 :: x3 :: x4 :: rest) v0 h0 =
          AlignedVector.push_back_all rest v4 h4 ∧ AlignedVector.Valid h4 v4 ∧
          h4.plentiful ∧ v4.size_ = 4 ∧ v4.capacity = 4 := by
      intro rest
      obtain ⟨v1, h1, e1, hv1, hp1, hs1, hc1⟩ :=
        AlignedVector.push_back_all_step x1 (x2 :: x3 :: x4 :: rest) v0 h0 hv0 hp0
      simp only [hs0, hc0] at hs1 hc1
      norm_num at hs1 hc1
      obtain ⟨v2, h2, e2, hv2, hp2, hs2, hc2⟩ :=
        AlignedVector.push_back_all_step x2 (x3 :: x4 :: rest) v1 h1 hv1 hp1
      simp only [hs1, hc1] at hs2 hc2
      norm_num at hs2 hc2
      obtain ⟨v3, h3, e3, hv3, hp3, hs3, hc3⟩ :=
        AlignedVector.push_back_all_step x3 (x4 :: rest) v2 h2 hv2 hp2
      simp only [hs2, hc2] at hs3 hc3
      norm_num at hs3 hc3
      obtain ⟨v4, h4, e4, hv4, hp4, hs4, hc4⟩ :=
        AlignedVector.push_back_all_step x4 rest v3 h3 hv3 hp3
      simp only [hs3, hc3] at hs4 hc4
      norm_num at hs4 hc4
      exact ⟨v4, h4, by rw [e1, e2, e3, e4], hv4, hp4, hs4, hc4⟩
    constructor
    · obtain ⟨v4, h4, e, _, _, _, hc4⟩ := four []
      rw [e, AlignedVector.push_back_all_nil]
      exact hc4
    · obtain ⟨v4, h4, e, hv4, hp4, hs4, hc4⟩ := four [x5]
      obtain ⟨v5, h5, e5, _, _, _, hc5⟩ :=
        AlignedVector.push_back_all_step x5 [] v4 h4 hv4 hp4
      simp only [hs4, hc4] at hc5
      norm_num at hc5
      rw [e, e5, AlignedVector.push_back_all_nil]
      exact hc5

theorem resize_grow_elements {α : Type} (h : Heap α) (v : AlignedVector) (n : Nat) (x : α)
    (hv : AlignedVector.Valid h v) (hg : h.grants) (hn : v.size < n) :
    (v.resize n x h).thrown = none ∧
    (v.resize n x h).vec.size = n ∧
    (∀ i, v.size ≤ i → i < n →
      AlignedVector.at_ i (v.resize n x h).vec (v.resize n x h).heap = Except.ok (some x)) ∧
    (∀ i, i < v.size →
      AlignedVector.at_ i (v.resize n x h).vec (v.resize n x h).heap =
        AlignedVector.at_ i v h) := by
  obtain ⟨h1, h2, _, _, h5⟩ := AlignedVector.resize_grow_spec n x v h hv hg hn
  have hlen := hv.length_cells
  have hsz : v.size = v.size_ := rfl
  rw [hsz] at hn ⊢
  refine ⟨h1, h2, ?_, ?_⟩
  · intro i hlo hhi
    rw [AlignedVector.at_of_lt _ _ i (by rw [h2]; exact hhi), h5,
      List.getElem?_append_right (by rw [hlen]; exact hlo), hlen, List.getElem?_replicate,
      if_pos (by omega)]
    rfl
  · intro i hi
    rw [AlignedVector.at_of_lt _ _ i (by rw [h2]; omega), h5,
      List.getElem?_append_left (by rw [hlen]; exact hi), AlignedVector.at_of_lt h v i hi]

theorem reserve_elements {α : Type} (h : Heap α) (v : AlignedVector) (n : Nat)
    (hv : AlignedVector.Valid h v) (hg : h.grants) :
    (v.reserve n h).thrown = none ∧
    (v.reserve n h).vec.size = v.size ∧
    (∀ i, AlignedVector.at_ i (v.reserve n h).vec (v.reserve n h).heap =
      AlignedVector.at_ i v h) ∧
    (n > v.capacity → (v.reserve n h).vec.capacity = n) ∧
    (n ≤ v.capacity → (v.reserve n h).vec = v ∧ (v.reserve n h).heap = h ∧
      (v.reserve n h).vec.capacity = v.capacity ∧ (v.reserve n h).vec.data = v.data) ∧
    v.capacity ≤ (v.reserve n h).vec.capacity := by
  obtain ⟨h1, h2, h3, _, h5⟩ := AlignedVector.reserve_spec n v h hv hg
  refine ⟨h1, h2, AlignedVector.at_congr _ _ _ _ h2 h5, ?_, ?_, ?_⟩
  · intro hn
    rw [h3, if_pos hn]
  · intro hn
    rw [AlignedVector.reserve_noop n v h hn]
    exact ⟨rfl, rfl, rfl, rfl⟩
  · rw [h3]
    split
    · omega
    · exact Nat.le_refl _

/-! ## The vector on the machine -/

theorem Layout.fits_mono (L : Layout) {m n : Nat} (hmn : m ≤ n) (hn : L.fits n) : L.fits m := by
  unfold Layout.fits at *
  have h1 := Nat.mul_le_mul_right L.sizeofT hmn
  omega

theorem Layout.lt_of_fits (L : Layout) (hL : L.ok) {n : Nat} (hn : L.fits n) :
    n < SIZE_MOD := by
  unfold Layout.fits at hn
  have h1 : n ≤ n * L.sizeofT := Nat.le_mul_of_pos_right n hL.1
  have h2 := hL.2
  omega

namespace Machine

theorem byte_size_of_fits (L : Layout) (hL : L.ok) {n : Nat} (hn : L.fits n) :
    byte_size L n = n * L.sizeofT := by
  unfold byte_size
  apply Nat.mod_eq_of_lt
  unfold Layout.fits at hn
  have h2 := hL.2
  omega

theorem copy_cells_of_fits (L : Layout) (hL : L.ok) {n : Nat} (hn : L.fits n) :
    whole_cells L (byte_size L n) = n := by
  rw [byte_size_of_fits L hL hn]
  exact Nat.mul_div_cancel n hL.1

theorem alloc_cells_of_fits (L : Layout) (hL : L.ok) {n : Nat} (hn : L.fits n) :
    min n (whole_cells L (AlignedBuffer.alloc_size L.Alignment (byte_size L n))) = n := by
  rw [byte_size_of_fits L hL hn]
  apply Nat.min_eq_left
  unfold whole_cells AlignedBuffer.alloc_size
  rw [align_round_eq _ _ hL.2 hn]
  exact (Nat.le_div_iff_mul_le hL.1).2 (le_div_mul_of_pred (n * L.sizeofT) L.Alignment hL.2)

theorem aligned_alloc_eq {α : Type} (L : Layout) (hL : L.ok) (n : Nat) (hn : L.fits n)
    (h : Heap α) :
    aligned_alloc L (AlignedBuffer.alloc_size L.Alignment (byte_size L n)) n h =
      xarrow.aligned_alloc n h := by
  unfold aligned_alloc xarrow.aligned_alloc
  rw [alloc_cells_of_fits L hL hn]

theorem array_ctor_size_eq {α : Type} (L : Layout) (hL : L.ok) (n : Nat) (hn : L.fits n)
    (h : Heap α) : AlignedArray.ctor_size L n h = xarrow.AlignedArray.ctor_size n h := by
  unfold AlignedArray.ctor_size xarrow.AlignedArray.ctor_size AlignedBuffer.ctor_size
    xarrow.AlignedBuffer.ctor_size
  rw [aligned_alloc_eq L hL n hn]

theorem holds_iff {α : Type} (h : Heap α) (p : Ptr) (n : Nat) :
    h.holds p n = true ↔ ∃ cs, h.lookup p = some cs ∧ n ≤ cs.length := by
  unfold Heap.holds
  cases hl : h.lookup p with
  | none => simp
  | some cs => simp

theorem memcpy_eq {α : Type} (L : Layout) (hL : L.ok) (dst src : Ptr) (n : Nat)
    (hn : L.fits n) (h : Heap α)
    (hh : n = 0 ∨ (h.holds dst n = true ∧ h.holds src n = true)) :
    memcpy L dst src n h = some (xarrow.memcpy dst src n h) := by
  unfold memcpy
  simp only [copy_cells_of_fits L hL hn]
  rw [if_pos hh]

end Machine

namespace Machine

theorem reallocate_eq {α : Type} (L : Layout) (hL : L.ok) (n : Nat) (v : AlignedVector)
    (h : Heap α) (hv : v.Valid h) (hsz : v.size_ ≤ n) (hn : L.fits n) :
    AlignedVector.reallocate L n v h = some (xarrow.AlignedVector.reallocate n v h) := by
  unfold AlignedVector.reallocate xarrow.AlignedVector.reallocate
  by_cases h0 : n = 0
  · rw [if_pos h0, if_pos h0]
  · rw [if_neg h0, if_neg h0, array_ctor_size_eq L hL n hn]
    by_cases hg : h.grants
    · rw [AlignedArray.ctor_size_of_grants n h hg]
      simp only
      by_cases hs : v.size_ > 0
      · have hc : 0 < v.capacity := lt_of_lt_of_le hs hv.size_le
        obtain ⟨cs, hl, hlen⟩ := hv.lookup_block hc
        have hdst : (h.allocated n).holds h.fresh v.size_ = true := by
          rw [holds_iff]
          refine ⟨List.replicate n none, ?_, ?_⟩
          · rw [Heap.lookup_allocated, if_pos rfl]
          · rw [List.length_replicate]; exact hsz
        have hsrc : (h.allocated n).holds v.data v.size_ = true := by
          rw [holds_iff]
          refine ⟨cs, Heap.lookup_allocated_of_live h n _ cs hl, ?_⟩
          rw [hlen]; exact hv.size_le
        rw [if_pos hs, if_pos hs]
        have hm := memcpy_eq L hL h.fresh v.data v.size_ (L.fits_mono hsz hn) (h.allocated n)
          (Or.inr ⟨hdst, hsrc⟩)
        have hd : ({ size_ := n, buffer_ := { data_ := h.fresh } } : AlignedArray).data =
          h.fresh := rfl
        rw [hd, hm]
      · rw [if_neg hs, if_neg hs]
    · rw [AlignedArray.ctor_size_of_not_grants n h hg]

theorem ensure_capacity_eq {α : Type} (L : Layout) (hL : L.ok) (req : Nat) (v : AlignedVector)
    (h : Heap α) (hv : v.Valid h)
    (hfit : req > v.capacity → L.fits (max (max req (v.capacity + v.capacity / 2)) 4)) :
    AlignedVector.ensure_capacity L req v h = some (xarrow.AlignedVector.ensure_capacity req v h) := by
  unfold AlignedVector.ensure_capacity xarrow.AlignedVector.ensure_capacity
  by_cases hr : req > v.capacity
  · have hf := hfit hr
    have hlt := L.lt_of_fits hL hf
    have hsum : (v.capacity + v.capacity / 2) % SIZE_MOD = v.capacity + v.capacity / 2 := by
      apply Nat.mod_eq_of_lt
      have h1 : v.capacity + v.capacity / 2 ≤ max (max req (v.capacity + v.capacity / 2)) 4 :=
        le_trans (le_max_right _ _) (le_max_left _ _)
      omega
    rw [if_pos hr, if_pos hr]
    simp only [hsum]
    apply reallocate_eq L hL _ v h hv _ hf
    have h1 : req ≤ max (max req (v.capacity + v.capacity / 2)) 4 :=
      le_trans (le_max_left _ _) (le_max_left _ _)
    have h2 := hv.size_le
    omega
  · rw [if_neg hr, if_neg hr]

theorem reserve_eq {α : Type} (L : Layout) (hL : L.ok) (n : Nat) (v : AlignedVector)
    (h : Heap α) (hv : v.Valid h) (hfit : n > v.capacity → L.fits n) :
    AlignedVector.reserve L n v h = some (xarrow.AlignedVector.reserve n v h) := by
  unfold AlignedVector.reserve xarrow.AlignedVector.reserve
  by_cases hr : n > v.capacity
  · rw [if_pos hr, if_pos hr]
    apply reallocate_eq L hL _ v h hv _ (hfit hr)
    have h2 := hv.size_le
    omega
  · rw [if_neg hr, if_neg hr]

theorem load_congr {α : Type} (h1 h2 : Heap α) (p : Ptr) (i : Nat)
    (hl : h1.lookup p = h2.lookup p) : h1.load p i = h2.load p i := by
  unfold Heap.load
  rw [hl]

theorem lookup_of_load {α : Type} (h : Heap α) (p : Ptr) (i : Nat) (x : α)
    (hx : h.load p i = some x) : ∃ cs, h.lookup p = some cs := by
  unfold Heap.load at hx
  cases hl : h.lookup p with
  | none => rw [hl] at hx; cases hx
  | some cs => exact ⟨cs, rfl⟩

theorem deref_ensure_capacity {α : Type} (req : Nat) (v : AlignedVector) (h : Heap α)
    (value : ArgRef α) (x : α) (hx : deref h value = some x)
    (hal : ∀ i, value = ArgRef.cell v.data i → req ≤ v.capacity) :
    deref (xarrow.AlignedVector.ensure_capacity req v h).heap value = some x := by
  cases value with
  | object y => exact hx
  | cell p i =>
    by_cases hp : p = v.data
    · subst hp
      rw [xarrow.AlignedVector.ensure_capacity_noop req v h (hal i rfl)]
      exact hx
    · obtain ⟨cs, hl⟩ := lookup_of_load h p i x hx
      have hf := Heap.ne_fresh_of_lookup h p cs hl
      show (xarrow.AlignedVector.ensure_capacity req v h).heap.load p i = some x
      rw [load_congr _ h p i (xarrow.AlignedVector.lookup_ensure_capacity_frame req v h p hp hf)]
      exact hx

theorem holds_of_valid {α : Type} (h : Heap α) (v : AlignedVector) (hv : v.Valid h) (n : Nat)
    (hn : n ≤ v.capacity) (h0 : 0 < n) : h.holds v.data n = true := by
  obtain ⟨cs, hl, hlen⟩ := hv.lookup_block (lt_of_lt_of_le h0 hn)
  rw [holds_iff]
  exact ⟨cs, hl, by rw [hlen]; exact hn⟩

theorem emplace_back_eq {α : Type} (L : Layout) (hL : L.ok) (value : ArgRef α) (x : α)
    (v : AlignedVector) (h : Heap α) (hv : v.Valid h) (hg : h.grants)
    (hfit : v.size_ + 1 > v.capacity →
      L.fits (max (max (v.size_ + 1) (v.capacity + v.capacity / 2)) 4))
    (hlt : v.size_ + 1 < SIZE_MOD) (hx : deref h value = some x)
    (hal : ∀ i, value = ArgRef.cell v.data i → v.size_ + 1 ≤ v.capacity) :
    AlignedVector.emplace_back L value v h = some (xarrow.AlignedVector.emplace_back x v h) := by
  unfold AlignedVector.emplace_back
  rw [Nat.mod_eq_of_lt hlt, ensure_capacity_eq L hL _ v h hv hfit]
  obtain ⟨h1, h2, _, h4, _⟩ := xarrow.AlignedVector.ensure_capacity_spec (v.size_ + 1) v h hv hg
  have hle := xarrow.AlignedVector.ensure_capacity_le (v.size_ + 1) v h h1
  have hd := deref_ensure_capacity (v.size_ + 1) v h value x hx hal
  have hh := holds_of_valid _ _ h4 (v.size_ + 1) hle (Nat.succ_pos _)
  rw [xarrow.AlignedVector.emplace_back_of_grants x v h hg]
  simp only [h1, hd, h2, hh, if_true, Nat.mod_eq_of_lt hlt]

theorem resize_eq {α : Type} (L : Layout) (hL : L.ok) (n : Nat) (value : ArgRef α) (x : α)
    (v : AlignedVector) (h : Heap α) (hv : v.Valid h) (hg : h.grants) (hn : v.size_ < n)
    (hfit : n > v.capacity → L.fits (max (max n (v.capacity + v.capacity / 2)) 4))
    (hx : deref h value = some x)
    (hal : ∀ i, value = ArgRef.cell v.data i → n ≤ v.capacity) :
    AlignedVector.resize L n value v h = some (xarrow.AlignedVector.resize n x v h) := by
  unfold AlignedVector.resize
  rw [if_pos hn, ensure_capacity_eq L hL _ v h hv hfit]
  obtain ⟨h1, _, _, h4, _⟩ := xarrow.AlignedVector.ensure_capacity_spec n v h hv hg
  have hle := xarrow.AlignedVector.ensure_capacity_le n v h h1
  have hd := deref_ensure_capacity n v h value x hx hal
  have hh := holds_of_valid _ _ h4 n hle (by omega)
  rw [xarrow.AlignedVector.resize_grow_of_grants n x v h hg hn]
  simp only [h1, hd, hh, if_true]

theorem resize_shrink_eq_machine {α : Type} (L : Layout) (n : Nat) (value : ArgRef α) (x : α)
    (v : AlignedVector) (h : Heap α) (hn : n ≤ v.size_) :
    AlignedVector.resize L n value v h = some (xarrow.AlignedVector.resize n x v h) := by
  unfold AlignedVector.resize
  rw [if_neg (by omega), xarrow.AlignedVector.resize_shrink_eq n x v h hn]

theorem ctor_eq {α : Type} (L : Layout) (hL : L.ok) (hfit : L.fits 4) (h : Heap α) :
    AlignedVector.ctor L h = xarrow.AlignedVector.ctor h := by
  unfold AlignedVector.ctor xarrow.AlignedVector.ctor
  rw [array_ctor_size_eq L hL 4 hfit]

end Machine

namespace Machine

theorem push_back_all_eq {α : Type} (L : Layout) (hL : L.ok) (xs : List α) :
    ∀ (v : AlignedVector) (h : Heap α), v.Valid h → h.plentiful →
      L.fits (max 4 (v.size_ + xs.length + (v.size_ + xs.length) / 2)) →
      v.capacity ≤ max 4 (v.size_ + xs.length + (v.size_ + xs.length) / 2) →
      AlignedVector.push_back_all L (xs.map ArgRef.object) v h =
        some (xarrow.AlignedVector.push_back_all xs v h) := by
  induction xs with
  | nil => intro v h _ _ _ _; rfl
  | cons x rest ih =>
    intro v h hv hp hfit hcap
    have hg := h.plentiful_grants hp
    have hK := L.lt_of_fits hL hfit
    simp only [List.length_cons] at hfit hcap hK
    have hsz := hv.size_le
    have hnew : v.size_ + 1 > v.capacity →
        max (max (v.size_ + 1) (v.capacity + v.capacity / 2)) 4 ≤
          max 4 (v.size_ + (rest.length + 1) + (v.size_ + (rest.length + 1)) / 2) := by
      intro hgt
      have hc : v.capacity = v.size_ := by omega
      rw [hc]
      omega
    have he := emplace_back_eq L hL (ArgRef.object x) x v h hv hg
      (fun hgt => L.fits_mono (hnew hgt) hfit) (by omega) rfl (fun i hi => by cases hi)
    obtain ⟨s1, s2, s3, s4, _⟩ := xarrow.AlignedVector.emplace_back_spec x v h hv hg
    rw [xarrow.AlignedVector.push_back_all_cons x rest v h hv hg]
    have hstep : AlignedVector.push_back_all L (List.map ArgRef.object (x :: rest)) v h =
        AlignedVector.push_back_all L (List.map ArgRef.object rest)
          (xarrow.AlignedVector.emplace_back x v h).vec
          (xarrow.AlignedVector.emplace_back x v h).heap := by
      rw [List.map_cons, AlignedVector.push_back_all, AlignedVector.push_back, he]
      simp only [s1]
    rw [hstep]
    have hlen : (xarrow.AlignedVector.emplace_back x v h).vec.size_ + rest.length =
        v.size_ + (rest.length + 1) := by rw [s2]; omega
    apply ih _ _ s4 (xarrow.AlignedVector.plentiful_emplace_back x v h hp)
    · rw [hlen]; exact hfit
    · rw [hlen, s3]
      split
      · exact hnew (by assumption)
      · exact hcap

theorem array_ctor_size_of_grants {α : Type} (L : Layout) (n : Nat) (h : Heap α)
    (hg : h.grants) :
    AlignedArray.ctor_size L n h =
      (some { size_ := n, buffer_ := { data_ := h.fresh } },
        h.allocated
          (min n (whole_cells L (AlignedBuffer.alloc_size L.Alignment (byte_size L n))))) := by
  unfold AlignedArray.ctor_size AlignedBuffer.ctor_size aligned_alloc
  rw [if_neg hg]

theorem array_ctor_size_of_not_grants {α : Type} (L : Layout) (n : Nat) (h : Heap α)
    (hg : ¬ h.grants) : AlignedArray.ctor_size L n h = (none, h.refused) := by
  unfold AlignedArray.ctor_size AlignedBuffer.ctor_size aligned_alloc
  rw [if_pos (not_not.1 hg)]

theorem memcpy_some {α : Type} (L : Layout) (dst src : Ptr) (n : Nat) (h h2 : Heap α)
    (hm : memcpy L dst src n h = some h2) :
    h2 = xarrow.memcpy dst src (whole_cells L (byte_size L n)) h := by
  unfold memcpy at hm
  simp only at hm
  split at hm
  · exact (Option.some.inj hm).symm
  · cases hm

theorem copy_ctor_eq {α : Type} (L : Layout) (hL : L.ok) (a : AlignedVector) (h : Heap α)
    (hv : a.Valid h) (hfit : L.fits a.capacity) :
    AlignedVector.copy_ctor L a h = some (xarrow.AlignedVector.copy_ctor a h) := by
  have hfit2 : L.fits a.array_.size_ := hfit
  unfold AlignedVector.copy_ctor xarrow.AlignedVector.copy_ctor AlignedArray.copy_ctor
    xarrow.AlignedArray.copy_ctor
  rw [array_ctor_size_eq L hL _ hfit2]
  by_cases hg : h.grants
  · rw [AlignedArray.ctor_size_of_grants _ h hg]
    have hh : a.array_.size_ = 0 ∨
        ((h.allocated a.array_.size_).holds h.fresh a.array_.size_ = true ∧
          (h.allocated a.array_.size_).holds a.array_.data a.array_.size_ = true) := by
      by_cases h0 : a.array_.size_ = 0
      · exact Or.inl h0
      · right
        have hc : 0 < a.capacity := Nat.pos_of_ne_zero h0
        obtain ⟨cs, hl, hlen⟩ := hv.lookup_block hc
        constructor
        · rw [holds_iff]
          exact ⟨List.replicate a.array_.size_ none,
            by rw [Heap.lookup_allocated, if_pos rfl], by rw [List.length_replicate]⟩
        · rw [holds_iff]
          exact ⟨cs, Heap.lookup_allocated_of_live h _ _ cs hl, by rw [hlen]; exact Nat.le_refl _⟩
    have hm := memcpy_eq L hL h.fresh a.array_.data a.array_.size_ hfit2
      (h.allocated a.array_.size_) hh
    have hd : ({ size_ := a.array_.size_, buffer_ := { data_ := h.fresh } } :
      AlignedArray).data = h.fresh := rfl
    simp only [hd, hm]
  · rw [AlignedArray.ctor_size_of_not_grants _ h hg]

theorem copy_assign_eq {α : Type} (L : Layout) (hL : L.ok) (a b : Nat) (w : World α)
    (hv : (w.obj b).Valid w.heap) (hfit : L.fits (w.obj b).capacity) :
    World.copy_assign L a b w = some (xarrow.World.copy_assign a b w) := by
  unfold World.copy_assign xarrow.World.copy_assign
  by_cases hab : a ≠ b
  · rw [if_pos hab, if_pos hab, copy_ctor_eq L hL _ _ hv hfit]
    cases xarrow.AlignedVector.copy_ctor (w.obj b) w.heap with
    | mk c h1 => cases c <;> rfl
  · rw [if_neg hab, if_neg hab]

end Machine

namespace Machine

theorem reallocate_some {α : Type} (L : Layout) (n : Nat) (v : AlignedVector) (h : Heap α)
    (out : Outcome α) (ho : AlignedVector.reallocate L n v h = some out) :
    (∀ q, q ≠ v.data → q ≠ h.fresh → out.heap.lookup q = h.lookup q) ∧
      (n ≠ 0 → out.vec.data = v.data ∨ out.vec.data = h.fresh) := by
  unfold AlignedVector.reallocate at ho
  by_cases h0 : n = 0
  · rw [if_pos h0] at ho
    have ho2 := (Option.some.inj ho).symm
    subst ho2
    refine ⟨?_, fun hn => absurd h0 hn⟩
    intro q hq _
    show (free v.data h).lookup q = h.lookup q
    rw [lookup_free, if_neg (fun hh => hq hh.2)]
  · rw [if_neg h0] at ho
    by_cases hg : h.grants
    · rw [array_ctor_size_of_grants L n h hg] at ho
      simp only at ho
      by_cases hs : v.size_ > 0
      · rw [if_pos hs] at ho
        cases hm : memcpy L
            ({ size_ := n, buffer_ := { data_ := h.fresh } } : AlignedArray).data v.data v.size_
            (h.allocated
              (min n (whole_cells L (AlignedBuffer.alloc_size L.Alignment (byte_size L n)))))
          with
        | none => rw [hm] at ho; cases ho
        | some h2 =>
          rw [hm] at ho
          have e2 := memcpy_some L _ _ _ _ _ hm
          have ho2 := (Option.some.inj ho).symm
          subst ho2
          subst e2
          refine ⟨?_, fun _ => Or.inr rfl⟩
          intro q hq hf
          show (free v.data (xarrow.memcpy h.fresh v.data _ _)).lookup q = h.lookup q
          rw [lookup_free, if_neg (fun hh => hq hh.2),
            xarrow.AlignedVector.lookup_memcpy_ne _ _ _ _ q hf,
            Heap.lookup_allocated, if_neg hf]
      · rw [if_neg hs] at ho
        have ho2 := (Option.some.inj ho).symm
        subst ho2
        refine ⟨?_, fun _ => Or.inr rfl⟩
        intro q hq hf
        show (free v.data (h.allocated _)).lookup q = h.lookup q
        rw [lookup_free, if_neg (fun hh => hq hh.2), Heap.lookup_allocated, if_neg hf]
    · rw [array_ctor_size_of_not_grants L n h hg] at ho
      have ho2 := (Option.some.inj ho).symm
      subst ho2
      exact ⟨fun q _ _ => rfl, fun _ => Or.inl rfl⟩

theorem ensure_capacity_some {α : Type} (L : Layout) (req : Nat) (v : AlignedVector)
    (h : Heap α) (out : Outcome α) (ho : AlignedVector.ensure_capacity L req v h = some out) :
    (∀ q, q ≠ v.data → q ≠ h.fresh → out.heap.lookup q = h.lookup q) ∧
      (out.vec.data = v.data ∨ out.vec.data = h.fresh) := by
  unfold AlignedVector.ensure_capacity at ho
  by_cases hr : req > v.capacity
  · rw [if_pos hr] at ho
    obtain ⟨h1, h2⟩ := reallocate_some L _ v h out ho
    refine ⟨h1, h2 ?_⟩
    have h4 : 4 ≤ max (max req ((v.capacity + v.capacity / 2) % SIZE_MOD)) 4 := le_max_right _ _
    omega
  · rw [if_neg hr] at ho
    have ho2 := (Option.some.inj ho).symm
    subst ho2
    exact ⟨fun q _ _ => rfl, Or.inl rfl⟩

theorem lookup_emplace_back_frame_machine {α : Type} (L : Layout) (value : ArgRef α)
    (v : AlignedVector) (h : Heap α) (out : Outcome α)
    (ho : AlignedVector.emplace_back L value v h = some out) (q : Ptr) (hq : q ≠ v.data)
    (hf : q ≠ h.fresh) : out.heap.lookup q = h.lookup q := by
  unfold AlignedVector.emplace_back at ho
  cases he : AlignedVector.ensure_capacity L ((v.size_ + 1) % SIZE_MOD) v h with
  | none => rw [he] at ho; cases ho
  | some r =>
    rw [he] at ho
    obtain ⟨h1, h2⟩ := ensure_capacity_some L _ v h r he
    have hqr : q ≠ r.vec.data := by
      rcases h2 with e | e <;> rw [e] <;> assumption
    simp only at ho
    cases ht : r.thrown with
    | some e =>
      rw [ht] at ho
      have ho2 := (Option.some.inj ho).symm
      subst ho2
      exact h1 q hq hf
    | none =>
      rw [ht] at ho
      simp only at ho
      cases hd : deref r.heap value with
      | none => rw [hd] at ho; cases ho
      | some x =>
        rw [hd] at ho
        simp only at ho
        split at ho
        · have ho2 := (Option.some.inj ho).symm
          subst ho2
          show (r.heap.write r.vec.data r.vec.size_ x).lookup q = h.lookup q
          rw [xarrow.AlignedVector.lookup_write_ne _ _ _ _ q hqr]
          exact h1 q hq hf
        · cases ho

theorem lookup_resize_frame_machine {α : Type} (L : Layout) (n : Nat) (value : ArgRef α)
    (v : AlignedVector) (h : Heap α) (out : Outcome α)
    (ho : AlignedVector.resize L n value v h = some out) (q : Ptr) (hq : q ≠ v.data)
    (hf : q ≠ h.fresh) : out.heap.lookup q = h.lookup q := by
  unfold AlignedVector.resize at ho
  by_cases hn : n > v.size_
  · rw [if_pos hn] at ho
    cases he : AlignedVector.ensure_capacity L n v h with
    | none => rw [he] at ho; cases ho
    | some r =>
      rw [he] at ho
      obtain ⟨h1, h2⟩ := ensure_capacity_some L _ v h r he
      have hqr : q ≠ r.vec.data := by
        rcases h2 with e | e <;> rw [e] <;> assumption
      simp only at ho
      cases ht : r.thrown with
      | some e =>
        rw [ht] at ho
        have ho2 := (Option.some.inj ho).symm
        subst ho2
        exact h1 q hq hf
      | none =>
        rw [ht] at ho
        simp only at ho
        cases hd : deref r.heap value with
        | none => rw [hd] at ho; cases ho
        | some x =>
          rw [hd] at ho
          simp only at ho
          split at ho
          · have ho2 := (Option.some.inj ho).symm
            subst ho2
            show (uninitialized_fill r.vec.data r.vec.size_ n x r.heap).lookup q = h.lookup q
            rw [xarrow.AlignedVector.lookup_uninitialized_fill_ne _ _ _ _ _ q hqr]
            exact h1 q hq hf
          · cases ho
  · rw [if_neg hn] at ho
    have ho2 := (Option.some.inj ho).symm
    subst ho2
    rfl

theorem std_equal_true {α : Type} (eq : α → α → Bool) (h : Heap α) (p q : Ptr) (l : List Nat)
    (hl : ∀ i ∈ l, ∃ x, h.load p i = some x ∧ h.load q i = some x ∧ eq x x = true) :
    std_equal eq h p q l = some true := by
  induction l with
  | nil => rfl
  | cons i rest ih =>
    obtain ⟨x, h1, h2, h3⟩ := hl i (List.mem_cons_self _ _)
    unfold std_equal
    rw [h1, h2]
    simp only [h3, if_true]
    exact ih (fun j hj => hl j (List.mem_cons_of_mem _ hj))

theorem operator_eq_of_cells_machine {α : Type} (eq : α → α → Bool) (h : Heap α)
    (a b : AlignedVector) (hs : a.size_ = b.size_)
    (hc : xarrow.AlignedVector.cells h a = xarrow.AlignedVector.cells h b)
    (hr : ∀ i, i < a.size_ → ∃ x, h.load a.data i = some x ∧ eq x x = true) :
    operator_eq eq a b h = some true := by
  unfold operator_eq
  have hs2 : a.size = b.size := hs
  rw [if_pos hs2]
  apply std_equal_true
  intro i hi
  have hi2 : i < a.size_ := List.mem_range.1 hi
  obtain ⟨x, h1, h2⟩ := hr i hi2
  refine ⟨x, h1, ?_, h2⟩
  rw [xarrow.AlignedVector.load_eq_cells h b i (by rw [← hs]; exact hi2), ← hc,
    ← xarrow.AlignedVector.load_eq_cells h a i hi2]
  exact h1

end Machine

/-! ## The claims -/

/-- C5: `at(i)` throws `out_of_range` exactly when `i >= size()`, in particular for
the indices in `[size(), capacity())`; for `i < size()` it throws nothing and is the
element stored at `data()[i]`. -/
theorem C5_at_bounds {α : Type} (h : Heap α) (v : AlignedVector) (i : Nat) :
    (AlignedVector.at_ i v h = Except.error Exn.out_of_range ↔ i ≥ v.size) ∧
    (AlignedVector.at_ref i v = Except.error Exn.out_of_range ↔ i ≥ v.size) ∧
    (i < v.size → AlignedVector.at_ref i v = Except.ok (v.data, i) ∧
      AlignedVector.at_ i v h = Except.ok (h.load v.data i)) ∧
    (v.size ≤ i → i < v.capacity →
      AlignedVector.at_ i v h = Except.error Exn.out_of_range) := by
  have hsz : v.size = v.size_ := rfl
  rw [hsz]
  have hlt : i < v.size_ → AlignedVector.at_ref i v = Except.ok (v.data, i) ∧
      AlignedVector.at_ i v h = Except.ok (h.load v.data i) := by
    intro hi
    unfold AlignedVector.at_ AlignedVector.at_ref
    rw [if_neg (by omega)]
    exact ⟨rfl, rfl⟩
  have hge : i ≥ v.size_ → AlignedVector.at_ref i v = Except.error Exn.out_of_range ∧
      AlignedVector.at_ i v h = Except.error Exn.out_of_range := by
    intro hi
    unfold AlignedVector.at_ AlignedVector.at_ref
    rw [if_pos hi]
    exact ⟨rfl, rfl⟩
  refine ⟨⟨?_, fun hi => (hge hi).2⟩, ⟨?_, fun hi => (hge hi).1⟩, hlt, fun hi _ => (hge hi).2⟩
  · intro he
    by_contra hc
    rw [(hlt (by omega)).2] at he
    cases he
  · intro he
    by_contra hc
    rw [(hlt (by omega)).1] at he
    cases he

/-- C5, at an instance: on the sample vector `at(1)` is the stored 20 and `at(2)`,
an index below the capacity, throws. -/
theorem C5_at_bounds_witness :
    AlignedVector.at_ 1 sample_vec sample_heap = Except.ok (some 20) ∧
    AlignedVector.at_ 2 sample_vec sample_heap = Except.error Exn.out_of_range :=
  ⟨((C5_at_bounds sample_heap sample_vec 1).2.2.1 (by decide)).2,
    (C5_at_bounds sample_heap sample_vec 2).2.2.2 (by decide) (by decide)⟩

/-- C6: for two distinct vector objects `a` and `b`, after `b = std::move(a)` the
object `b` has `a`'s prior size, data pointer (and capacity) and elements, the heap is
untouched and `a.size() == 0`; the self-move `a = std::move(a)` changes nothing.  The
move constructor likewise hands size, pointer and capacity to the new vector and leaves
the source with size 0. -/
theorem C6_move_assign {α : Type} (w : World α) (a b : Nat) (hab : a ≠ b) :
    ((World.move_assign b a w).obj b).size = (w.obj a).size ∧
    ((World.move_assign b a w).obj b).data = (w.obj a).data ∧
    ((World.move_assign b a w).obj b).capacity = (w.obj a).capacity ∧
    (World.move_assign b a w).heap = w.heap ∧
    (∀ i, AlignedVector.at_ i ((World.move_assign b a w).obj b) (World.move_assign b a w).heap =
      AlignedVector.at_ i (w.obj a) w.heap) ∧
    ((World.move_assign b a w).obj a).size = 0 ∧
    World.move_assign a a w = w ∧
    ((w.obj a).move_ctor.1 = w.obj a ∧ (w.obj a).move_ctor.2.size = 0) := by
  have hba : b ≠ a := fun e => hab e.symm
  have hb : (World.move_assign b a w).obj b = w.obj a := by
    rw [World.move_assign_of_ne b a w hba]
    simp only
    rw [Function.update_noteq hba, Function.update_same]
  have ha : (World.move_assign b a w).obj a = { size_ := 0, array_ := (w.obj b).array_ } := by
    rw [World.move_assign_of_ne b a w hba]
    simp only
    rw [Function.update_same]
  have hh : (World.move_assign b a w).heap = w.heap := by
    rw [World.move_assign_of_ne b a w hba]
  rw [hb, ha, hh]
  exact ⟨rfl, rfl, rfl, rfl, fun _ => rfl, rfl, World.move_assign_self a w, rfl, rfl⟩

/-- C6, at an instance: moving object 0 of the sample world into object 1. -/
theorem C6_move_assign_witness :
    (0 : Nat) ≠ 1 ∧
    ((World.move_assign 1 0 sample_world).obj 1).size = (sample_world.obj 0).size ∧
    ((World.move_assign 1 0 sample_world).obj 1).data = (sample_world.obj 0).data ∧
    (∀ i, AlignedVector.at_ i ((World.move_assign 1 0 sample_world).obj 1)
        (World.move_assign 1 0 sample_world).heap =
      AlignedVector.at_ i (sample_world.obj 0) sample_world.heap) ∧
    ((World.move_assign 1 0 sample_world).obj 0).size = 0 :=
  have hc := C6_move_assign sample_world 0 1 (by decide)
  ⟨by decide, hc.1, hc.2.1, hc.2.2.2.2.1, hc.2.2.2.2.2.1⟩

/-- C8: when the allocation succeeds, `shrink_to_fit()` throws nothing and leaves
`capacity() == size()`, with the size and every element (the result of `at(i)` for every
`i`) unchanged; an empty vector ends with capacity 0.  After `reserve(100)` and one
`push_back` on a default-constructed vector, `shrink_to_fit` gives capacity 1. -/
theorem C8_shrink_to_fit {α : Type} (h : Heap α) (v : AlignedVector)
    (hv : AlignedVector.Valid h v) (hg : h.grants) :
    (v.shrink_to_fit h).thrown = none ∧
    (v.shrink_to_fit h).vec.capacity = (v.shrink_to_fit h).vec.size ∧
    (v.shrink_to_fit h).vec.size = v.size ∧
    (∀ i, AlignedVector.at_ i (v.shrink_to_fit h).vec (v.shrink_to_fit h).heap =
      AlignedVector.at_ i v h) ∧
    (v.size = 0 → (v.shrink_to_fit h).vec.capacity = 0) ∧
    (h.plentiful → ∀ x : α, ∃ v0 h0, AlignedVector.ctor h = (some v0, h0) ∧
      (v0.reserve 100 h0).vec.capacity = 100 ∧
      (((v0.reserve 100 h0).vec.push_back x (v0.reserve 100 h0).heap).vec.shrink_to_fit
        ((v0.reserve 100 h0).vec.push_back x (v0.reserve 100 h0).heap).heap).vec.capacity
          = 1) := by
  obtain ⟨h1, h2, h3, _, h5⟩ := AlignedVector.shrink_to_fit_spec v h hv hg
  have hsz : ∀ u : AlignedVector, u.size = u.size_ := fun _ => rfl
  simp only [hsz]
  refine ⟨h1, by rw [h3, h2], h2, AlignedVector.at_congr _ _ _ _ h2 h5,
    fun h0 => by rw [h3, h0], ?_⟩
  intro hp x
  refine ⟨_, _, AlignedVector.ctor_of_grants h (h.plentiful_grants hp), ?_⟩
  have hv0 := AlignedVector.valid_ctor h
  have hp0 := h.plentiful_allocated 4 hp
  have hs0 : ({ size_ := 0, array_ := { size_ := 4, buffer_ := { data_ := h.fresh } } } :
    AlignedVector).size_ = 0 := rfl
  have hc0 : ({ size_ := 0, array_ := { size_ := 4, buffer_ := { data_ := h.fresh } } } :
    AlignedVector).capacity = 4 := rfl
  generalize h.allocated 4 = h0 at hv0 hp0
  generalize ({ size_ := 0, array_ := { size_ := 4, buffer_ := { data_ := h.fresh } } } :
    AlignedVector) = v0 at hv0 hs0 hc0
  obtain ⟨_, r2, r3, r4, _⟩ := AlignedVector.reserve_spec 100 v0 h0 hv0 (h0.plentiful_grants hp0)
  have rp := AlignedVector.plentiful_reserve 100 v0 h0 hp0
  rw [hc0] at r3
  norm_num at r3
  rw [hs0] at r2
  refine ⟨r3, ?_⟩
  generalize (v0.reserve 100 h0).vec = v1 at r2 r3 r4
  generalize (v0.reserve 100 h0).heap = h1 at r4 rp
  obtain ⟨_, p2, _, p4, _⟩ := AlignedVector.emplace_back_spec x v1 h1 r4 (h1.plentiful_grants rp)
  have pp := AlignedVector.plentiful_emplace_back x v1 h1 rp
  rw [r2] at p2
  show ((AlignedVector.emplace_back x v1 h1).vec.shrink_to_fit
    (AlignedVector.emplace_back x v1 h1).heap).vec.capacity = 1
  generalize (AlignedVector.emplace_back x v1 h1).vec = v2 at p2 p4
  generalize (AlignedVector.emplace_back x v1 h1).heap = h2 at p4 pp
  obtain ⟨_, _, s3, _, _⟩ := AlignedVector.shrink_to_fit_spec v2 h2 p4 (h2.plentiful_grants pp)
  rw [s3, p2]

/-- C8, at an instance: the sample vector (size 2, capacity 4) shrinks to capacity 2. -/
theorem C8_shrink_to_fit_witness :
    AlignedVector.Valid sample_heap sample_vec ∧ sample_heap.grants ∧
    (sample_vec.shrink_to_fit sample_heap).thrown = none ∧
    (sample_vec.shrink_to_fit sample_heap).vec.capacity =
      (sample_vec.shrink_to_fit sample_heap).vec.size ∧
    (sample_vec.shrink_to_fit sample_heap).vec.size = sample_vec.size ∧
    (∀ i, AlignedVector.at_ i (sample_vec.shrink_to_fit sample_heap).vec
        (sample_vec.shrink_to_fit sample_heap).heap =
      AlignedVector.at_ i sample_vec sample_heap) :=
  have hc := C8_shrink_to_fit sample_heap sample_vec (by decide) (by decide)
  ⟨by decide, by decide, hc.1, hc.2.1, hc.2.2.1, hc.2.2.2.1⟩

/-- C11: `_leak()` leaves the vector empty and reusable: afterwards `size() == 0`,
`capacity() == 0`, the data pointer is null and `at(i)` throws for every `i`; a
following `push_back(x)` (allocation succeeding) throws nothing, gives `size() == 1` and
`at(0) == x` in a block at a fresh address that is neither null nor the leaked pointer,
and every block that was live before, the leaked one included, is left as it was. -/
theorem C11_leak_reusable {α : Type} (h : Heap α) (v : AlignedVector) (x : α)
    (hv : AlignedVector.Valid h v) (hg : h.grants) :
    v._leak.size = 0 ∧ v._leak.capacity = 0 ∧ v._leak.data = 0 ∧
    (∀ i, AlignedVector.at_ i v._leak h = Except.error Exn.out_of_range) ∧
    (v._leak.push_back x h).thrown = none ∧
    (v._leak.push_back x h).vec.size = 1 ∧
    AlignedVector.at_ 0 (v._leak.push_back x h).vec (v._leak.push_back x h).heap =
      Except.ok (some x) ∧
    (v._leak.push_back x h).vec.data = h.fresh ∧
    (v._leak.push_back x h).vec.data ≠ v.data ∧
    (v._leak.push_back x h).vec.data ≠ 0 ∧
    h.lookup (v._leak.push_back x h).vec.data = none ∧
    (∀ q, q ≠ h.fresh → (v._leak.push_back x h).heap.lookup q = h.lookup q) ∧
    (v._leak.push_back x h).heap.lookup v.data = h.lookup v.data := by
  have he : v._leak.push_back x h = _ := AlignedVector.emplace_back_after_leak x v h hg
  have hfr : ∀ q, q ≠ h.fresh →
      ((h.allocated 4).write h.fresh 0 x).lookup q = h.lookup q := by
    intro q hq
    rw [AlignedVector.lookup_write_ne _ _ _ _ q hq, Heap.lookup_allocated, if_neg hq]
  rw [he]
  refine ⟨rfl, rfl, rfl, fun i => AlignedVector.at_of_ge h v._leak i (Nat.zero_le _),
    rfl, rfl, ?_, rfl, fun e => hv.data_ne_fresh e.symm, h.fresh_ne_zero, h.lookup_fresh,
    hfr, hfr _ hv.data_ne_fresh⟩
  have hl : (h.allocated 4).lookup h.fresh = some (List.replicate 4 none) := by
    rw [Heap.lookup_allocated, if_pos rfl]
  have hw := Heap.lookup_write (h.allocated 4) h.fresh 0 x _ hl h.fresh
  rw [if_pos rfl] at hw
  show AlignedVector.at_ 0
    { size_ := 1, array_ := { size_ := 4, buffer_ := { data_ := h.fresh } } }
    ((h.allocated 4).write h.fresh 0 x) = Except.ok (some x)
  unfold AlignedVector.at_ AlignedVector.at_ref
  rw [if_neg (Nat.not_succ_le_zero 0)]
  show Except.ok (((h.allocated 4).write h.fresh 0 x).load h.fresh 0) = Except.ok (some x)
  unfold Heap.load
  rw [hw]
  rfl

/-- C11, at an instance: the sample vector leaks its block at address 1 and is pushed
onto again. -/
theorem C11_leak_reusable_witness :
    AlignedVector.Valid sample_heap sample_vec ∧ sample_heap.grants ∧
    sample_vec._leak.size = 0 ∧
    (sample_vec._leak.push_back 7 sample_heap).vec.size = 1 ∧
    AlignedVector.at_ 0 (sample_vec._leak.push_back 7 sample_heap).vec
      (sample_vec._leak.push_back 7 sample_heap).heap = Except.ok (some 7) ∧
    (sample_vec._leak.push_back 7 sample_heap).heap.lookup sample_vec.data =
      sample_heap.lookup sample_vec.data :=
  have hc := C11_leak_reusable sample_heap sample_vec 7 (by decide) (by decide)
  ⟨by decide, by decide, hc.1, hc.2.2.2.2.2.1, hc.2.2.2.2.2.2.1, hc.2.2.2.2.2.2.2.2.2.2.2.2⟩

/-- C16: when the allocation a growing call makes is refused, the call throws
`bad_alloc` and the vector is unmodified: the object (size, capacity, data pointer) is
the one before the call, the blocks of the heap are the ones before the call, and
`at(i)` gives what it gave before, for `reserve(n)` with `n > capacity()`, for
`push_back` and `emplace_back` on a full vector, and for `resize(n, x)` with `n` above
the size and the capacity. -/
theorem C16_growth_failure_safe {α : Type} (h : Heap α) (v : AlignedVector) (n : Nat) (x : α)
    (hg : ¬ h.grants) :
    (n > v.capacity →
      (v.reserve n h).thrown = some Exn.bad_alloc ∧ (v.reserve n h).vec = v ∧
      (v.reserve n h).heap.blocks = h.blocks ∧
      ∀ i, AlignedVector.at_ i (v.reserve n h).vec (v.reserve n h).heap =
        AlignedVector.at_ i v h) ∧
    (v.size + 1 > v.capacity →
      (v.push_back x h).thrown = some Exn.bad_alloc ∧ (v.push_back x h).vec = v ∧
      (v.push_back x h).heap.blocks = h.blocks ∧
      ∀ i, AlignedVector.at_ i (v.push_back x h).vec (v.push_back x h).heap =
        AlignedVector.at_ i v h) ∧
    (v.size + 1 > v.capacity →
      (v.emplace_back x h).thrown = some Exn.bad_alloc ∧ (v.emplace_back x h).vec = v ∧
      (v.emplace_back x h).heap.blocks = h.blocks ∧
      ∀ i, AlignedVector.at_ i (v.emplace_back x h).vec (v.emplace_back x h).heap =
        AlignedVector.at_ i v h) ∧
    (n > v.size → n > v.capacity →
      (v.resize n x h).thrown = some Exn.bad_alloc ∧ (v.resize n x h).vec = v ∧
      (v.resize n x h).heap.blocks = h.blocks ∧
      ∀ i, AlignedVector.at_ i (v.resize n x h).vec (v.resize n x h).heap =
        AlignedVector.at_ i v h) := by
  have hpush : v.size + 1 > v.capacity →
      (v.emplace_back x h).thrown = some Exn.bad_alloc ∧ (v.emplace_back x h).vec = v ∧
      (v.emplace_back x h).heap.blocks = h.blocks ∧
      ∀ i, AlignedVector.at_ i (v.emplace_back x h).vec (v.emplace_back x h).heap =
        AlignedVector.at_ i v h := by
    intro hr
    rw [AlignedVector.emplace_back_of_not_grants x v h hr hg]
    exact ⟨rfl, rfl, rfl, fun _ => rfl⟩
  refine ⟨?_, hpush, hpush, ?_⟩
  · intro hr
    rw [AlignedVector.reserve_of_not_grants n v h hr hg]
    exact ⟨rfl, rfl, rfl, fun _ => rfl⟩
  · intro hn hr
    rw [AlignedVector.resize_of_not_grants n x v h hn hr hg]
    exact ⟨rfl, rfl, rfl, fun _ => rfl⟩

/-- C16, at an instance: `reserve(9)` and `resize(9, 7)` on the sample vector with an
allocator that refuses. -/
theorem C16_growth_failure_safe_witness :
    ¬ sample_heap_oom.grants ∧
    ((sample_vec.reserve 9 sample_heap_oom).thrown = some Exn.bad_alloc ∧
      (sample_vec.reserve 9 sample_heap_oom).vec = sample_vec ∧
      (sample_vec.reserve 9 sample_heap_oom).heap.blocks = sample_heap_oom.blocks) ∧
    (sample_vec.resize 9 7 sample_heap_oom).thrown = some Exn.bad_alloc ∧
    (sample_vec.resize 9 7 sample_heap_oom).vec = sample_vec :=
  have hc := C16_growth_failure_safe sample_heap_oom sample_vec 9 7 (by decide)
  have h1 := hc.1 (by decide)
  have h4 := hc.2.2.2 (by decide) (by decide)
  ⟨by decide, ⟨h1.1, h1.2.1, h1.2.2.1⟩, h4.1, h4.2.1⟩

/-- C19: for `n <= size()`, `resize(n, x)` and `resize(n)` throw nothing and change only
the reported size, to `n`: the capacity and the data pointer (the whole `array_`) and
the heap, so the value stored at every index of every block, the indices in
`[n, size())` included, are exactly what they were. -/
theorem C19_resize_shrink {α : Type} [Zero α] (h : Heap α) (v : AlignedVector) (n : Nat)
    (x : α) (hn : n ≤ v.size) :
    ((v.resize n x h).thrown = none ∧ (v.resize n x h).vec.size = n ∧
      (v.resize n x h).vec.capacity = v.capacity ∧ (v.resize n x h).vec.data = v.data ∧
      (v.resize n x h).vec.array_ = v.array_ ∧ (v.resize n x h).heap = h ∧
      ∀ i, (v.resize n x h).heap.load (v.resize n x h).vec.data i = h.load v.data i) ∧
    ((v.resize_default n h).thrown = none ∧ (v.resize_default n h).vec.size = n ∧
      (v.resize_default n h).vec.capacity = v.capacity ∧
      (v.resize_default n h).vec.data = v.data ∧
      (v.resize_default n h).vec.array_ = v.array_ ∧ (v.resize_default n h).heap = h ∧
      ∀ i, (v.resize_default n h).heap.load (v.resize_default n h).vec.data i =
        h.load v.data i) := by
  have h1 : ∀ y : α, v.resize n y h = { thrown := none, vec := { v with size_ := n }, heap := h } :=
    fun y => AlignedVector.resize_shrink_eq n y v h hn
  have h2 : v.resize_default n h = v.resize n (0 : α) h := rfl
  rw [h2, h1 x, h1 0]
  exact ⟨⟨rfl, rfl, rfl, rfl, rfl, rfl, fun _ => rfl⟩, ⟨rfl, rfl, rfl, rfl, rfl, rfl, fun _ => rfl⟩⟩

/-- C19, at an instance: `resize(1)` on the sample vector of size 2. -/
theorem C19_resize_shrink_witness :
    1 ≤ sample_vec.size ∧
    (sample_vec.resize_default 1 sample_heap).vec.size = 1 ∧
    (sample_vec.resize_default 1 sample_heap).vec.capacity = sample_vec.capacity ∧
    (sample_vec.resize_default 1 sample_heap).heap = sample_heap :=
  have hc := C19_resize_shrink sample_heap sample_vec 1 0 (by decide)
  ⟨by decide, hc.2.2.1, hc.2.2.2.1, hc.2.2.2.2.2.2.1⟩

/-- C20: `pop_back()` cannot throw (it returns the object and touches no memory).  On a
non-empty vector it lowers `size()` by exactly one and leaves the capacity, the data
pointer and the elements at the indices below the new size as they were; on an empty
vector it changes nothing. -/
theorem C20_pop_back {α : Type} (h : Heap α) (v : AlignedVector) :
    (v.size > 0 →
      v.pop_back.size = v.size - 1 ∧ v.pop_back.capacity = v.capacity ∧
      v.pop_back.data = v.data ∧ v.pop_back.array_ = v.array_ ∧
      ∀ i, i < v.size - 1 → AlignedVector.at_ i v.pop_back h = AlignedVector.at_ i v h) ∧
    (v.size = 0 → v.pop_back = v) := by
  constructor
  · intro hs
    have hs1 : v.size_ > 0 := hs
    have hp : v.pop_back = { v with size_ := v.size_ - 1 } := by
      unfold AlignedVector.pop_back
      rw [if_pos hs1]
    rw [hp]
    refine ⟨rfl, rfl, rfl, rfl, ?_⟩
    intro i hi
    have hi1 : i < v.size_ - 1 := hi
    unfold AlignedVector.at_ AlignedVector.at_ref
    rw [if_neg (by show ¬ i ≥ v.size_ - 1; omega), if_neg (by omega)]
    rfl
  · intro hs
    have hs0 : v.size_ = 0 := hs
    unfold AlignedVector.pop_back
    rw [if_neg (by omega)]

/-- C20, at an instance: `pop_back()` on the sample vector of size 2. -/
theorem C20_pop_back_witness :
    sample_vec.size > 0 ∧ sample_vec.pop_back.size = 1 ∧
    sample_vec.pop_back.capacity = 4 ∧
    AlignedVector.at_ 0 sample_vec.pop_back sample_heap = Except.ok (some 10) :=
  have hc := (C20_pop_back sample_heap sample_vec).1 (by decide)
  ⟨by decide, hc.1, hc.2.1, (hc.2.2.2.2 0 (by decide)).trans rfl⟩

/-- C17: for an alignment `a > 0` (a power of two or not) and a size `s` with
`s + a - 1` not overflowing `size_t`, `align_round(s, a)` is `ceil(s / a) * a`: a
multiple of `a`, at least `s`, below `s + a`, and the least multiple of `a` that is at
least `s`.  Whatever the size, the byte size `AlignedBuffer` passes to the allocator is
a multiple of the alignment. -/
theorem C17_align_round (s a : Nat) (ha : 0 < a) (hs : s + a - 1 < SIZE_MOD) :
    align_round s a = (s ⌈/⌉ a) * a ∧
    align_round s a = (s + a - 1) / a * a ∧
    a ∣ align_round s a ∧
    s ≤ align_round s a ∧
    align_round s a < s + a ∧
    (∀ m, a ∣ m → s ≤ m → align_round s a ≤ m) ∧
    (∀ size, a ∣ AlignedBuffer.alloc_size a size) := by
  have he := align_round_eq s a ha hs
  refine ⟨he, he, dvd_align_round s a, ?_, ?_, ?_, fun size => dvd_align_round size a⟩
  · rw [he]
    exact le_div_mul_of_pred s a ha
  · rw [he]
    have := Nat.div_mul_le_self (s + a - 1) a
    omega
  · intro m hd hm
    rw [he]
    exact div_mul_le_of_dvd s a m ha hd hm

/-- C17, at an instance: 10 bytes at alignment 64 round up to 64. -/
theorem C17_align_round_witness :
    0 < 64 ∧ 10 + 64 - 1 < SIZE_MOD ∧ align_round 10 64 = (10 ⌈/⌉ 64) * 64 ∧
    64 ∣ align_round 10 64 ∧ 10 ≤ align_round 10 64 ∧ align_round 10 64 < 10 + 64 :=
  have hc := C17_align_round 10 64 (by decide) (by unfold SIZE_MOD; decide)
  ⟨by decide, by unfold SIZE_MOD; decide, hc.1, hc.2.2.1, hc.2.2.2.1, hc.2.2.2.2.1⟩

/-- C12: for an armed manager `a`, move-constructing the new manager `b` from `a`
makes no call, leaves `a` disarmed (`release` null, the other members kept) and `b`
holding the struct of `a` with its callback; destroying both afterwards, in either
order, adds exactly one call to the calls made so far: the callback of `a`, on the
struct `b` holds. -/
theorem C12_release_once {β : Type} (w : Managers β) (a b : Nat) (hab : a ≠ b)
    (harm : (w.obj a).armed = true) :
    (Managers.move_ctor b a w).calls = w.calls ∧
    ((Managers.move_ctor b a w).obj a).data_.release = none ∧
    ((Managers.move_ctor b a w).obj a).armed = false ∧
    ((Managers.move_ctor b a w).obj a).data_.members = (w.obj a).data_.members ∧
    ((Managers.move_ctor b a w).obj b).data_ = (w.obj a).data_ ∧
    ((Managers.move_ctor b a w).obj b).armed = true ∧
    (Managers.dtor b (Managers.dtor a (Managers.move_ctor b a w))).calls =
      w.calls ++ [(w.obj a).data_] ∧
    (Managers.dtor a (Managers.dtor b (Managers.move_ctor b a w))).calls =
      w.calls ++ [(w.obj a).data_] := by
  have hba : b ≠ a := fun e => hab e.symm
  have hrel : (w.obj a).data_.release ≠ none := by
    intro e
    unfold ReleaseManager.armed at harm
    rw [e] at harm
    cases harm
  have ha : (Managers.move_ctor b a w).obj a =
      { data_ := { (w.obj a).data_ with release := none } } := by
    unfold Managers.move_ctor
    simp only
    rw [Function.update_noteq hab, Function.update_same]
    rfl
  have hb : (Managers.move_ctor b a w).obj b = { data_ := (w.obj a).data_ } := by
    unfold Managers.move_ctor
    simp only
    rw [Function.update_same]
    rfl
  have hda : ∀ cs, ((Managers.move_ctor b a w).obj a).dtor cs = cs := by
    intro cs
    rw [ha]
    unfold ReleaseManager.dtor
    rw [if_neg (by simp)]
  have hdb : ∀ cs, ((Managers.move_ctor b a w).obj b).dtor cs = cs ++ [(w.obj a).data_] := by
    intro cs
    rw [hb]
    unfold ReleaseManager.dtor
    rw [if_pos hrel]
  refine ⟨rfl, by rw [ha], by rw [ha]; rfl, by rw [ha], by rw [hb], ?_, ?_, ?_⟩
  · rw [hb]
    exact harm
  · show ((Managers.move_ctor b a w).obj b).dtor
      (((Managers.move_ctor b a w).obj a).dtor w.calls) = _
    rw [hda, hdb]
  · show ((Managers.move_ctor b a w).obj a).dtor
      (((Managers.move_ctor b a w).obj b).dtor w.calls) = _
    rw [hda, hdb]

/-- C12, at an instance: the armed manager 0 of the sample is moved into a new manager 1. -/
theorem C12_release_once_witness :
    (0 : Nat) ≠ 1 ∧ (sample_managers.obj 0).armed = true ∧
    ((Managers.move_ctor 1 0 sample_managers).obj 0).data_.release = none ∧
    (Managers.dtor 1 (Managers.dtor 0 (Managers.move_ctor 1 0 sample_managers))).calls =
      sample_managers.calls ++ [(sample_managers.obj 0).data_] ∧
    (Managers.dtor 0 (Managers.dtor 1 (Managers.move_ctor 1 0 sample_managers))).calls =
      sample_managers.calls ++ [(sample_managers.obj 0).data_] :=
  have hc := C12_release_once sample_managers 0 1 (by decide) (by decide)
  ⟨by decide, by decide, hc.2.1, hc.2.2.2.2.2.2.1, hc.2.2.2.2.2.2.2⟩

/-- C13: for two distinct managers `x` and `y`, the move assignment `x = std::move(y)`
calls the callback `x` held, once, when `x` was armed, and makes no call when it was
not; it never calls the callback of `y`, leaves `x` holding the struct of `y` and `y`
disarmed.  After both are then destroyed, in either order, the calls added in total
are one for the struct `x` held (if armed) followed by one for the struct `y` held (if
armed), so no callback is called twice.  A self-move-assignment changes nothing and
makes no call. -/
theorem C13_move_assign_release {β : Type} (w : Managers β) (x y : Nat) (hxy : x ≠ y) :
    (Managers.move_assign x y w).calls =
      w.calls ++ (if (w.obj x).armed then [(w.obj x).data_] else []) ∧
    ((Managers.move_assign x y w).obj x).data_ = (w.obj y).data_ ∧
    ((Managers.move_assign x y w).obj y).data_.release = none ∧
    ((Managers.move_assign x y w).obj y).data_.members = (w.obj y).data_.members ∧
    (Managers.dtor y (Managers.dtor x (Managers.move_assign x y w))).calls =
      w.calls ++ (if (w.obj x).armed then [(w.obj x).data_] else []) ++
        (if (w.obj y).armed then [(w.obj y).data_] else []) ∧
    (Managers.dtor x (Managers.dtor y (Managers.move_assign x y w))).calls =
      w.calls ++ (if (w.obj x).armed then [(w.obj x).data_] else []) ++
        (if (w.obj y).armed then [(w.obj y).data_] else []) ∧
    Managers.move_assign x x w = w := by
  have harm : ∀ m : ReleaseManager β, ∀ cs : List (Interchange β),
      (if m.data_.release ≠ none then cs ++ [m.data_] else cs) =
        cs ++ (if m.armed then [m.data_] else []) := by
    intro m cs
    unfold ReleaseManager.armed
    cases m.data_.release <;> simp
  have hw : Managers.move_assign x y w =
      { obj := Function.update (Function.update w.obj x { data_ := (w.obj y).data_ }) y
                { data_ := { (w.obj y).data_ with release := none } },
        calls := w.calls ++ (if (w.obj x).armed then [(w.obj x).data_] else []) } := by
    unfold Managers.move_assign
    rw [if_pos hxy]
    simp only
    rw [harm]
  have hself : Managers.move_assign x x w = w := by
    unfold Managers.move_assign
    rw [if_neg (by simp)]
  have hx : (Managers.move_assign x y w).obj x = { data_ := (w.obj y).data_ } := by
    rw [hw]
    simp only
    rw [Function.update_noteq hxy, Function.update_same]
  have hy : (Managers.move_assign x y w).obj y =
      { data_ := { (w.obj y).data_ with release := none } } := by
    rw [hw]
    simp only
    rw [Function.update_same]
  have hdx : ∀ cs, ((Managers.move_assign x y w).obj x).dtor cs =
      cs ++ (if (w.obj y).armed then [(w.obj y).data_] else []) := by
    intro cs
    rw [hx]
    unfold ReleaseManager.dtor
    exact harm (w.obj y) cs
  have hdy : ∀ cs, ((Managers.move_assign x y w).obj y).dtor cs = cs := by
    intro cs
    rw [hy]
    unfold ReleaseManager.dtor
    rw [if_neg (by simp)]
  have hcalls : (Managers.move_assign x y w).calls =
      w.calls ++ (if (w.obj x).armed then [(w.obj x).data_] else []) := by
    rw [hw]
  refine ⟨hcalls, by rw [hx], by rw [hy], by rw [hy], ?_, ?_, hself⟩
  · show ((Managers.move_assign x y w).obj y).dtor
      (((Managers.move_assign x y w).obj x).dtor (Managers.move_assign x y w).calls) = _
    rw [hdy, hdx, hcalls]
  · show ((Managers.move_assign x y w).obj x).dtor
      (((Managers.move_assign x y w).obj y).dtor (Managers.move_assign x y w).calls) = _
    rw [hdy, hdx, hcalls]

/-- C13, at an instance: manager 0 of the sample (callback 5) is assigned manager 1
(callback 6); both are then destroyed. -/
theorem C13_move_assign_release_witness :
    (0 : Nat) ≠ 1 ∧
    (Managers.move_assign 0 1 sample_managers).calls =
      [{ release := some 5, members := 100 }] ∧
    (Managers.dtor 1 (Managers.dtor 0 (Managers.move_assign 0 1 sample_managers))).calls =
      [{ release := some 5, members := 100 }, { release := some 6, members := 200 }] :=
  have hc := C13_move_assign_release sample_managers 0 1 (by decide)
  ⟨by decide, hc.1, hc.2.2.2.2.1⟩

/-- C14: `to_array_ref` fills the array with `length == data().size()`, null count,
offset and child count 0, two buffers, and as table of buffers the member `buffers_`,
which the constructor set to `{nullptr, data().data()}` and no call through `data()`
changes.  So slot 1 is the data pointer at construction, not the current one: for the
column built by the constructor and five `push_back` calls through `data()`, the
export reports length 5 and slot 1 is the address 1 of the first block, which the
reallocation freed, while `data().data()` is the address 2. -/
theorem C14_to_array_ref_cached_table :
    (∀ (x : XArrowNonNull) (array : ArrowArray),
      (x.to_array_ref array).length = (x.data.size : Int) ∧
      (x.to_array_ref array).null_count = 0 ∧ (x.to_array_ref array).offset = 0 ∧
      (x.to_array_ref array).n_buffers = 2 ∧ (x.to_array_ref array).n_children = 0 ∧
      (x.to_array_ref array).buffers = x.buffers_) ∧
    (∀ (name : String) (h h1 : Heap Nat) (x : XArrowNonNull),
      XArrowNonNull.ctor name h = (some x, h1) → x.buffers_ = [0, x.data.data]) ∧
    (∀ (method : AlignedVector → Heap Nat → Outcome Nat) (x : XArrowNonNull) (h : Heap Nat),
      (XArrowNonNull.data_call method x h).2.1.buffers_ = x.buffers_) ∧
    (sample_column.1 = none ∧ sample_column.2.1.data.size = 5 ∧
      (sample_column.2.1.to_array_ref ArrowArray.zero).length = 5 ∧
      (sample_column.2.1.to_array_ref ArrowArray.zero).buffers = [0, 1] ∧
      sample_column.2.1.data.data = 2 ∧
      (sample_column.2.1.to_array_ref ArrowArray.zero).buffers[1]? ≠
        some sample_column.2.1.data.data ∧
      sample_column.2.2.lookup 1 = none) := by
  refine ⟨fun x array => ⟨rfl, rfl, rfl, rfl, rfl, rfl⟩, ?_, fun _ _ _ => rfl, ?_⟩
  · intro name h h1 x hx
    unfold XArrowNonNull.ctor at hx
    split at hx
    · cases hx
      rfl
    · cases hx
  · exact ⟨by decide, by decide, by decide, by decide, by decide, by decide, by decide⟩

/-- C15: when `new` succeeds, `to_array_move` throws nothing and fills the array with
`length == K` (the size of the vector), null count and offset 0, two buffers, no
children, and a table whose slot 0 is null and whose slot 1 is the data pointer `p` of
the vector at the call; the heap is not touched, so `p[i]` still holds what `at(i)`
gave.  Afterwards the vector of the handle has size 0, capacity 0 and a null data
pointer: destroying it frees nothing, and it is the release callback of the array that
frees `p`. -/
theorem C15_to_array_move {α : Type} (h : Heap α) (x : XArrowNonNull) (array : ArrowArray) :
    (x.to_array_move array true).1 = none ∧
    (x.to_array_move array true).2.1.length = (x.data.size : Int) ∧
    (x.to_array_move array true).2.1.null_count = 0 ∧
    (x.to_array_move array true).2.1.offset = 0 ∧
    (x.to_array_move array true).2.1.n_buffers = 2 ∧
    (x.to_array_move array true).2.1.n_children = 0 ∧
    (x.to_array_move array true).2.1.buffers = [0, x.data.data] ∧
    (x.to_array_move array true).2.1.buffers[0]? = some 0 ∧
    (x.to_array_move array true).2.1.buffers[1]? = some x.data.data ∧
    (∀ i, i < x.data.size →
      AlignedVector.at_ i x.data h = Except.ok (h.load x.data.data i)) ∧
    (x.to_array_move array true).2.2.data.size = 0 ∧
    (x.to_array_move array true).2.2.data.capacity = 0 ∧
    (x.to_array_move array true).2.2.data.data = 0 ∧
    (x.to_array_move array true).2.2.data.dtor h = h ∧
    (x.data.data ≠ 0 →
      ((x.to_array_move array true).2.1.call_release h).lookup x.data.data = none) := by
  refine ⟨rfl, rfl, rfl, rfl, rfl, rfl, rfl, rfl, rfl, ?_, rfl, rfl, rfl, rfl, ?_⟩
  · intro i hi
    have hi1 : i < x.data_.size_ := hi
    show AlignedVector.at_ i x.data_ h = Except.ok (h.load x.data_.data i)
    unfold AlignedVector.at_ AlignedVector.at_ref
    rw [if_neg (Nat.not_le.2 hi1)]
  · intro hp
    show (free x.data_.data h).lookup x.data_.data = none
    rw [lookup_free, if_pos ⟨hp, rfl⟩]

/-- C15, at an instance: the sample column of five values is exported. -/
theorem C15_to_array_move_witness :
    (sample_column.2.1.to_array_move ArrowArray.zero true).2.1.length = 5 ∧
    (sample_column.2.1.to_array_move ArrowArray.zero true).2.1.buffers = [0, 2] ∧
    sample_column.2.2.lookup 2 = some [some 1, some 2, some 3, some 4, some 5, none] ∧
    (sample_column.2.1.to_array_move ArrowArray.zero true).2.2.data.size = 0 :=
  have hc := C15_to_array_move sample_column.2.2 sample_column.2.1 ArrowArray.zero
  ⟨hc.2.1, hc.2.2.2.2.2.2.1, by decide, hc.2.2.2.2.2.2.2.2.2.2.1⟩

/-- C23, as stated, fails: on the vector holding 10, 20, `resize(1)` followed by
`resize(2)` leaves 0, the value `T()`, at index 1, where 20 was before the shrink. -/
theorem C23_resize_back_counterexample :
    AlignedVector.at_ 1 sample_vec sample_heap = Except.ok (some 20) ∧
    AlignedVector.at_ 1
      ((sample_vec.resize_default 1 sample_heap).vec.resize_default 2
        (sample_vec.resize_default 1 sample_heap).heap).vec
      ((sample_vec.resize_default 1 sample_heap).vec.resize_default 2
        (sample_vec.resize_default 1 sample_heap).heap).heap = Except.ok (some 0) ∧
    AlignedVector.at_ 1
      ((sample_vec.resize_default 1 sample_heap).vec.resize_default 2
        (sample_vec.resize_default 1 sample_heap).heap).vec
      ((sample_vec.resize_default 1 sample_heap).vec.resize_default 2
        (sample_vec.resize_default 1 sample_heap).heap).heap ≠
      AlignedVector.at_ 1 sample_vec sample_heap :=
  ⟨rfl, rfl, fun e => absurd (Option.some.inj (Except.ok.inj e)) (by decide)⟩

/-- C23, amended: for a valid vector of size `s` and `n <= s`, `resize(n)` followed by
`resize(s)` throws nothing, allocates nothing and gives size `s` again; every index
below `n` holds what it held before, and every index in `[n, s)` holds the value `T()`
(zero) that the growing `resize` writes there, whatever it held before the shrink. -/
theorem C23_resize_back_refills {α : Type} [Zero α] (h : Heap α) (v : AlignedVector) (n : Nat)
    (hv : AlignedVector.Valid h v) (hn : n ≤ v.size) :
    (v.resize_default n h).thrown = none ∧
    ((v.resize_default n h).vec.resize_default v.size (v.resize_default n h).heap).thrown
      = none ∧
    ((v.resize_default n h).vec.resize_default v.size (v.resize_default n h).heap).vec.size
      = v.size ∧
    ((v.resize_default n h).vec.resize_default v.size (v.resize_default n h).heap).vec.array_
      = v.array_ ∧
    ((v.resize_default n h).vec.resize_default v.size (v.resize_default n h).heap).heap.oom
      = h.oom ∧
    (∀ i, n ≤ i → i < v.size →
      AlignedVector.at_ i
        ((v.resize_default n h).vec.resize_default v.size (v.resize_default n h).heap).vec
        ((v.resize_default n h).vec.resize_default v.size (v.resize_default n h).heap).heap
        = Except.ok (some 0)) ∧
    (∀ i, i < n →
      AlignedVector.at_ i
        ((v.resize_default n h).vec.resize_default v.size (v.resize_default n h).heap).vec
        ((v.resize_default n h).vec.resize_default v.size (v.resize_default n h).heap).heap
        = AlignedVector.at_ i v h) := by
  have hn1 : n ≤ v.size_ := hn
  have h1 : v.resize_default n h = { thrown := none, vec := { v with size_ := n }, heap := h } :=
    AlignedVector.resize_shrink_eq n 0 v h hn1
  rw [h1]
  simp only
  have hv1 := AlignedVector.valid_shrunk n v h hv hn1
  have hc1 := AlignedVector.cells_shrunk n v h hn1
  have hlen := hv.length_cells
  have hsz : v.size = v.size_ := rfl
  have hrd : ∀ (m : Nat) (u : AlignedVector) (g : Heap α),
      AlignedVector.resize_default m u g = AlignedVector.resize m (0 : α) u g :=
    fun _ _ _ => rfl
  simp only [hsz, hrd]
  by_cases hlt : n < v.size_
  · obtain ⟨r1, r2, r3, _, r5⟩ :=
      AlignedVector.resize_within_spec v.size_ (0 : α) { v with size_ := n } h hv1 hlt hv.1
    rw [hc1] at r5
    have hoom : (AlignedVector.resize v.size_ (0 : α) { v with size_ := n } h).heap.oom
        = h.oom := by
      rw [AlignedVector.resize_within_eq v.size_ (0 : α) { v with size_ := n } h hlt hv.1]
      exact oom_uninitialized_fill _ _ _ _ _
    refine ⟨trivial, r1, r2, r3, hoom, ?_, ?_⟩
    · intro i hlo hhi
      rw [AlignedVector.at_of_lt _ _ i (by rw [r2]; exact hhi), r5,
        List.getElem?_append_right (by rw [List.length_take, hlen]; omega),
        List.getElem?_replicate]
      rw [List.length_take, hlen, Nat.min_eq_left hn1]
      rw [if_pos (by show i - n < v.size_ - n; omega)]
      rfl
    · intro i hi
      rw [AlignedVector.at_of_lt _ _ i (by rw [r2]; omega), r5,
        List.getElem?_append_left (by rw [List.length_take, hlen]; omega),
        List.getElem?_take_of_lt hi, AlignedVector.at_of_lt h v i (by omega)]
  · have he : n = v.size_ := by omega
    have h2 : AlignedVector.resize v.size_ (0 : α) { v with size_ := n } h =
        { thrown := none, vec := { v with size_ := v.size_ }, heap := h } :=
      AlignedVector.resize_shrink_eq v.size_ 0 _ h (by show v.size_ ≤ n; omega)
    rw [h2]
    refine ⟨trivial, rfl, rfl, rfl, rfl, ?_, ?_⟩
    · intro i hlo hhi
      omega
    · intro i _
      rfl

/-- C23, amended, at an instance: `resize(1)` then `resize(2)` on the sample vector. -/
theorem C23_resize_back_refills_witness :
    AlignedVector.Valid sample_heap sample_vec ∧ 1 ≤ sample_vec.size ∧
    ((sample_vec.resize_default 1 sample_heap).vec.resize_default sample_vec.size
      (sample_vec.resize_default 1 sample_heap).heap).vec.size = sample_vec.size ∧
    (∀ i, 1 ≤ i → i < sample_vec.size →
      AlignedVector.at_ i
        ((sample_vec.resize_default 1 sample_heap).vec.resize_default sample_vec.size
          (sample_vec.resize_default 1 sample_heap).heap).vec
        ((sample_vec.resize_default 1 sample_heap).vec.resize_default sample_vec.size
          (sample_vec.resize_default 1 sample_heap).heap).heap = Except.ok (some 0)) :=
  have hc := C23_resize_back_refills sample_heap sample_vec 1 (by decide) (by decide)
  ⟨by decide, by decide, hc.2.2.1, hc.2.2.2.2.2.1⟩

/-- C24: `assign(count, x)` with `count > capacity()` whose allocation is refused throws
`bad_alloc` and leaves the vector with `size() == 0`, while its capacity and data
pointer (the whole `array_`) and the blocks of the heap, so every stored value, are
what they were before the call; for a vector that was not empty the size is not
restored. -/
theorem C24_assign_not_atomic {α : Type} (h : Heap α) (v : AlignedVector) (count : Nat)
    (x : α) (hc : count > v.capacity) (hg : ¬ h.grants) :
    (v.assign count x h).thrown = some Exn.bad_alloc ∧
    (v.assign count x h).vec.size = 0 ∧
    (v.assign count x h).vec.capacity = v.capacity ∧
    (v.assign count x h).vec.data = v.data ∧
    (v.assign count x h).vec.array_ = v.array_ ∧
    (v.assign count x h).heap.blocks = h.blocks ∧
    (∀ i, (v.assign count x h).heap.load (v.assign count x h).vec.data i = h.load v.data i) ∧
    (∀ i, AlignedVector.at_ i (v.assign count x h).vec (v.assign count x h).heap =
      Except.error Exn.out_of_range) ∧
    (v.size > 0 → (v.assign count x h).vec.size ≠ v.size) := by
  rw [AlignedVector.assign_of_not_grants count x v h hc hg]
  refine ⟨rfl, rfl, rfl, rfl, rfl, rfl, fun _ => rfl,
    fun i => AlignedVector.at_of_ge _ _ i (Nat.zero_le _), ?_⟩
  intro hs
  show (0 : Nat) ≠ v.size_
  have : v.size_ > 0 := hs
  omega

/-- C24, at an instance: `assign(9, 7)` on the sample vector with an allocator that
refuses. -/
theorem C24_assign_not_atomic_witness :
    9 > sample_vec.capacity ∧ ¬ sample_heap_oom.grants ∧
    (sample_vec.assign 9 7 sample_heap_oom).thrown = some Exn.bad_alloc ∧
    (sample_vec.assign 9 7 sample_heap_oom).vec.size = 0 ∧
    (sample_vec.assign 9 7 sample_heap_oom).vec.array_ = sample_vec.array_ ∧
    (sample_vec.assign 9 7 sample_heap_oom).heap.blocks = sample_heap_oom.blocks :=
  have hc := C24_assign_not_atomic sample_heap_oom sample_vec 9 7 (by decide) (by decide)
  ⟨by decide, by decide, hc.1, hc.2.1, hc.2.2.2.2.1, hc.2.2.2.2.2.1⟩

/-- C22: the functions do not implement a bijection.  For every `types.def`,
`type_enum2format` returns the one literal `" #format_str "` for every value of the
enumeration, and `format2type_enum` returns the first enumerator for that literal.  So
for every enumerator `t` but the first, `type_enum2format` maps `t` and the first
enumerator to the same string, and `format2type_enum(type_enum2format(t))` is the first
enumerator, not `t`; with a `types.def` of three lines the round trip of the second
enumerator gives 0. -/
theorem C22_type_tags_collapse :
    (∀ (table : List TypeEntry) (t : Nat), t < table.length →
      type_enum2format table t = Except.ok " #format_str ") ∧
    (∀ (table : List TypeEntry) (t : Nat), 0 < t → t < table.length →
      type_enum2format table t = type_enum2format table 0 ∧
      (type_enum2format table t >>= format2type_enum table) = Except.ok 0 ∧
      (type_enum2format table t >>= format2type_enum table) ≠ Except.ok t) ∧
    (type_enum2format sample_types 1 = Except.ok " #format_str " ∧
      type_enum2format sample_types 0 = Except.ok " #format_str " ∧
      (type_enum2format sample_types 1 >>= format2type_enum sample_types) = Except.ok 0) := by
  refine ⟨type_enum2format_of_lt, ?_, rfl, rfl, rfl⟩
  intro table t h0 ht
  have hne : table ≠ [] := by
    intro e
    rw [e] at ht
    exact Nat.not_lt_zero _ ht
  have hrt : (type_enum2format table t >>= format2type_enum table) = Except.ok 0 := by
    rw [type_enum2format_of_lt table t ht]
    exact format2type_enum_literal table hne
  refine ⟨?_, hrt, ?_⟩
  · rw [type_enum2format_of_lt table t ht, type_enum2format_of_lt table 0 (by omega)]
  · rw [hrt]
    intro e
    have := Except.ok.inj e
    omega

/-- C21: for two vectors `a`, `b` of a linearly ordered element type (the integer
types) that hold the values `xs` and `ys` at the indices below their sizes, whatever
their capacities: `a == b` iff the sizes agree and `at(i)` agrees at every index below
the size, iff `xs = ys`; `a != b` is its negation; `a < b` iff `xs` is smaller than `ys`
in the lexicographic order; `a > b` iff `b < a`; `a <= b` iff `a < b` or `a == b`;
`a >= b` iff `a > b` or `a == b`; and exactly one of `a < b`, `a == b`, `a > b` holds. -/
theorem C21_comparison_operators {α : Type} [LinearOrder α] (h : Heap α)
    (a b : AlignedVector) (xs ys : List α)
    (ha : a.elements h = xs.map some) (hb : b.elements h = ys.map some) :
    (operator_eq a b h = true ↔
      (a.size = b.size ∧
        ∀ i, i < a.size → AlignedVector.at_ i a h = AlignedVector.at_ i b h)) ∧
    (operator_eq a b h = true ↔ xs = ys) ∧
    operator_ne a b h = !(operator_eq a b h) ∧
    (operator_lt a b h = true ↔ List.Lex (· < ·) xs ys) ∧
    (operator_gt a b h = true ↔ operator_lt b a h = true) ∧
    (operator_le a b h = true ↔ (operator_lt a b h = true ∨ operator_eq a b h = true)) ∧
    (operator_ge a b h = true ↔ (operator_gt a b h = true ∨ operator_eq a b h = true)) ∧
    ((operator_lt a b h = true ∧ operator_eq a b h = false ∧ operator_gt a b h = false) ∨
      (operator_lt a b h = false ∧ operator_eq a b h = true ∧ operator_gt a b h = false) ∨
      (operator_lt a b h = false ∧ operator_eq a b h = false ∧ operator_gt a b h = true)) := by
  have heq : operator_eq a b h = true ↔ xs = ys := by
    rw [operator_eq_iff_elements, ha, hb]
    exact (List.map_injective_iff.2 (Option.some_injective α)).eq_iff
  have hlt : operator_lt a b h = true ↔ List.Lex (· < ·) xs ys := by
    unfold operator_lt
    rw [ha, hb]
    exact lexicographical_compare_values xs ys
  have hgt : operator_gt a b h = true ↔ List.Lex (· < ·) ys xs := by
    unfold operator_gt operator_lt
    rw [ha, hb]
    exact lexicographical_compare_values ys xs
  have hle : operator_le a b h = !(operator_gt a b h) := rfl
  have hge : operator_ge a b h = !(operator_lt a b h) := rfl
  have htri := trichotomous_of (List.Lex (fun (x y : α) => x < y)) xs ys
  have hirr : ¬ List.Lex (fun (x y : α) => x < y) xs xs :=
    irrefl_of (List.Lex (fun (x y : α) => x < y)) xs
  have hasy : List.Lex (fun (x y : α) => x < y) xs ys →
      ¬ List.Lex (fun (x y : α) => x < y) ys xs :=
    fun h1 h2 => asymm_of (List.Lex (fun (x y : α) => x < y)) h1 h2
  have hx1 : List.Lex (fun (x y : α) => x < y) xs ys → ¬ xs = ys := by
    intro hl e
    rw [e] at hl hirr
    exact hirr hl
  have hx3 : xs = ys → ¬ List.Lex (fun (x y : α) => x < y) ys xs := by
    intro e hl
    rw [e] at hirr
    rw [e] at hl
    exact hirr hl
  refine ⟨(operator_eq_iff_elements a b h).trans (elements_eq_iff_at a b h), heq, rfl, hlt,
    Iff.rfl, ?_, ?_, ?_⟩
  · have hle2 : operator_le a b h = true ↔ ¬ List.Lex (fun (x y : α) => x < y) ys xs := by
      rw [hle]
      exact bool_not_eq_true_iff hgt
    rw [hle2]
    constructor
    · intro hn
      rcases htri with hL | hE | hG
      · exact Or.inl (hlt.2 hL)
      · exact Or.inr (heq.2 hE)
      · exact absurd hG hn
    · rintro (hl | he)
      · exact hasy (hlt.1 hl)
      · exact hx3 (heq.1 he)
  · have hge2 : operator_ge a b h = true ↔ ¬ List.Lex (fun (x y : α) => x < y) xs ys := by
      rw [hge]
      exact bool_not_eq_true_iff hlt
    rw [hge2]
    constructor
    · intro hn
      rcases htri with hL | hE | hG
      · exact absurd hL hn
      · exact Or.inr (heq.2 hE)
      · exact Or.inl (hgt.2 hG)
    · rintro (hg | he)
      · exact fun hl => hasy hl (hgt.1 hg)
      · exact fun hl => hx1 hl (heq.1 he)
  · rcases htri with hL | hE | hG
    · exact Or.inl ⟨hlt.2 hL, (bool_eq_false_iff heq).2 (hx1 hL),
        (bool_eq_false_iff hgt).2 (hasy hL)⟩
    · exact Or.inr (Or.inl ⟨(bool_eq_false_iff hlt).2 (fun hl => hx1 hl hE), heq.2 hE,
        (bool_eq_false_iff hgt).2 (hx3 hE)⟩)
    · exact Or.inr (Or.inr ⟨(bool_eq_false_iff hlt).2 (fun hl => hasy hl hG),
        (bool_eq_false_iff heq).2 (fun e => hx3 e hG), hgt.2 hG⟩)

/-- C21, at an instance: the vector 10, 20 (capacity 4) against the vector 7, 8
(capacity 2) of the sample world. -/
theorem C21_comparison_operators_witness :
    sample_vec.elements sample_heap2 = [10, 20].map some ∧
    sample_vec2.elements sample_heap2 = [7, 8].map some ∧
    (operator_lt sample_vec2 sample_vec sample_heap2 = true ↔
      List.Lex (· < ·) [7, 8] [10, 20]) ∧
    (operator_eq sample_vec sample_vec2 sample_heap2 = true ↔ [10, 20] = [7, 8]) ∧
    (operator_ge sample_vec sample_vec2 sample_heap2 = true ↔
      (operator_gt sample_vec sample_vec2 sample_heap2 = true ∨
        operator_eq sample_vec sample_vec2 sample_heap2 = true)) :=
  have hc := C21_comparison_operators sample_heap2 sample_vec sample_vec2 [10, 20] [7, 8]
    (by decide) (by decide)
  have hd := C21_comparison_operators sample_heap2 sample_vec2 sample_vec [7, 8] [10, 20]
    (by decide) (by decide)
  ⟨by decide, by decide, hd.2.2.2.1, hc.2.1, hc.2.2.2.2.2.2.1⟩

/-- C1: pushing a sequence of values onto a default-constructed vector, on the machine.
When every pushed value is a reference to an object outside the heap blocks, every
allocation succeeds and the byte size of `max(4, N + N/2)` elements (a bound on every
capacity that `N` pushes reach) is rounded without wrap-around, the pushes have defined
behaviour and throw nothing, `size() == N` afterwards and `at(i)` returns the `i`-th
pushed value, whatever reallocations happened on the way (`push_back` is
`emplace_back`).  For a value that is a reference into the vector the property fails:
default construction and `push_back` of 10, 20, 30, 40 leave a full vector of capacity
4 with `at(0) == 10`, and `v.push_back(v[0])` on it reallocates, frees the block the
reference points into and then reads the reference, which is undefined behaviour; the
same push from an object that holds 10 stores 10 at index 4. -/
theorem C1_push_back_sequence :
    (∀ (α : Type) (L : Layout) (h : Heap α) (xs : List α), L.ok → h.plentiful →
      L.fits (max 4 (xs.length + xs.length / 2)) →
      ∃ v0 h0 out, Machine.AlignedVector.ctor L h = (some v0, h0) ∧
        Machine.AlignedVector.push_back_all L (xs.map ArgRef.object) v0 h0 = some out ∧
        out.thrown = none ∧ out.vec.size = xs.length ∧
        ∀ (i : Nat) (hi : i < xs.length),
          AlignedVector.at_ i out.vec out.heap = Except.ok (some (xs.get ⟨i, hi⟩))) ∧
    (∃ v0 h0, Machine.AlignedVector.ctor sample_layout ({ blocks := [], oom := [] } : Heap Nat) =
        (some v0, h0) ∧
      Machine.AlignedVector.push_back_all sample_layout
        [ArgRef.object 10, ArgRef.object 20, ArgRef.object 30, ArgRef.object 40] v0 h0 =
          some { thrown := none, vec := sample_vec_full, heap := sample_heap_full }) ∧
    AlignedVector.at_ 0 sample_vec_full sample_heap_full = Except.ok (some 10) ∧
    Machine.AlignedVector.push_back sample_layout (ArgRef.cell sample_vec_full.data 0)
      sample_vec_full sample_heap_full = none ∧
    (Machine.AlignedVector.push_back sample_layout (ArgRef.object 10)
      sample_vec_full sample_heap_full).map
        (fun out => (out.vec.size, out.heap.load out.vec.data 4)) = some (5, some 10) := by
  refine ⟨?_, ⟨_, _, rfl, by decide⟩, rfl, by decide, by decide⟩
  intro α L h xs hL hp hfit
  have hg := h.plentiful_grants hp
  have hfit4 : L.fits 4 := L.fits_mono (le_max_left _ _) hfit
  have hv0 := AlignedVector.valid_ctor h
  have hp0 := h.plentiful_allocated 4 hp
  have he := Machine.push_back_all_eq L hL xs _ _ hv0 hp0
    (by simpa using hfit) (by show 4 ≤ _; exact le_max_left _ _)
  obtain ⟨h1, h2, _, h4⟩ := AlignedVector.push_back_all_spec xs _ _ hv0 hp0
  rw [AlignedVector.cells_ctor, List.nil_append] at h4
  simp only [Nat.zero_add] at h2
  refine ⟨_, _, _, ?_, he, h1, h2, ?_⟩
  · rw [Machine.ctor_eq L hL hfit4, AlignedVector.ctor_of_grants h hg]
  · intro i hi
    rw [AlignedVector.at_of_lt _ _ i (by rw [h2]; exact hi), h4]
    simp [List.getElem?_eq_getElem hi]

/-- C1, at an instance: five pushes of objects onto a vector of 4-byte elements built on
the empty heap. -/
theorem C1_push_back_sequence_witness :
    sample_layout.ok ∧ ({ blocks := [], oom := [] } : Heap Nat).plentiful ∧
    sample_layout.fits (max 4 ([10, 20, 30, 40, 50].length + [10, 20, 30, 40, 50].length / 2)) ∧
    ∃ v0 h0 out,
      Machine.AlignedVector.ctor sample_layout ({ blocks := [], oom := [] } : Heap Nat) =
        (some v0, h0) ∧
      Machine.AlignedVector.push_back_all sample_layout
        ([10, 20, 30, 40, 50].map ArgRef.object) v0 h0 = some out ∧
      out.thrown = none ∧ out.vec.size = [10, 20, 30, 40, 50].length ∧
      ∀ (i : Nat) (hi : i < [10, 20, 30, 40, 50].length),
        AlignedVector.at_ i out.vec out.heap =
          Except.ok (some ([10, 20, 30, 40, 50].get ⟨i, hi⟩)) :=
  ⟨by decide, by decide, by decide,
    C1_push_back_sequence.1 Nat sample_layout { blocks := [], oom := [] } [10, 20, 30, 40, 50]
      (by decide) (by decide) (by decide)⟩

/-- C3: the growth policy, on the machine.  For a valid vector with capacity `c`, when
the allocation succeeds, the reference `value` reads a value and, if the capacity `r`
that the call needs exceeds `c`, does not point into the vector's own block and the
byte size of `max(r, c + c/2, 4)` elements is rounded without wrap-around:
`push_back`, `emplace_back` (`r = size() + 1`, which must not wrap) and `resize`
(`r = n`) have defined behaviour, throw nothing, and leave the capacity
`max(r, c + c/2, 4)` when `r > c` and `c` when `r <= c`.  A default-constructed vector
has capacity 4, still 4 after four pushes and 6 after the fifth (for a layout where
the byte size of `5 + 5/2` elements, the bound on the capacities of five pushes, does
not wrap).  Without the bound on
the byte size the property fails: on a vector of 4-byte elements with capacity 4,
`resize(2^62 + 1, 7)` computes the capacity `2^62 + 1`, whose byte size wraps to 4 and
is rounded to 64, so `ensure_capacity` leaves a block of 16 cells under the reported
capacity `2^62 + 1`, and the fill that follows writes past the block, which is
undefined behaviour. -/
theorem C3_growth_policy :
    (∀ (α : Type) (L : Layout) (h : Heap α) (v : AlignedVector) (n : Nat) (x : α)
        (value : ArgRef α),
      L.ok → v.Valid h → h.grants → Machine.deref h value = some x →
      ((v.size + 1 < SIZE_MOD →
        (v.size + 1 > v.capacity →
          L.fits (max (max (v.size + 1) (v.capacity + v.capacity / 2)) 4)) →
        (∀ i, value = ArgRef.cell v.data i → v.size + 1 ≤ v.capacity) →
        ∃ out, Machine.AlignedVector.push_back L value v h = some out ∧
          Machine.AlignedVector.emplace_back L value v h = some out ∧ out.thrown = none ∧
          out.vec.capacity =
            if v.size + 1 > v.capacity then
              max (max (v.size + 1) (v.capacity + v.capacity / 2)) 4
            else v.capacity) ∧
       ((n > v.capacity → L.fits (max (max n (v.capacity + v.capacity / 2)) 4)) →
        (∀ i, value = ArgRef.cell v.data i → n ≤ v.capacity) →
        ∃ out, Machine.AlignedVector.resize L n value v h = some out ∧ out.thrown = none ∧
          out.vec.capacity =
            if n > v.capacity then max (max n (v.capacity + v.capacity / 2)) 4
            else v.capacity))) ∧
    (∀ (α : Type) (L : Layout) (h : Heap α) (x1 x2 x3 x4 x5 : α),
      L.ok → h.plentiful → L.fits 7 →
      ∃ v0 h0 out4 out5, Machine.AlignedVector.ctor L h = (some v0, h0) ∧ v0.capacity = 4 ∧
        Machine.AlignedVector.push_back_all L
          [ArgRef.object x1, ArgRef.object x2, ArgRef.object x3, ArgRef.object x4] v0 h0 =
            some out4 ∧ out4.vec.capacity = 4 ∧
        Machine.AlignedVector.push_back_all L
          [ArgRef.object x1, ArgRef.object x2, ArgRef.object x3, ArgRef.object x4,
            ArgRef.object x5] v0 h0 = some out5 ∧ out5.vec.capacity = 6) ∧
    (AlignedVector.Valid sample_heap sample_vec ∧ sample_heap.grants ∧
      (Machine.AlignedVector.ensure_capacity sample_layout (2 ^ 62 + 1) sample_vec
        sample_heap).map
          (fun r => (r.thrown, r.vec.capacity, (r.heap.lookup r.vec.data).map List.length)) =
        some (none, 2 ^ 62 + 1, some 16) ∧
      Machine.AlignedVector.resize sample_layout (2 ^ 62 + 1) (ArgRef.object 7) sample_vec
        sample_heap = none) := by
  refine ⟨?_, ?_, by decide, by decide, by decide, by decide⟩
  · intro α L h v n x value hL hv hg hx
    have hold := growth_policy_elements h v n x hg hv.1
    constructor
    · intro hlt hfit hal
      have he := Machine.emplace_back_eq L hL value x v h hv hg hfit hlt hx hal
      exact ⟨_, he, he, hold.2.1.1, hold.2.1.2⟩
    · intro hfit hal
      by_cases hn : v.size_ < n
      · exact ⟨_, Machine.resize_eq L hL n value x v h hv hg hn hfit hx hal,
          hold.2.2.1.1, hold.2.2.1.2⟩
      · exact ⟨_, Machine.resize_shrink_eq_machine L n value x v h (by omega),
          hold.2.2.1.1, hold.2.2.1.2⟩
  · intro α L h x1 x2 x3 x4 x5 hL hp hfit
    have hg := h.plentiful_grants hp
    have hv0 := AlignedVector.valid_ctor h
    have hp0 := h.plentiful_allocated 4 hp
    obtain ⟨v0, h0, hctor, hcap, hall⟩ :=
      (growth_policy_elements h
        { size_ := 0, array_ := { size_ := 4, buffer_ := { data_ := h.fresh } } } 0 x1 hg
        (Nat.zero_le _)).2.2.2 hp
    rw [AlignedVector.ctor_of_grants h hg] at hctor
    cases hctor
    have e4 := Machine.push_back_all_eq L hL [x1, x2, x3, x4] _ _ hv0 hp0
      (L.fits_mono (by show max 4 (0 + 4 + (0 + 4) / 2) ≤ 7; decide) hfit)
      (by show 4 ≤ max 4 (0 + 4 + (0 + 4) / 2); decide)
    have e5 := Machine.push_back_all_eq L hL [x1, x2, x3, x4, x5] _ _ hv0 hp0
      (L.fits_mono (by show max 4 (0 + 5 + (0 + 5) / 2) ≤ 7; decide) hfit)
      (by show 4 ≤ max 4 (0 + 5 + (0 + 5) / 2); decide)
    refine ⟨{ size_ := 0, array_ := { size_ := 4, buffer_ := { data_ := h.fresh } } },
      h.allocated 4, _, _, ?_, rfl, e4, (hall x1 x2 x3 x4 x5).1, e5, (hall x1 x2 x3 x4 x5).2⟩
    rw [Machine.ctor_eq L hL (L.fits_mono (by decide) hfit),
      AlignedVector.ctor_of_grants h hg]

/-- C3, at an instance: `resize(9, 7)` and a push of an object on the sample vector (size
2, capacity 4) of 4-byte elements. -/
theorem C3_growth_policy_witness :
    sample_layout.ok ∧ AlignedVector.Valid sample_heap sample_vec ∧ sample_heap.grants ∧
    ((sample_vec.size + 1 < SIZE_MOD →
      (sample_vec.size + 1 > sample_vec.capacity →
        sample_layout.fits
          (max (max (sample_vec.size + 1) (sample_vec.capacity + sample_vec.capacity / 2)) 4)) →
      (∀ i, (ArgRef.object 7 : ArgRef Nat) = ArgRef.cell sample_vec.data i →
        sample_vec.size + 1 ≤ sample_vec.capacity) →
      ∃ out, Machine.AlignedVector.push_back sample_layout (ArgRef.object 7) sample_vec
          sample_heap = some out ∧
        Machine.AlignedVector.emplace_back sample_layout (ArgRef.object 7) sample_vec
          sample_heap = some out ∧ out.thrown = none ∧
        out.vec.capacity =
          if sample_vec.size + 1 > sample_vec.capacity then
            max (max (sample_vec.size + 1) (sample_vec.capacity + sample_vec.capacity / 2)) 4
          else sample_vec.capacity) ∧
     ((9 > sample_vec.capacity →
        sample_layout.fits (max (max 9 (sample_vec.capacity + sample_vec.capacity / 2)) 4)) →
      (∀ i, (ArgRef.object 7 : ArgRef Nat) = ArgRef.cell sample_vec.data i →
        9 ≤ sample_vec.capacity) →
      ∃ out, Machine.AlignedVector.resize sample_layout 9 (ArgRef.object 7) sample_vec
          sample_heap = some out ∧ out.thrown = none ∧
        out.vec.capacity =
          if 9 > sample_vec.capacity then
            max (max 9 (sample_vec.capacity + sample_vec.capacity / 2)) 4
          else sample_vec.capacity)) :=
  ⟨by decide, by decide, by decide,
    C3_growth_policy.1 Nat sample_layout sample_heap sample_vec 9 7 (ArgRef.object 7)
      (by decide) (by decide) (by decide) rfl⟩

/-- C4: `resize(n, value)` with `n > size()`, on the machine.  For a valid vector of size
`s`, when the allocation succeeds, the reference `value` reads `x` and, if the call
has to grow the capacity `c`, does not point into the vector's own block and the byte
size of the new capacity `max(n, c + c/2, 4)` is rounded without wrap-around, the call
has defined behaviour, throws nothing and leaves `size() == n`; every index in `[s, n)`
then holds `x`, and every index below `s` holds what it held before, also when the call
reallocated.  Outside these conditions the property fails.  On the sample vector (size
2, capacity 4, `at(0) == 10`) `v.resize(9, v[0])` reallocates, frees the block the
reference points into and the fill then reads the reference, which is undefined
behaviour, while `v.resize(3, v[0])`, which does not reallocate, fills with 10.  And
`resize(2^62 + 1, 7)` on a vector of 4-byte elements gets a block of 64 bytes and
fills past it. -/
theorem C4_resize_grow :
    (∀ (α : Type) (L : Layout) (h : Heap α) (v : AlignedVector) (n : Nat) (x : α)
        (value : ArgRef α),
      L.ok → v.Valid h → h.grants → v.size < n → Machine.deref h value = some x →
      (n > v.capacity → L.fits (max (max n (v.capacity + v.capacity / 2)) 4)) →
      (∀ i, value = ArgRef.cell v.data i → n ≤ v.capacity) →
      ∃ out, Machine.AlignedVector.resize L n value v h = some out ∧ out.thrown = none ∧
        out.vec.size = n ∧
        (∀ i, v.size ≤ i → i < n → AlignedVector.at_ i out.vec out.heap = Except.ok (some x)) ∧
        (∀ i, i < v.size → AlignedVector.at_ i out.vec out.heap = AlignedVector.at_ i v h)) ∧
    (AlignedVector.Valid sample_heap sample_vec ∧ sample_heap.grants ∧
      AlignedVector.at_ 0 sample_vec sample_heap = Except.ok (some 10) ∧
      Machine.AlignedVector.resize sample_layout 9 (ArgRef.cell sample_vec.data 0) sample_vec
        sample_heap = none ∧
      (Machine.AlignedVector.resize sample_layout 3 (ArgRef.cell sample_vec.data 0) sample_vec
        sample_heap).map (fun out => (out.vec.size, out.heap.load out.vec.data 2)) =
          some (3, some 10)) ∧
    Machine.AlignedVector.resize sample_layout (2 ^ 62 + 1) (ArgRef.object 7) sample_vec
      sample_heap = none := by
  refine ⟨?_, ⟨by decide, by decide, rfl, by decide, by decide⟩, by decide⟩
  intro α L h v n x value hL hv hg hn hx hfit hal
  obtain ⟨h1, h2, h3, h4⟩ := resize_grow_elements h v n x hv hg hn
  exact ⟨_, Machine.resize_eq L hL n value x v h hv hg hn hfit hx hal, h1, h2, h3, h4⟩

/-- C4, at an instance: `resize(9, 7)` from an object on the sample vector reallocates. -/
theorem C4_resize_grow_witness :
    sample_layout.ok ∧ AlignedVector.Valid sample_heap sample_vec ∧ sample_heap.grants ∧
    sample_vec.size < 9 ∧
    (9 > sample_vec.capacity →
      sample_layout.fits (max (max 9 (sample_vec.capacity + sample_vec.capacity / 2)) 4)) ∧
    ∃ out, Machine.AlignedVector.resize sample_layout 9 (ArgRef.object 7) sample_vec
        sample_heap = some out ∧ out.thrown = none ∧ out.vec.size = 9 ∧
      (∀ i, sample_vec.size ≤ i → i < 9 →
        AlignedVector.at_ i out.vec out.heap = Except.ok (some 7)) ∧
      (∀ i, i < sample_vec.size →
        AlignedVector.at_ i out.vec out.heap = AlignedVector.at_ i sample_vec sample_heap) :=
  ⟨by decide, by decide, by decide, by decide, by decide,
    C4_resize_grow.1 Nat sample_layout sample_heap sample_vec 9 7 (ArgRef.object 7)
      (by decide) (by decide) (by decide) (by decide) rfl (by decide)
      (fun i hi => by cases hi)⟩

/-- C9: `reserve(n)`, on the machine.  For a valid vector with capacity `c`, when the
allocation succeeds and, for `n > c`, the byte size of `n` elements is rounded without
wrap-around, `reserve(n)` has defined behaviour, throws nothing and leaves the size
and every element (the result of `at(i)` for every `i`) unchanged; for `n > c` the
capacity afterwards is exactly `n`, and for `n <= c` the call changes nothing: same
object (capacity, data pointer) and same heap.  The capacity is never lowered.  Without
the bound on the byte size the property fails: for a vector of 4-byte elements,
`reserve(2^62 + 1)` requests 64 bytes; on a vector of 17 elements the `memcpy` of the
elements writes past that block, which is undefined behaviour, and on the sample vector
of 2 elements the call leaves a block of 16 cells under the reported capacity
`2^62 + 1`. -/
theorem C9_reserve :
    (∀ (α : Type) (L : Layout) (h : Heap α) (v : AlignedVector) (n : Nat),
      L.ok → v.Valid h → h.grants → (n > v.capacity → L.fits n) →
      ∃ out, Machine.AlignedVector.reserve L n v h = some out ∧ out.thrown = none ∧
        out.vec.size = v.size ∧
        (∀ i, AlignedVector.at_ i out.vec out.heap = AlignedVector.at_ i v h) ∧
        (n > v.capacity → out.vec.capacity = n) ∧
        (n ≤ v.capacity → out.vec = v ∧ out.heap = h ∧ out.vec.capacity = v.capacity ∧
          out.vec.data = v.data) ∧
        v.capacity ≤ out.vec.capacity) ∧
    (AlignedVector.Valid sample_heap17 sample_vec17 ∧ sample_heap17.grants ∧
      Machine.AlignedVector.reserve sample_layout (2 ^ 62 + 1) sample_vec17 sample_heap17 =
        none) ∧
    (Machine.AlignedVector.reserve sample_layout (2 ^ 62 + 1) sample_vec sample_heap).map
        (fun r => (r.thrown, r.vec.capacity, (r.heap.lookup r.vec.data).map List.length)) =
      some (none, 2 ^ 62 + 1, some 16) := by
  refine ⟨?_, ⟨by decide, by decide, by decide⟩, by decide⟩
  intro α L h v n hL hv hg hfit
  exact ⟨_, Machine.reserve_eq L hL n v h hv hfit, reserve_elements h v n hv hg⟩

/-- C9, at an instance: `reserve(9)` on the sample vector (size 2, capacity 4) of 4-byte
elements. -/
theorem C9_reserve_witness :
    sample_layout.ok ∧ AlignedVector.Valid sample_heap sample_vec ∧ sample_heap.grants ∧
    (9 > sample_vec.capacity → sample_layout.fits 9) ∧
    ∃ out, Machine.AlignedVector.reserve sample_layout 9 sample_vec sample_heap = some out ∧
      out.thrown = none ∧ out.vec.size = sample_vec.size ∧
      (∀ i, AlignedVector.at_ i out.vec out.heap = AlignedVector.at_ i sample_vec sample_heap) ∧
      (9 > sample_vec.capacity → out.vec.capacity = 9) ∧
      (9 ≤ sample_vec.capacity → out.vec = sample_vec ∧ out.heap = sample_heap ∧
        out.vec.capacity = sample_vec.capacity ∧ out.vec.data = sample_vec.data) ∧
      sample_vec.capacity ≤ out.vec.capacity :=
  ⟨by decide, by decide, by decide, by decide,
    C9_reserve.1 Nat sample_layout sample_heap sample_vec 9 (by decide) (by decide) (by decide)
      (by decide)⟩

/-- C7, as stated, fails: for a floating-point element type of four bytes, take the
valid vector `a` of size 2 and capacity 4 that holds a NaN and 2.  Copy construction
and copy assignment (the allocation succeeds, the behaviour is defined) give a vector
of size 2 with the same two elements, and `a == b` is false, because the NaN at index 0
compares unequal to its copy. -/
theorem C7_copy_counterexample :
    AlignedVector.Valid sample_heap_nan sample_vec ∧ sample_heap_nan.grants ∧
    (Machine.AlignedVector.copy_ctor sample_layout sample_vec sample_heap_nan).map
        (fun r => (r.1.map (fun c => (c.size, r.2.load c.data 0, r.2.load c.data 1,
          Machine.operator_eq FloatVal.eq sample_vec c r.2)))) =
      some (some (2, some FloatVal.nan, some (FloatVal.number 2), some false)) ∧
    (Machine.World.copy_assign sample_layout 1 0 sample_world_nan).map
        (fun r => (r.1, (r.2.obj 1).size,
          Machine.operator_eq FloatVal.eq (r.2.obj 0) (r.2.obj 1) r.2.heap)) =
      some (none, 2, some false) := by
  refine ⟨by decide, by decide, by decide, by decide⟩

/-- C7, amended: for two distinct, valid vector objects `a` and `b` that do not share a
block, where the byte size of `a.capacity()` elements is rounded without wrap-around,
the copy assignment `b = a` (allocation succeeding) has defined behaviour, throws
nothing, leaves `a` and its elements as they were and gives `b.size() == a.size()`;
`a == b` holds when every element of `a` holds a value that compares equal to itself
under the `operator==` of `T`; and a later `b.at(i) = x`, or a later `b.push_back(value)`
or `b.resize(n, value)` that has defined behaviour, leaves the result of `a.at(j)` for
every `j` unchanged (the object `a`, so its size, is not an argument of these calls).
The same holds for a vector `c` copy-constructed from `a`. -/
theorem C7_copy_independent {α : Type} (L : Layout) (eq : α → α → Bool) (w : World α)
    (a b : Nat) (hL : L.ok) (hab : a ≠ b) (hva : AlignedVector.Valid w.heap (w.obj a))
    (hvb : AlignedVector.Valid w.heap (w.obj b))
    (hsep : (w.obj a).data = 0 ∨ (w.obj b).data ≠ (w.obj a).data) (hg : w.heap.grants)
    (hfit : L.fits (w.obj a).capacity) :
    (∃ w1, Machine.World.copy_assign L b a w = some (none, w1) ∧
      w1.obj a = w.obj a ∧
      (w1.obj b).size = (w.obj a).size ∧
      ((∀ i, i < (w.obj a).size →
          ∃ x, w.heap.load (w.obj a).data i = some x ∧ eq x x = true) →
        Machine.operator_eq eq (w1.obj a) (w1.obj b) w1.heap = some true) ∧
      (∀ j, AlignedVector.at_ j (w.obj a) w1.heap = AlignedVector.at_ j (w.obj a) w.heap) ∧
      (∀ i x j, AlignedVector.at_ j (w.obj a) ((w1.obj b).at_put i x w1.heap).heap =
        AlignedVector.at_ j (w.obj a) w.heap) ∧
      (∀ value out j,
        Machine.AlignedVector.push_back L value (w1.obj b) w1.heap = some out →
        AlignedVector.at_ j (w.obj a) out.heap = AlignedVector.at_ j (w.obj a) w.heap) ∧
      (∀ n value out j,
        Machine.AlignedVector.resize L n value (w1.obj b) w1.heap = some out →
        AlignedVector.at_ j (w.obj a) out.heap = AlignedVector.at_ j (w.obj a) w.heap)) ∧
    (∃ c h1, Machine.AlignedVector.copy_ctor L (w.obj a) w.heap = some (some c, h1) ∧
      c.size = (w.obj a).size ∧
      ((∀ i, i < (w.obj a).size →
          ∃ x, w.heap.load (w.obj a).data i = some x ∧ eq x x = true) →
        Machine.operator_eq eq (w.obj a) c h1 = some true) ∧
      (∀ j, AlignedVector.at_ j (w.obj a) h1 = AlignedVector.at_ j (w.obj a) w.heap) ∧
      (∀ i x j, AlignedVector.at_ j (w.obj a) (c.at_put i x h1).heap =
        AlignedVector.at_ j (w.obj a) w.heap) ∧
      (∀ value out j, Machine.AlignedVector.push_back L value c h1 = some out →
        AlignedVector.at_ j (w.obj a) out.heap = AlignedVector.at_ j (w.obj a) w.heap) ∧
      (∀ n value out j, Machine.AlignedVector.resize L n value c h1 = some out →
        AlignedVector.at_ j (w.obj a) out.heap = AlignedVector.at_ j (w.obj a) w.heap)) := by
  have hba : b ≠ a := fun e => hab e.symm
  obtain ⟨hvc, hcc, hfr⟩ := AlignedVector.copy_state (w.obj a) w.heap hva
  have hm1 := Machine.copy_assign_eq L hL b a w hva hfit
  have hm2 := Machine.copy_ctor_eq L hL (w.obj a) w.heap hva hfit
  rw [World.copy_assign_of_grants b a w hba hg] at hm1
  rw [AlignedVector.copy_ctor_of_grants (w.obj a) w.heap hg] at hm2
  have hne : w.heap.fresh ≠ (w.obj a).data := fun e => hva.data_ne_fresh e.symm
  have hbf : w.heap.fresh ≠ (w.obj b).data := fun e => hvb.data_ne_fresh e.symm
  generalize hh1 : memcpy w.heap.fresh (w.obj a).data (w.obj a).array_.size_
    (w.heap.allocated (w.obj a).array_.size_) = h1 at hvc hcc hfr hm1 hm2
  generalize hcdef : ({ size_ := (w.obj a).size_,
                        array_ := { size_ := (w.obj a).array_.size_,
                                    buffer_ := { data_ := w.heap.fresh } } } :
    AlignedVector) = c at hvc hcc hm1 hm2
  have hcd : c.data = w.heap.fresh := by rw [← hcdef]; rfl
  have hcs : c.size_ = (w.obj a).size_ := by rw [← hcdef]
  have hcne : c.data ≠ (w.obj a).data := by rw [hcd]; exact hne
  have hkeep1 : ∀ cs, (w.obj a).data ≠ 0 → w.heap.lookup (w.obj a).data = some cs →
      h1.lookup (w.obj a).data = some cs := by
    intro cs _ hl
    rw [hfr _ (fun e => hne e.symm)]
    exact hl
  have hkeep2 : ∀ cs, (w.obj a).data ≠ 0 → w.heap.lookup (w.obj a).data = some cs →
      (free (w.obj b).data h1).lookup (w.obj a).data = some cs := by
    intro cs h0 hl
    have hsep2 : (w.obj b).data ≠ (w.obj a).data := by
      rcases hsep with e | e
      · exact absurd e h0
      · exact e
    rw [lookup_free, if_neg (fun hh => hsep2 hh.2.symm)]
    exact hkeep1 cs h0 hl
  have hlc : (free (w.obj b).data h1).lookup c.data = h1.lookup c.data := by
    rw [lookup_free, if_neg (fun hh => hbf (by rw [← hcd]; exact hh.2))]
  have hca2 : AlignedVector.cells (free (w.obj b).data h1) (w.obj a) =
      AlignedVector.cells w.heap (w.obj a) :=
    AlignedVector.cells_frame _ _ _ hva hkeep2
  have hcc2 : AlignedVector.cells (free (w.obj b).data h1) c =
      AlignedVector.cells w.heap (w.obj a) := by
    rw [AlignedVector.cells_congr _ h1 c hlc]
    exact hcc
  have hca1 : AlignedVector.cells h1 (w.obj a) = AlignedVector.cells w.heap (w.obj a) :=
    AlignedVector.cells_frame _ _ _ hva hkeep1
  have hload : ∀ (hh : Heap α),
      AlignedVector.cells hh (w.obj a) = AlignedVector.cells w.heap (w.obj a) →
      (∀ i, i < (w.obj a).size →
        ∃ x, w.heap.load (w.obj a).data i = some x ∧ eq x x = true) →
      ∀ i, i < (w.obj a).size_ → ∃ x, hh.load (w.obj a).data i = some x ∧ eq x x = true := by
    intro hh hce hr i hi
    obtain ⟨x, hx1, hx2⟩ := hr i hi
    refine ⟨x, ?_, hx2⟩
    rw [AlignedVector.load_eq_cells hh _ i hi, hce, ← AlignedVector.load_eq_cells w.heap _ i hi]
    exact hx1
  constructor
  · refine ⟨_, hm1, ?_⟩
    simp only [Function.update_same, Function.update_noteq hab, ne_eq, not_false_eq_true]
    refine ⟨trivial, hcs, ?_, ?_, ?_, ?_, ?_⟩
    · intro hr
      exact Machine.operator_eq_of_cells_machine eq _ _ _ hcs.symm (by rw [hca2, hcc2])
        (hload _ hca2 hr)
    · exact fun j => AlignedVector.at_congr _ _ _ _ rfl hca2 j
    · intro i x j
      exact AlignedVector.at_after_method w.heap _ (w.obj a) c hva hkeep2 hcne _
        (fun q hq _ => AlignedVector.lookup_at_put_frame i x c _ q hq) j
    · intro value out j ho
      exact AlignedVector.at_after_method w.heap _ (w.obj a) c hva hkeep2 hcne out
        (fun q hq hf => Machine.lookup_emplace_back_frame_machine L value c _ out ho q hq hf) j
    · intro n value out j ho
      exact AlignedVector.at_after_method w.heap _ (w.obj a) c hva hkeep2 hcne out
        (fun q hq hf => Machine.lookup_resize_frame_machine L n value c _ out ho q hq hf) j
  · refine ⟨c, h1, hm2, hcs, ?_, ?_, ?_, ?_, ?_⟩
    · intro hr
      exact Machine.operator_eq_of_cells_machine eq _ _ _ hcs.symm (by rw [hca1, hcc])
        (hload _ hca1 hr)
    · exact fun j => AlignedVector.at_congr _ _ _ _ rfl hca1 j
    · intro i x j
      exact AlignedVector.at_after_method w.heap _ (w.obj a) c hva hkeep1 hcne _
        (fun q hq _ => AlignedVector.lookup_at_put_frame i x c _ q hq) j
    · intro value out j ho
      exact AlignedVector.at_after_method w.heap _ (w.obj a) c hva hkeep1 hcne out
        (fun q hq hf => Machine.lookup_emplace_back_frame_machine L value c _ out ho q hq hf) j
    · intro n value out j ho
      exact AlignedVector.at_after_method w.heap _ (w.obj a) c hva hkeep1 hcne out
        (fun q hq hf => Machine.lookup_resize_frame_machine L n value c _ out ho q hq hf) j

/-- C7, amended, at an instance: object 1 of the sample world is assigned a copy of object
0 (elements 10, 20 of four bytes, compared with `==` on numbers); a later
`push_back(7)` and a later `resize(9, 7)` on the copy have defined behaviour and leave
the elements 10, 20 of object 0. -/
theorem C7_copy_independent_witness :
    sample_layout.ok ∧ (0 : Nat) ≠ 1 ∧
    AlignedVector.Valid sample_world.heap (sample_world.obj 0) ∧
    AlignedVector.Valid sample_world.heap (sample_world.obj 1) ∧
    ((sample_world.obj 0).data = 0 ∨ (sample_world.obj 1).data ≠ (sample_world.obj 0).data) ∧
    sample_world.heap.grants ∧ sample_layout.fits (sample_world.obj 0).capacity ∧
    (∃ w1, Machine.World.copy_assign sample_layout 1 0 sample_world = some (none, w1) ∧
      w1.obj 0 = sample_world.obj 0 ∧ (w1.obj 1).size = (sample_world.obj 0).size ∧
      Machine.operator_eq (fun x y => x == y) (w1.obj 0) (w1.obj 1) w1.heap = some true ∧
      (∀ value out j,
        Machine.AlignedVector.push_back sample_layout value (w1.obj 1) w1.heap = some out →
        AlignedVector.at_ j (sample_world.obj 0) out.heap =
          AlignedVector.at_ j (sample_world.obj 0) sample_world.heap)) ∧
    ((Machine.World.copy_assign sample_layout 1 0 sample_world).bind
        (fun r => Machine.AlignedVector.push_back sample_layout (ArgRef.object 7) (r.2.obj 1)
          r.2.heap)).map
        (fun out => (out.thrown, out.vec.size, out.heap.load (sample_world.obj 0).data 0,
          out.heap.load (sample_world.obj 0).data 1)) =
      some (none, 3, some 10, some 20) ∧
    ((Machine.World.copy_assign sample_layout 1 0 sample_world).bind
        (fun r => Machine.AlignedVector.resize sample_layout 9 (ArgRef.object 7) (r.2.obj 1)
          r.2.heap)).map
        (fun out => (out.thrown, out.vec.size, out.heap.load (sample_world.obj 0).data 0,
          out.heap.load (sample_world.obj 0).data 1)) =
      some (none, 9, some 10, some 20) :=
  ⟨by decide, by decide, by decide, by decide, by decide, by decide, by decide,
    (C7_copy_independent sample_layout (fun x y => x == y) sample_world 0 1 (by decide)
      (by decide) (by decide) (by decide) (by decide) (by decide) (by decide)).1.imp
      (fun _ hw => ⟨hw.1, hw.2.1, hw.2.2.1,
        hw.2.2.2.1 (fun i hi => by
          have h2 : i < 2 := hi
          interval_cases i
          · exact ⟨10, rfl, rfl⟩
          · exact ⟨20, rfl, rfl⟩),
        hw.2.2.2.2.2.2.1⟩),
    by decide, by decide⟩

end xarrow
